import Mathlib

/-!
# Coverage-select loss of cuboid primitives

A shallow embedding of `src/cext/src/primitive_coverage_select_loss.cu.cc`.

Modelling conventions.

* `float` values are elements of a linearly ordered field `F` with exact arithmetic; the
  square root used by `normalize` is a parameter `sqrt : F → F`.  Theorems that need it assume
  `IsSqrt sqrt`, which `Real.sqrt` satisfies.
* Flat device buffers are total functions from a natural-number offset to the cell content.
* A `CUDA_1D_KERNEL_LOOP` runs its body once for every index below `nthreads`; the threads are
  run one after the other in increasing index order and `CudaAtomicAdd` is a plain addition.
* Scratch tensors obtained from `allocate_temp` start with arbitrary content, which is a
  parameter of the two host functions.
* Exact arithmetic has no overflow, no underflow and no NaN.  Statements whose truth depends on
  them (a gradient entry that is exactly zero, a loss that is zero exactly when every point is
  covered) are made over a second embedding of the same kernels, over binary32 values with
  infinities and NaN (namespace `Binary32`).
-/

namespace CuboidAbstraction

/-- Three float registers `x`, `y`, `z` passed by pointer to the matrix-vector kernels. -/
structure Vec3 (F : Type) where
  x : F
  y : F
  z : F

/-- Four float registers `w`, `x`, `y`, `z` holding a quaternion. -/
structure Quat (F : Type) where
  w : F
  x : F
  y : F
  z : F

/-- A `float[9]` array holding a row-major 3x3 matrix. -/
structure Mat9 (F : Type) where
  m0 : F
  m1 : F
  m2 : F
  m3 : F
  m4 : F
  m5 : F
  m6 : F
  m7 : F
  m8 : F

/-- The three gradient output buffers `grad_z`, `grad_q`, `grad_t`. -/
structure GradBufs (F : Type) where
  grad_z : Nat → F
  grad_q : Nat → F
  grad_t : Nat → F

section Model

variable {F : Type} [LinearOrderedField F]

/-- The constant `FLT_MAX` of `<cfloat>`: the largest finite single-precision value. -/
def FLT_MAX : F := (2 ^ 24 - 1) * 2 ^ 104

/-- Macro `SIGN(a) (((a)>=0)?(1):(-1))`. -/
def SIGN (a : F) : F := if a ≥ 0 then 1 else -1

/-- Modelled from the spec: the macro `MAX` comes from `primitive_util.h`, which is not part of
the sources; the spec describes its use as `max(|local_axis| - scale, 0)`. -/
def MAX (a b : F) : F := max a b

/-- Modelled from the spec: `primitive::gpu_set_zero` comes from `primitive_util.h`, which is not
part of the sources; the spec says the buffers are zero-initialised, so the first `n` cells of the
buffer become zero. -/
def gpu_set_zero (buf : Nat → F) (n : Nat) : Nat → F :=
  fun i => if i < n then 0 else buf i

/-- Device function `CudaAtomicAdd(ptr + i, v)`: adds `v` to the cell at offset `i`. -/
def CudaAtomicAdd (buf : Nat → F) (i : Nat) (v : F) : Nat → F :=
  Function.update buf i (buf i + v)

/-- Macro `CUDA_1D_KERNEL_LOOP(index, nthreads)`: the body runs once for every `index < nthreads`. -/
def CUDA_1D_KERNEL_LOOP {S : Type} (nthreads : Nat) (body : Nat → S → S) (s : S) : S :=
  (List.range nthreads).foldl (fun acc index => body index acc) s

/-- Device function `matvec_kernel`: `(x, y, z) := m * (x, y, z)`. -/
def matvec_kernel (m : Mat9 F) (v : Vec3 F) : Vec3 F :=
  let tx := m.m0 * v.x + m.m1 * v.y + m.m2 * v.z
  let ty := m.m3 * v.x + m.m4 * v.y + m.m5 * v.z
  let tz := m.m6 * v.x + m.m7 * v.y + m.m8 * v.z
  ⟨tx, ty, tz⟩

/-- Device function `t_matvec_kernel`: `(x, y, z) := transpose(m) * (x, y, z)`. -/
def t_matvec_kernel (m : Mat9 F) (v : Vec3 F) : Vec3 F :=
  let tx := m.m0 * v.x + m.m3 * v.y + m.m6 * v.z
  let ty := m.m1 * v.x + m.m4 * v.y + m.m7 * v.z
  let tz := m.m2 * v.x + m.m5 * v.y + m.m8 * v.z
  ⟨tx, ty, tz⟩

/-- Device function `diag`. -/
def diag (a b : F) : F := 1 - 2 * a * a - 2 * b * b

/-- Device function `tr_add`. -/
def tr_add (a b c d : F) : F := 2 * a * b + 2 * c * d

/-- Device function `tr_sub`. -/
def tr_sub (a b c d : F) : F := 2 * a * b - 2 * c * d

/-- Device function `conjugate`: negates the vector part in place. -/
def conjugate (q : Quat F) : Quat F := ⟨q.w, -q.x, -q.y, -q.z⟩

/-- Device function `normalize`: divides the four components by the square root of the sum of their squares. -/
def normalize (sqrt : F → F) (q : Quat F) : Quat F :=
  let norm := sqrt (q.w * q.w + q.x * q.x + q.y * q.y + q.z * q.z)
  ⟨q.w / norm, q.x / norm, q.y / norm, q.z / norm⟩

/-- Device function `as_rotation_matrix`: normalises its by-value arguments and fills `m[0..8]`. -/
def as_rotation_matrix (sqrt : F → F) (q : Quat F) : Mat9 F :=
  let n := normalize sqrt q
  let w := n.w
  let x := n.x
  let y := n.y
  let z := n.z
  { m0 := diag y z, m1 := tr_sub x y z w, m2 := tr_add x z y w,
    m3 := tr_add x y z w, m4 := diag x z, m5 := tr_sub y z x w,
    m6 := tr_sub x z y w, m7 := tr_add y z x w, m8 := diag x y }

/-- Device function `grad_rotation_matrix_to_quaternion` (the live "version two"). -/
def grad_rotation_matrix_to_quaternion (m : Mat9 F) (q : Quat F) : Quat F :=
  let w := q.w
  let x := q.x
  let y := q.y
  let z := q.z
  let w2 := w * w
  let x2 := x * x
  let y2 := y * y
  let z2 := z * z
  let wx := w * x
  let wy := w * y
  let wz := w * z
  let xy := x * y
  let xz := x * z
  let yz := y * z
  let s := 1 / (w2 + x2 + y2 + z2)
  let s2 := s * s
  { w :=
      m.m0 * (4 * w * (y2 + z2) * s2) +
      m.m1 * (4 * w * (wz - xy) * s2 - 2 * z * s) +
      m.m2 * (2 * y * s - 4 * w * (wy + xz) * s2) +
      m.m3 * (2 * z * s - 4 * w * (wz + xy) * s2) +
      m.m4 * (4 * w * (x2 + z2) * s2) +
      m.m5 * (4 * w * (wx - yz) * s2 - 2 * x * s) +
      m.m6 * (4 * w * (wy - xz) * s2 - 2 * y * s) +
      m.m7 * (2 * x * s - 4 * w * (wx + yz) * s2) +
      m.m8 * (4 * w * (x2 + y2) * s2),
    x :=
      m.m0 * (4 * x * (y2 + z2) * s2) +
      m.m1 * (4 * x * (wz - xy) * s2 + 2 * y * s) +
      m.m2 * (2 * z * s - 4 * x * (wy + xz) * s2) +
      m.m3 * (2 * y * s - 4 * x * (wz + xy) * s2) +
      m.m4 * (4 * x * (x2 + z2) * s2 - 4 * x * s) +
      m.m5 * (4 * x * (wx - yz) * s2 - 2 * w * s) +
      m.m6 * (4 * x * (wy - xz) * s2 + 2 * z * s) +
      m.m7 * (2 * w * s - 4 * x * (wx + yz) * s2) +
      m.m8 * (4 * x * (x2 + y2) * s2 - 4 * x * s),
    y :=
      m.m0 * (4 * y * (y2 + z2) * s2 - 4 * y * s) +
      m.m1 * (4 * y * (wz - xy) * s2 + 2 * x * s) +
      m.m2 * (2 * w * s - 4 * y * (wy + xz) * s2) +
      m.m3 * (2 * x * s - 4 * y * (wz + xy) * s2) +
      m.m4 * (4 * y * (x2 + z2) * s2) +
      m.m5 * (4 * y * (wx - yz) * s2 + 2 * z * s) +
      m.m6 * (4 * y * (wy - xz) * s2 - 2 * w * s) +
      m.m7 * (2 * z * s - 4 * y * (wx + yz) * s2) +
      m.m8 * (4 * y * (x2 + y2) * s2 - 4 * y * s),
    z :=
      m.m0 * (4 * z * (y2 + z2) * s2 - 4 * z * s) +
      m.m1 * (4 * z * (wz - xy) * s2 - 2 * w * s) +
      m.m2 * (2 * x * s - 4 * z * (wy + xz) * s2) +
      m.m3 * (2 * w * s - 4 * z * (wz + xy) * s2) +
      m.m4 * (4 * z * (x2 + z2) * s2 - 4 * z * s) +
      m.m5 * (4 * z * (wx - yz) * s2 + 2 * y * s) +
      m.m6 * (4 * z * (wy - xz) * s2 + 2 * x * s) +
      m.m7 * (2 * y * s - 4 * z * (wx + yz) * s2) +
      m.m8 * (4 * z * (x2 + y2) * s2) }

/-- The "version one" of `grad_rotation_matrix_to_quaternion` that the source keeps as a comment
(lines 72-101): the gradient with respect to the normalised quaternion, multiplied by the
Jacobian of the normalisation. -/
def grad_rotation_matrix_to_quaternion_version_one (sqrt : F → F) (m : Mat9 F) (q : Quat F) :
    Quat F :=
  let qw := q.w
  let qx := q.x
  let qy := q.y
  let qz := q.z
  let n := normalize sqrt ⟨qw, qx, qy, qz⟩
  let nqw := n.w
  let nqx := n.x
  let nqy := n.y
  let nqz := n.z
  let t_gqw := 2 * nqx * (-m.m5 + m.m7) + 2 * nqy * (m.m2 - m.m6) +
    2 * nqz * (-m.m1 + m.m3)
  let t_gqx := 2 * nqw * (-m.m5 + m.m7) + 4 * nqx * (-m.m4 - m.m8) +
    2 * nqy * (m.m1 + m.m3) + 2 * nqz * (m.m2 + m.m6)
  let t_gqy := 2 * nqw * (m.m2 - m.m6) + 2 * nqx * (m.m1 + m.m3) +
    4 * nqy * (-m.m0 - m.m8) + 2 * nqz * (m.m5 + m.m7)
  let t_gqz := 2 * nqw * (-m.m1 + m.m3) + 2 * nqx * (m.m2 + m.m6) +
    2 * nqy * (m.m5 + m.m7) + 4 * nqz * (-m.m0 - m.m4)
  let denominator := sqrt ((qw * qw + qx * qx + qy * qy + qz * qz) ^ 3)
  { w := (qx * qx + qy * qy + qz * qz) / denominator * t_gqw +
      (-qx * qw) / denominator * t_gqx +
      (-qy * qw) / denominator * t_gqy +
      (-qz * qw) / denominator * t_gqz,
    x := (-qw * qx) / denominator * t_gqw +
      (qw * qw + qy * qy + qz * qz) / denominator * t_gqx +
      (-qy * qx) / denominator * t_gqy +
      (-qz * qx) / denominator * t_gqz,
    y := (-qw * qy) / denominator * t_gqw +
      (-qx * qy) / denominator * t_gqx +
      (qw * qw + qx * qx + qz * qz) / denominator * t_gqy +
      (-qz * qy) / denominator * t_gqz,
    z := (-qw * qz) / denominator * t_gqw +
      (-qx * qz) / denominator * t_gqx +
      (-qy * qz) / denominator * t_gqy +
      (qw * qw + qx * qx + qy * qy) / denominator * t_gqz }

/-- Conversion `static_cast<int>(x)` of a float: truncation towards zero. -/
def static_cast_int [FloorRing F] (x : F) : Int := if 0 ≤ x then Int.floor x else Int.ceil x

/-- One thread of the kernel `fill_point_cube_distance`.  Offsets into the buffers are natural
numbers; a batch index is the truncated fourth row of `in_pos` (a negative one would address
memory before the buffers and is read here as `0`). -/
def fill_point_cube_distance_thread [FloorRing F] (sqrt : F → F) (n_cube n_point : Nat)
    (in_z in_q in_t : Nat → F) (in_mask : Nat → Int) (in_pos : Nat → F)
    (index : Nat) (point_cube_distance : Nat → F) : Nat → F :=
  let point_index := index / n_cube
  let cube_index := index % n_cube
  let batch_index := (static_cast_int (in_pos (3 * n_point + point_index))).toNat
  let cube_mask := in_mask (batch_index * n_cube + cube_index)
  if cube_mask = 1 then
    let px := in_pos (0 * n_point + point_index)
    let py := in_pos (1 * n_point + point_index)
    let pz := in_pos (2 * n_point + point_index)
    let z := fun k => in_z ((batch_index * n_cube + cube_index) * 3 + k)
    let q := fun k => in_q ((batch_index * n_cube + cube_index) * 4 + k)
    let t := fun k => in_t ((batch_index * n_cube + cube_index) * 3 + k)
    let px := px - t 0
    let py := py - t 1
    let pz := pz - t 2
    let qc := conjugate ⟨q 0, q 1, q 2, q 3⟩
    let rotation_matrix := as_rotation_matrix sqrt qc
    let p := matvec_kernel rotation_matrix ⟨px, py, pz⟩
    let dx := MAX (|p.x| - z 0) 0
    let dy := MAX (|p.y| - z 1) 0
    let dz := MAX (|p.z| - z 2) 0
    Function.update point_cube_distance (point_index * n_cube + cube_index)
      (dx * dx + dy * dy + dz * dz)
  else
    Function.update point_cube_distance (point_index * n_cube + cube_index) FLT_MAX

/-- Kernel `fill_point_cube_distance`. -/
def fill_point_cube_distance [FloorRing F] (sqrt : F → F) (nthreads n_cube n_point : Nat)
    (in_z in_q in_t : Nat → F) (in_mask : Nat → Int) (in_pos : Nat → F)
    (point_cube_distance : Nat → F) : Nat → F :=
  CUDA_1D_KERNEL_LOOP nthreads
    (fill_point_cube_distance_thread sqrt n_cube n_point in_z in_q in_t in_mask in_pos)
    point_cube_distance

/-- The scan of one thread of `get_min_distance_cube_index` over its row `distance`:
`min_val = distance[0]`, `min_idx = 0`, then `for (i = 1; i < n_cube; ++i)` with a strict `<`.
The result is the pair `(min_val, min_idx)`. -/
def get_min_distance_cube_index_scan (n_cube : Nat) (distance : Nat → F) : F × Nat :=
  (List.range' 1 (n_cube - 1)).foldl
    (fun (st : F × Nat) i =>
      let d := distance i
      if d < st.1 then (d, i) else st)
    (distance 0, 0)

/-- One thread of the kernel `get_min_distance_cube_index`. -/
def get_min_distance_cube_index_thread (n_cube : Nat) (point_cube_distance : Nat → F)
    (index : Nat) (min_distance_cube_index : Nat → Nat) : Nat → Nat :=
  let distance := fun i => point_cube_distance (index * n_cube + i)
  Function.update min_distance_cube_index index
    (get_min_distance_cube_index_scan n_cube distance).2

/-- Kernel `get_min_distance_cube_index`. -/
def get_min_distance_cube_index (nthreads n_cube : Nat) (point_cube_distance : Nat → F)
    (min_distance_cube_index : Nat → Nat) : Nat → Nat :=
  CUDA_1D_KERNEL_LOOP nthreads
    (get_min_distance_cube_index_thread n_cube point_cube_distance)
    min_distance_cube_index

/-- One thread of the kernel `get_coverage_loss`; the state is the cell `*loss_ptr`. -/
def get_coverage_loss_thread (n_cube n_point : Nat) (point_cube_distance : Nat → F)
    (min_distance_cube_index : Nat → Nat) (index : Nat) (loss : F) : F :=
  let distance := point_cube_distance (index * n_cube + min_distance_cube_index index)
  loss + distance / (n_point : F)

/-- Kernel `get_coverage_loss`. -/
def get_coverage_loss (nthreads n_cube n_point : Nat) (point_cube_distance : Nat → F)
    (min_distance_cube_index : Nat → Nat) (loss : F) : F :=
  CUDA_1D_KERNEL_LOOP nthreads
    (get_coverage_loss_thread n_cube n_point point_cube_distance min_distance_cube_index)
    loss

/-- Host function `compute_coverage_select_loss`.  `pcd0` and `idx0` are the initial contents
of the two scratch tensors, `loss0` the initial content of `*loss_ptr`. -/
def compute_coverage_select_loss [FloorRing F] (sqrt : F → F) (n_cube n_point : Nat)
    (in_z in_q in_t : Nat → F) (in_mask : Nat → Int) (in_pos : Nat → F)
    (pcd0 : Nat → F) (idx0 : Nat → Nat) (loss0 : F) : F :=
  let point_cube_distance :=
    fill_point_cube_distance sqrt (n_point * n_cube) n_cube n_point in_z in_q in_t in_mask in_pos
      pcd0
  let min_distance_cube_index :=
    get_min_distance_cube_index n_point n_cube point_cube_distance idx0
  let loss := (gpu_set_zero (fun _ => loss0) 1) 0
  get_coverage_loss n_point n_cube n_point point_cube_distance min_distance_cube_index loss

/-- One thread of the kernel `fill_grad_point_cube_distance`; `loss` is the cell `*loss`, which
holds the upstream gradient. -/
def fill_grad_point_cube_distance_thread (n_cube n_point : Nat) (loss : F)
    (min_distance_cube_index : Nat → Nat) (index : Nat) (grad_point_cube_distance : Nat → F) :
    Nat → F :=
  Function.update grad_point_cube_distance (index * n_cube + min_distance_cube_index index)
    (loss / (n_point : F))

/-- Kernel `fill_grad_point_cube_distance`. -/
def fill_grad_point_cube_distance (nthreads n_cube n_point : Nat) (loss : F)
    (min_distance_cube_index : Nat → Nat) (grad_point_cube_distance : Nat → F) : Nat → F :=
  CUDA_1D_KERNEL_LOOP nthreads
    (fill_grad_point_cube_distance_thread n_cube n_point loss min_distance_cube_index)
    grad_point_cube_distance

/-- One thread of the kernel `fill_grad_wrt_zqt`, acting on the three gradient buffers. -/
def fill_grad_wrt_zqt_thread [FloorRing F] (sqrt : F → F) (n_cube n_point : Nat)
    (in_z in_q in_t : Nat → F) (in_mask : Nat → Int) (in_pos : Nat → F)
    (grad_point_cube_distance : Nat → F) (index : Nat) (G : GradBufs F) : GradBufs F :=
  let point_index := index / n_cube
  let cube_index := index % n_cube
  let batch_index := (static_cast_int (in_pos (3 * n_point + point_index))).toNat
  let cube_mask := in_mask (batch_index * n_cube + cube_index)
  if cube_mask = 1 then
    let px := in_pos (0 * n_point + point_index)
    let py := in_pos (1 * n_point + point_index)
    let pz := in_pos (2 * n_point + point_index)
    let z := fun k => in_z ((batch_index * n_cube + cube_index) * 3 + k)
    let q := fun k => in_q ((batch_index * n_cube + cube_index) * 4 + k)
    let t := fun k => in_t ((batch_index * n_cube + cube_index) * 3 + k)
    let px := px - t 0
    let py := py - t 1
    let pz := pz - t 2
    let tmp_px := px
    let tmp_py := py
    let tmp_pz := pz
    let qc := conjugate ⟨q 0, q 1, q 2, q 3⟩
    let tmp_q := qc
    let rotation_matrix := as_rotation_matrix sqrt qc
    let p := matvec_kernel rotation_matrix ⟨px, py, pz⟩
    let dx := MAX (|p.x| - z 0) 0
    let dy := MAX (|p.y| - z 1) 0
    let dz := MAX (|p.z| - z 2) 0
    let gz := (batch_index * n_cube + cube_index) * 3
    let gq := (batch_index * n_cube + cube_index) * 4
    let gt := (batch_index * n_cube + cube_index) * 3
    let grad_distance := grad_point_cube_distance (point_index * n_cube + cube_index)
    let gdx := grad_distance * 2 * dx
    let gdy := grad_distance * 2 * dy
    let gdz := grad_distance * 2 * dz
    -- gradient w.r.t. z: each `if`/`else` block updates the buffer `grad_z` and the register `gd*`
    let grad_z := if |p.x| - z 0 > 0 then CudaAtomicAdd G.grad_z (gz + 0) (-gdx) else G.grad_z
    let gdx := if |p.x| - z 0 > 0 then gdx * SIGN p.x else 0
    let grad_z := if |p.y| - z 1 > 0 then CudaAtomicAdd grad_z (gz + 1) (-gdy) else grad_z
    let gdy := if |p.y| - z 1 > 0 then gdy * SIGN p.y else 0
    let grad_z := if |p.z| - z 2 > 0 then CudaAtomicAdd grad_z (gz + 2) (-gdz) else grad_z
    let gdz := if |p.z| - z 2 > 0 then gdz * SIGN p.z else 0
    -- gradient w.r.t. q
    let grad_rotation_matrix : Mat9 F :=
      { m0 := gdx * tmp_px, m1 := gdx * tmp_py, m2 := gdx * tmp_pz,
        m3 := gdy * tmp_px, m4 := gdy * tmp_py, m5 := gdy * tmp_pz,
        m6 := gdz * tmp_px, m7 := gdz * tmp_py, m8 := gdz * tmp_pz }
    let g := conjugate (grad_rotation_matrix_to_quaternion grad_rotation_matrix tmp_q)
    let grad_q := CudaAtomicAdd G.grad_q (gq + 0) g.w
    let grad_q := CudaAtomicAdd grad_q (gq + 1) g.x
    let grad_q := CudaAtomicAdd grad_q (gq + 2) g.y
    let grad_q := CudaAtomicAdd grad_q (gq + 3) g.z
    let gd := t_matvec_kernel rotation_matrix ⟨gdx, gdy, gdz⟩
    -- gradient w.r.t. t
    let grad_t := CudaAtomicAdd G.grad_t (gt + 0) (-gd.x)
    let grad_t := CudaAtomicAdd grad_t (gt + 1) (-gd.y)
    let grad_t := CudaAtomicAdd grad_t (gt + 2) (-gd.z)
    ⟨grad_z, grad_q, grad_t⟩
  else
    G

/-- Kernel `fill_grad_wrt_zqt`. -/
def fill_grad_wrt_zqt [FloorRing F] (sqrt : F → F) (nthreads n_cube n_point : Nat)
    (in_z in_q in_t : Nat → F) (in_mask : Nat → Int) (in_pos : Nat → F)
    (grad_point_cube_distance : Nat → F) (G : GradBufs F) : GradBufs F :=
  CUDA_1D_KERNEL_LOOP nthreads
    (fill_grad_wrt_zqt_thread sqrt n_cube n_point in_z in_q in_t in_mask in_pos
      grad_point_cube_distance)
    G

/-- Host function `compute_coverage_select_loss_grad`.  `loss` is the upstream gradient,
`pcd0`, `idx0`, `gpcd0` are the initial contents of the three scratch tensors and `G0` the
initial contents of the three output buffers. -/
def compute_coverage_select_loss_grad [FloorRing F] (sqrt : F → F)
    (n_cube n_point batch_size : Nat) (loss : F)
    (in_z in_q in_t : Nat → F) (in_mask : Nat → Int) (in_pos : Nat → F)
    (pcd0 : Nat → F) (idx0 : Nat → Nat) (gpcd0 : Nat → F) (G0 : GradBufs F) : GradBufs F :=
  let point_cube_distance :=
    fill_point_cube_distance sqrt (n_point * n_cube) n_cube n_point in_z in_q in_t in_mask in_pos
      pcd0
  let min_distance_cube_index :=
    get_min_distance_cube_index n_point n_cube point_cube_distance idx0
  let gpcd := gpu_set_zero gpcd0 (n_point * n_cube)
  let gpcd := fill_grad_point_cube_distance n_point n_cube n_point loss
    min_distance_cube_index gpcd
  let grad_z := gpu_set_zero G0.grad_z (batch_size * n_cube * 3)
  let grad_q := gpu_set_zero G0.grad_q (batch_size * n_cube * 4)
  let grad_t := gpu_set_zero G0.grad_t (batch_size * n_cube * 3)
  fill_grad_wrt_zqt sqrt (n_point * n_cube) n_cube n_point in_z in_q in_t in_mask in_pos
    gpcd ⟨grad_z, grad_q, grad_t⟩

/-! ### Vocabulary of the claims -/

/-- Predicate `IsSqrt sqrt`: on non-negative arguments `sqrt a` squares to `a`. -/
def IsSqrt (sqrt : F → F) : Prop := ∀ a : F, 0 ≤ a → sqrt a * sqrt a = a

/-- Batch index of point `p`: the truncated entry `p` of the fourth row of `in_pos`. -/
def batch_of [FloorRing F] (n_point : Nat) (in_pos : Nat → F) (p : Nat) : Nat :=
  (static_cast_int (in_pos (3 * n_point + p))).toNat

/-- Offset (in cuboids) of slot `c` of the batch element of point `p`. -/
def slot_of [FloorRing F] (n_cube n_point : Nat) (in_pos : Nat → F) (p c : Nat) : Nat :=
  batch_of n_point in_pos p * n_cube + c

/-- The three floats stored for cuboid `slot` in a `[batch, cube, 3]` buffer. -/
def vec3_at (buf : Nat → F) (slot : Nat) : Vec3 F :=
  ⟨buf (slot * 3 + 0), buf (slot * 3 + 1), buf (slot * 3 + 2)⟩

/-- The four floats stored for cuboid `slot` in the `[batch, cube, 4]` orientation buffer. -/
def quat_at (buf : Nat → F) (slot : Nat) : Quat F :=
  ⟨buf (slot * 4 + 0), buf (slot * 4 + 1), buf (slot * 4 + 2), buf (slot * 4 + 3)⟩

/-- Position of point `p`: the first three rows of `in_pos`. -/
def point_at (n_point : Nat) (in_pos : Nat → F) (p : Nat) : Vec3 F :=
  ⟨in_pos (0 * n_point + p), in_pos (1 * n_point + p), in_pos (2 * n_point + p)⟩

/-- Local-frame coordinates of the point `pos` for a cuboid with orientation `q` and translation
`t`: `as_rotation_matrix(conjugate(q))` applied to `pos - t`. -/
def local_coords (sqrt : F → F) (q : Quat F) (t pos : Vec3 F) : Vec3 F :=
  matvec_kernel (as_rotation_matrix sqrt (conjugate q)) ⟨pos.x - t.x, pos.y - t.y, pos.z - t.z⟩

/-- Clipped squared box distance of local coordinates `l` to the box of half-extents `z`. -/
def box_distance (z l : Vec3 F) : F :=
  MAX (|l.x| - z.x) 0 * MAX (|l.x| - z.x) 0 + MAX (|l.y| - z.y) 0 * MAX (|l.y| - z.y) 0 +
    MAX (|l.z| - z.z) 0 * MAX (|l.z| - z.z) 0

/-- Sum of the squares of the four components (the argument of `sqrt` in `normalize`). -/
def normSq (q : Quat F) : F := q.w * q.w + q.x * q.x + q.y * q.y + q.z * q.z

/-- The quaternion `k * q`. -/
def quat_smul (k : F) (q : Quat F) : Quat F := ⟨k * q.w, k * q.x, k * q.y, k * q.z⟩

/-- Hamilton product `a * b` of two quaternions. -/
def hamilton (a b : Quat F) : Quat F :=
  ⟨a.w * b.w - a.x * b.x - a.y * b.y - a.z * b.z,
   a.w * b.x + a.x * b.w + a.y * b.z - a.z * b.y,
   a.w * b.y - a.x * b.z + a.y * b.w + a.z * b.x,
   a.w * b.z + a.x * b.y - a.y * b.x + a.z * b.w⟩

/-- Numerators of `as_rotation_matrix q` applied to `v`: the polynomial `normSq q * (R v)`. -/
def rot_num (q : Quat F) (v : Vec3 F) : Vec3 F :=
  ⟨(normSq q - 2 * (q.y * q.y) - 2 * (q.z * q.z)) * v.x + (2 * (q.x * q.y) - 2 * (q.z * q.w)) * v.y +
      (2 * (q.x * q.z) + 2 * (q.y * q.w)) * v.z,
   (2 * (q.x * q.y) + 2 * (q.z * q.w)) * v.x + (normSq q - 2 * (q.x * q.x) - 2 * (q.z * q.z)) * v.y +
      (2 * (q.y * q.z) - 2 * (q.x * q.w)) * v.z,
   (2 * (q.x * q.z) - 2 * (q.y * q.w)) * v.x + (2 * (q.y * q.z) + 2 * (q.x * q.w)) * v.y +
      (normSq q - 2 * (q.x * q.x) - 2 * (q.y * q.y)) * v.z⟩

/-- Gradient buffers that are zero everywhere. -/
def zero_grad : GradBufs F := ⟨fun _ => 0, fun _ => 0, fun _ => 0⟩

/-- Contribution of the pair with flat index `index` to the gradient buffers: what the thread
`index` of `fill_grad_wrt_zqt` adds, observed on buffers that are zero everywhere. -/
def pair_contribution [FloorRing F] (sqrt : F → F) (n_cube n_point : Nat)
    (in_z in_q in_t : Nat → F) (in_mask : Nat → Int) (in_pos : Nat → F)
    (grad_point_cube_distance : Nat → F) (index : Nat) : GradBufs F :=
  fill_grad_wrt_zqt_thread sqrt n_cube n_point in_z in_q in_t in_mask in_pos
    grad_point_cube_distance index zero_grad

/-- The routed gradient: the buffer `grad_point_cube_distance` that
`compute_coverage_select_loss_grad` passes to `fill_grad_wrt_zqt`. -/
def routed_gradient [FloorRing F] (sqrt : F → F) (n_cube n_point : Nat) (loss : F)
    (in_z in_q in_t : Nat → F) (in_mask : Nat → Int) (in_pos : Nat → F)
    (pcd0 : Nat → F) (idx0 : Nat → Nat) (gpcd0 : Nat → F) : Nat → F :=
  fill_grad_point_cube_distance n_point n_cube n_point loss
    (get_min_distance_cube_index n_point n_cube
      (fill_point_cube_distance sqrt (n_point * n_cube) n_cube n_point in_z in_q in_t in_mask
        in_pos pcd0) idx0)
    (gpu_set_zero gpcd0 (n_point * n_cube))

/-- Signed, axis-clipped coordinate gradient of one axis: the register `gdx` (`gdy`, `gdz`)
after the scale block of `fill_grad_wrt_zqt`, for local coordinate `l`, half-extent `z` and
routed gradient `g`. -/
def axis_grad (l z g : F) : F := if |l| - z > 0 then g * 2 * MAX (|l| - z) 0 * SIGN l else 0

/-- Effect of the scale block of one axis on the buffer `grad_z`. -/
def axis_add (buf : Nat → F) (i : Nat) (l z g : F) : Nat → F :=
  if |l| - z > 0 then CudaAtomicAdd buf i (-(g * 2 * MAX (|l| - z) 0)) else buf

/-- Value the scale block of one axis adds to the scale gradient. -/
def axis_grad_z (l z g : F) : F := if |l| - z > 0 then -(g * 2 * MAX (|l| - z) 0) else 0

/-- The vector `(gdx, gdy, gdz)` of signed, axis-clipped coordinate gradients. -/
def clipped_grad (z l : Vec3 F) (g : F) : Vec3 F :=
  ⟨axis_grad l.x z.x g, axis_grad l.y z.y g, axis_grad l.z z.z g⟩

/-- Outer product `a bᵀ` as a row-major `float[9]` (the array `grad_rotation_matrix`). -/
def outer (a b : Vec3 F) : Mat9 F :=
  { m0 := a.x * b.x, m1 := a.x * b.y, m2 := a.x * b.z,
    m3 := a.y * b.x, m4 := a.y * b.y, m5 := a.y * b.z,
    m6 := a.z * b.x, m7 := a.z * b.y, m8 := a.z * b.z }

/-- The four values `(gqw, gqx, gqy, gqz)` that a thread of `fill_grad_wrt_zqt` adds to the
orientation gradient of its slot. -/
def pair_grad_q (sqrt : F → F) (z : Vec3 F) (q : Quat F) (t pos : Vec3 F) (g : F) : Quat F :=
  conjugate (grad_rotation_matrix_to_quaternion
    (outer (clipped_grad z (local_coords sqrt q t pos) g) ⟨pos.x - t.x, pos.y - t.y, pos.z - t.z⟩)
    (conjugate q))

/-- The vector `(gdx, gdy, gdz)` after `t_matvec_kernel`; a thread of `fill_grad_wrt_zqt` adds
its negation to the translation gradient of its slot. -/
def pair_grad_t (sqrt : F → F) (z : Vec3 F) (q : Quat F) (t pos : Vec3 F) (g : F) : Vec3 F :=
  t_matvec_kernel (as_rotation_matrix sqrt (conjugate q))
    (clipped_grad z (local_coords sqrt q t pos) g)

/-- Sum of the entrywise products of two `float[9]` arrays: the linear functional
`sum over k of m[k] * r[k]`. -/
def mat_dot (m r : Mat9 F) : F :=
  m.m0 * r.m0 + m.m1 * r.m1 + m.m2 * r.m2 + m.m3 * r.m3 + m.m4 * r.m4 + m.m5 * r.m5 +
    m.m6 * r.m6 + m.m7 * r.m7 + m.m8 * r.m8

/-- Numerator of `mat_dot m (as_rotation_matrix q) - (m[0] + m[4] + m[8])` over `normSq q`. -/
def rot_poly (m : Mat9 F) (q : Quat F) : F :=
  m.m0 * (-(2 * (q.y * q.y)) - 2 * (q.z * q.z)) + m.m1 * (2 * (q.x * q.y) - 2 * (q.z * q.w)) +
    m.m2 * (2 * (q.x * q.z) + 2 * (q.y * q.w)) + m.m3 * (2 * (q.x * q.y) + 2 * (q.z * q.w)) +
    m.m4 * (-(2 * (q.x * q.x)) - 2 * (q.z * q.z)) + m.m5 * (2 * (q.y * q.z) - 2 * (q.x * q.w)) +
    m.m6 * (2 * (q.x * q.z) - 2 * (q.y * q.w)) + m.m7 * (2 * (q.y * q.z) + 2 * (q.x * q.w)) +
    m.m8 * (-(2 * (q.x * q.x)) - 2 * (q.y * q.y))

/-- The matrix whose first row is `v` and whose other rows are zero. -/
def row_x (v : Vec3 F) : Mat9 F :=
  { m0 := v.x, m1 := v.y, m2 := v.z, m3 := 0, m4 := 0, m5 := 0, m6 := 0, m7 := 0, m8 := 0 }

/-- The matrix whose second row is `v` and whose other rows are zero. -/
def row_y (v : Vec3 F) : Mat9 F :=
  { m0 := 0, m1 := 0, m2 := 0, m3 := v.x, m4 := v.y, m5 := v.z, m6 := 0, m7 := 0, m8 := 0 }

/-- The matrix whose third row is `v` and whose other rows are zero. -/
def row_z (v : Vec3 F) : Mat9 F :=
  { m0 := 0, m1 := 0, m2 := 0, m3 := 0, m4 := 0, m5 := 0, m6 := v.x, m7 := v.y, m8 := v.z }

/-- Component `j` of a quaternion, in the storage order `w, x, y, z`. -/
def quat_get {A : Type} (q : Quat A) (j : Nat) : A :=
  if j = 0 then q.w else if j = 1 then q.x else if j = 2 then q.y else q.z

/-- The quaternion `q` with component `j` replaced by `x`. -/
def quat_set {A : Type} (q : Quat A) (j : Nat) (x : A) : Quat A :=
  if j = 0 then ⟨x, q.x, q.y, q.z⟩ else if j = 1 then ⟨q.w, x, q.y, q.z⟩
  else if j = 2 then ⟨q.w, q.x, x, q.z⟩ else ⟨q.w, q.x, q.y, x⟩

/-- Component `k` of a vector, in the storage order `x, y, z`. -/
def vec3_get {A : Type} (v : Vec3 A) (k : Nat) : A :=
  if k = 0 then v.x else if k = 1 then v.y else v.z

/-- The vector `v` with component `k` replaced by `a`. -/
def vec3_set {A : Type} (v : Vec3 A) (k : Nat) (a : A) : Vec3 A :=
  if k = 0 then ⟨a, v.y, v.z⟩ else if k = 1 then ⟨v.x, a, v.z⟩ else ⟨v.x, v.y, a⟩

/-- Transpose of a row-major 3x3 matrix. -/
def transpose {A : Type} (m : Mat9 A) : Mat9 A :=
  { m0 := m.m0, m1 := m.m3, m2 := m.m6, m3 := m.m1, m4 := m.m4, m5 := m.m7,
    m6 := m.m2, m7 := m.m5, m8 := m.m8 }

/-! ### Concrete inputs used by the instances below -/

/-- Orientation buffer holding the identity quaternion `(1,0,0,0)` in every slot. -/
def identity_q : Nat → F := fun i => if i % 4 = 0 then 1 else 0

/-- Mask of a batch element with two slots: slot `0` inactive, slot `1` active. -/
def second_slot_mask : Nat → Int := fun i => if i = 1 then 1 else 0

/-- The `[4, 1]` point buffer of the single point `(x, 0, 0)` with batch index `0`. -/
def point_on_x_axis (x : F) : Nat → F := fun i => if i = 0 then x else 0

end Model

/-! ## The kernels over binary32 values

The definitions above compute in an exact field, where a product with zero is zero and a square
vanishes only at zero.  A binary32 `float` also overflows to an infinity, underflows to zero and
has NaN.  The definitions of this part repeat the kernels over a model of binary32 that has these
values; statements about an exact zero are made over this model.

* A value is a finite rational, `+inf`, `-inf` or NaN; the two zeros are one value, read as `+0`.
* The exact result `x` of an operation on finite values is rounded: it becomes an infinity when
  `|x|` reaches the binary32 overflow threshold `2^128 - 2^103`, and the finite value `r x`
  otherwise.  The rounding function `r` is a parameter of the type; the facts on it that the
  theorems use are collected in `IsRounding`.  `flush_to_zero` is the instance used at concrete
  inputs: it rounds the results of magnitude at most `2^-150` to zero, as binary32 does, and leaves
  the other values as they are (so it is the binary32 rounding on every trace whose values are
  binary32 numbers).
* Operations on infinities and NaN follow IEEE 754; a comparison with NaN is false.
* The square root and the macro `MAX` are parameters of the kernels.
-/

/-- A binary32 `float` value; `r` is the function that rounds the finite results of the arithmetic
operations. -/
inductive F32 (r : ℚ → ℚ) : Type where
  | fin (x : ℚ) : F32 r
  | pinf : F32 r
  | ninf : F32 r
  | nan : F32 r
  deriving DecidableEq

namespace F32

variable {r : ℚ → ℚ}

/-- The binary32 overflow threshold: a result of magnitude at least `2^128 - 2^103` rounds to an
infinity. -/
def OVERFLOW : ℚ := 2 ^ 128 - 2 ^ 103

/-- Rounding of the exact result `x` of an operation on finite values. -/
def round (r : ℚ → ℚ) (x : ℚ) : F32 r :=
  if OVERFLOW ≤ x then pinf else if x ≤ -OVERFLOW then ninf else fin (r x)

/-- Unary minus. -/
def neg : F32 r → F32 r
  | fin x => fin (-x)
  | pinf => ninf
  | ninf => pinf
  | nan => nan

/-- Function `abs` on a float. -/
def abs : F32 r → F32 r
  | fin x => fin |x|
  | pinf => pinf
  | ninf => pinf
  | nan => nan

/-- Addition: `inf + (-inf)` is NaN. -/
def add : F32 r → F32 r → F32 r
  | fin x, fin y => round r (x + y)
  | fin _, pinf => pinf
  | fin _, ninf => ninf
  | fin _, nan => nan
  | pinf, fin _ => pinf
  | pinf, pinf => pinf
  | pinf, ninf => nan
  | pinf, nan => nan
  | ninf, fin _ => ninf
  | ninf, pinf => nan
  | ninf, ninf => ninf
  | ninf, nan => nan
  | nan, _ => nan

/-- Subtraction: `a - b = a + (-b)`. -/
def sub (a b : F32 r) : F32 r := add a (neg b)

/-- Multiplication: `0 * inf` is NaN. -/
def mul : F32 r → F32 r → F32 r
  | fin x, fin y => round r (x * y)
  | fin x, pinf => if x = 0 then nan else if 0 < x then pinf else ninf
  | fin x, ninf => if x = 0 then nan else if 0 < x then ninf else pinf
  | fin _, nan => nan
  | pinf, fin y => if y = 0 then nan else if 0 < y then pinf else ninf
  | pinf, pinf => pinf
  | pinf, ninf => ninf
  | pinf, nan => nan
  | ninf, fin y => if y = 0 then nan else if 0 < y then ninf else pinf
  | ninf, pinf => ninf
  | ninf, ninf => pinf
  | ninf, nan => nan
  | nan, _ => nan

/-- Division: `0 / 0` and `inf / inf` are NaN, a non-zero value over zero is an infinity. -/
def div : F32 r → F32 r → F32 r
  | fin x, fin y =>
    if y = 0 then (if x = 0 then nan else if 0 < x then pinf else ninf) else round r (x / y)
  | fin _, pinf => fin 0
  | fin _, ninf => fin 0
  | fin _, nan => nan
  | pinf, fin y => if 0 ≤ y then pinf else ninf
  | pinf, pinf => nan
  | pinf, ninf => nan
  | pinf, nan => nan
  | ninf, fin y => if 0 ≤ y then ninf else pinf
  | ninf, pinf => nan
  | ninf, ninf => nan
  | ninf, nan => nan
  | nan, _ => nan

/-- Comparison `a < b`; false when an operand is NaN. -/
def lt : F32 r → F32 r → Bool
  | fin x, fin y => decide (x < y)
  | fin _, pinf => true
  | ninf, fin _ => true
  | ninf, pinf => true
  | _, _ => false

/-- Comparison `a <= b`; false when an operand is NaN. -/
def le : F32 r → F32 r → Bool
  | fin x, fin y => decide (x ≤ y)
  | fin _, pinf => true
  | ninf, fin _ => true
  | ninf, pinf => true
  | pinf, pinf => true
  | ninf, ninf => true
  | _, _ => false

instance : Neg (F32 r) := ⟨neg⟩

instance : Add (F32 r) := ⟨add⟩

instance : Sub (F32 r) := ⟨sub⟩

instance : Mul (F32 r) := ⟨mul⟩

instance : Div (F32 r) := ⟨div⟩

instance : LT (F32 r) := ⟨fun a b => lt a b = true⟩

instance : LE (F32 r) := ⟨fun a b => le a b = true⟩

instance (a b : F32 r) : Decidable (a < b) := inferInstanceAs (Decidable (lt a b = true))

instance (a b : F32 r) : Decidable (a ≤ b) := inferInstanceAs (Decidable (le a b = true))

/-- An integer constant of the source (`0`, `1`, `2`, `4`) converted to float. -/
instance (n : Nat) : OfNat (F32 r) n := ⟨fin (n : ℚ)⟩

/-- Conversion of an `int` operand (`n_point`) to float. -/
def of_int (n : Nat) : F32 r := round r (n : ℚ)

/-- A value that is neither an infinity nor NaN. -/
def IsFinite (a : F32 r) : Prop := ∃ x : ℚ, a = fin x

instance (a : F32 r) : Decidable (IsFinite a) :=
  match a with
  | fin x => isTrue ⟨x, rfl⟩
  | pinf => isFalse (fun h => h.elim (fun _ e => nomatch e))
  | ninf => isFalse (fun h => h.elim (fun _ e => nomatch e))
  | nan => isFalse (fun h => h.elim (fun _ e => nomatch e))

/-- A value that is `+inf` or a non-negative finite value that rounding leaves unchanged: what
an operation with a non-negative exact result returns. -/
def RoundedNonneg (a : F32 r) : Prop := a = pinf ∨ ∃ x : ℚ, a = fin x ∧ 0 ≤ x ∧ r x = x

/-- Conversion `static_cast<int>(x)`: truncation towards zero.  The conversion of an infinity or
of NaN is undefined in C++ and is read here as `0`. -/
def static_cast_int : F32 r → Int
  | fin x => if 0 ≤ x then Int.floor x else Int.ceil x
  | _ => 0

end F32

/-- Rounding that models underflow only: a result of magnitude at most `2^-150` (half of the
smallest positive binary32 number) becomes zero, every other result is kept. -/
def flush_to_zero (x : ℚ) : ℚ := if -(1 / 2 ^ 150) ≤ x ∧ x ≤ 1 / 2 ^ 150 then 0 else x

/-- The facts on the rounding of finite results that the theorems use.  They hold of the binary32
round-to-nearest and of `flush_to_zero`. -/
structure IsRounding (r : ℚ → ℚ) : Prop where
  zero : r 0 = 0
  one : r 1 = 1
  mono : ∀ x y : ℚ, x ≤ y → r x ≤ r y
  idem : ∀ x : ℚ, r (r x) = r x

namespace Binary32

variable {r : ℚ → ℚ}

/-- The constant `FLT_MAX` of `<cfloat>`. -/
def FLT_MAX : F32 r := F32.fin ((2 ^ 24 - 1) * 2 ^ 104)

/-- Macro `SIGN(a) (((a)>=0)?(1):(-1))`. -/
def SIGN (a : F32 r) : F32 r := if a ≥ 0 then 1 else -1

/-- Modelled from the spec: the macro `MAX` comes from `primitive_util.h`, which is not part of
the sources; the spec describes its use as `max(|local_axis| - scale, 0)`.  This is the usual
definition `((a) > (b) ? (a) : (b))`, which gives `b` when `a` is NaN. -/
def MAX_gt (a b : F32 r) : F32 r := if a > b then a else b

/-- Modelled from the spec: the other usual definition of the macro `MAX`,
`((a) < (b) ? (b) : (a))`, which gives `a` when `a` is NaN. -/
def MAX_lt (a b : F32 r) : F32 r := if a < b then b else a

/-- Modelled from the spec: `primitive::gpu_set_zero` comes from `primitive_util.h`, which is not
part of the sources; the spec says the buffers are zero-initialised, so the first `n` cells of the
buffer become zero. -/
def gpu_set_zero (buf : Nat → F32 r) (n : Nat) : Nat → F32 r :=
  fun i => if i < n then 0 else buf i

/-- Device function `CudaAtomicAdd(ptr + i, v)`: adds `v` to the cell at offset `i`. -/
def CudaAtomicAdd (buf : Nat → F32 r) (i : Nat) (v : F32 r) : Nat → F32 r :=
  Function.update buf i (buf i + v)

/-- Device function `matvec_kernel`: `(x, y, z) := m * (x, y, z)`. -/
def matvec_kernel (m : Mat9 (F32 r)) (v : Vec3 (F32 r)) : Vec3 (F32 r) :=
  let tx := m.m0 * v.x + m.m1 * v.y + m.m2 * v.z
  let ty := m.m3 * v.x + m.m4 * v.y + m.m5 * v.z
  let tz := m.m6 * v.x + m.m7 * v.y + m.m8 * v.z
  ⟨tx, ty, tz⟩

/-- Device function `t_matvec_kernel`: `(x, y, z) := transpose(m) * (x, y, z)`. -/
def t_matvec_kernel (m : Mat9 (F32 r)) (v : Vec3 (F32 r)) : Vec3 (F32 r) :=
  let tx := m.m0 * v.x + m.m3 * v.y + m.m6 * v.z
  let ty := m.m1 * v.x + m.m4 * v.y + m.m7 * v.z
  let tz := m.m2 * v.x + m.m5 * v.y + m.m8 * v.z
  ⟨tx, ty, tz⟩

/-- Device function `diag`. -/
def diag (a b : F32 r) : F32 r := 1 - 2 * a * a - 2 * b * b

/-- Device function `tr_add`. -/
def tr_add (a b c d : F32 r) : F32 r := 2 * a * b + 2 * c * d

/-- Device function `tr_sub`. -/
def tr_sub (a b c d : F32 r) : F32 r := 2 * a * b - 2 * c * d

/-- Device function `conjugate`: negates the vector part in place. -/
def conjugate (q : Quat (F32 r)) : Quat (F32 r) := ⟨q.w, -q.x, -q.y, -q.z⟩

/-- Device function `normalize`: divides the four components by the square root of the sum of
their squares. -/
def normalize (sqrt : F32 r → F32 r) (q : Quat (F32 r)) : Quat (F32 r) :=
  let norm := sqrt (q.w * q.w + q.x * q.x + q.y * q.y + q.z * q.z)
  ⟨q.w / norm, q.x / norm, q.y / norm, q.z / norm⟩

/-- Device function `as_rotation_matrix`: normalises its by-value arguments and fills `m[0..8]`. -/
def as_rotation_matrix (sqrt : F32 r → F32 r) (q : Quat (F32 r)) : Mat9 (F32 r) :=
  let n := normalize sqrt q
  let w := n.w
  let x := n.x
  let y := n.y
  let z := n.z
  { m0 := diag y z, m1 := tr_sub x y z w, m2 := tr_add x z y w,
    m3 := tr_add x y z w, m4 := diag x z, m5 := tr_sub y z x w,
    m6 := tr_sub x z y w, m7 := tr_add y z x w, m8 := diag x y }

/-- Device function `grad_rotation_matrix_to_quaternion` (the live "version two").  The source
computes `s = 1.0 / (...)` in double precision and stores it in a float; it is one division
here. -/
def grad_rotation_matrix_to_quaternion (m : Mat9 (F32 r)) (q : Quat (F32 r)) : Quat (F32 r) :=
  let w := q.w
  let x := q.x
  let y := q.y
  let z := q.z
  let w2 := w * w
  let x2 := x * x
  let y2 := y * y
  let z2 := z * z
  let wx := w * x
  let wy := w * y
  let wz := w * z
  let xy := x * y
  let xz := x * z
  let yz := y * z
  let s := 1 / (w2 + x2 + y2 + z2)
  let s2 := s * s
  { w :=
      m.m0 * (4 * w * (y2 + z2) * s2) +
      m.m1 * (4 * w * (wz - xy) * s2 - 2 * z * s) +
      m.m2 * (2 * y * s - 4 * w * (wy + xz) * s2) +
      m.m3 * (2 * z * s - 4 * w * (wz + xy) * s2) +
      m.m4 * (4 * w * (x2 + z2) * s2) +
      m.m5 * (4 * w * (wx - yz) * s2 - 2 * x * s) +
      m.m6 * (4 * w * (wy - xz) * s2 - 2 * y * s) +
      m.m7 * (2 * x * s - 4 * w * (wx + yz) * s2) +
      m.m8 * (4 * w * (x2 + y2) * s2),
    x :=
      m.m0 * (4 * x * (y2 + z2) * s2) +
      m.m1 * (4 * x * (wz - xy) * s2 + 2 * y * s) +
      m.m2 * (2 * z * s - 4 * x * (wy + xz) * s2) +
      m.m3 * (2 * y * s - 4 * x * (wz + xy) * s2) +
      m.m4 * (4 * x * (x2 + z2) * s2 - 4 * x * s) +
      m.m5 * (4 * x * (wx - yz) * s2 - 2 * w * s) +
      m.m6 * (4 * x * (wy - xz) * s2 + 2 * z * s) +
      m.m7 * (2 * w * s - 4 * x * (wx + yz) * s2) +
      m.m8 * (4 * x * (x2 + y2) * s2 - 4 * x * s),
    y :=
      m.m0 * (4 * y * (y2 + z2) * s2 - 4 * y * s) +
      m.m1 * (4 * y * (wz - xy) * s2 + 2 * x * s) +
      m.m2 * (2 * w * s - 4 * y * (wy + xz) * s2) +
      m.m3 * (2 * x * s - 4 * y * (wz + xy) * s2) +
      m.m4 * (4 * y * (x2 + z2) * s2) +
      m.m5 * (4 * y * (wx - yz) * s2 + 2 * z * s) +
      m.m6 * (4 * y * (wy - xz) * s2 - 2 * w * s) +
      m.m7 * (2 * z * s - 4 * y * (wx + yz) * s2) +
      m.m8 * (4 * y * (x2 + y2) * s2 - 4 * y * s),
    z :=
      m.m0 * (4 * z * (y2 + z2) * s2 - 4 * z * s) +
      m.m1 * (4 * z * (wz - xy) * s2 - 2 * w * s) +
      m.m2 * (2 * x * s - 4 * z * (wy + xz) * s2) +
      m.m3 * (2 * w * s - 4 * z * (wz + xy) * s2) +
      m.m4 * (4 * z * (x2 + z2) * s2 - 4 * z * s) +
      m.m5 * (4 * z * (wx - yz) * s2 + 2 * y * s) +
      m.m6 * (4 * z * (wy - xz) * s2 + 2 * x * s) +
      m.m7 * (2 * y * s - 4 * z * (wx + yz) * s2) +
      m.m8 * (4 * z * (x2 + y2) * s2) }

/-- One thread of the kernel `fill_point_cube_distance`.  Offsets into the buffers are natural
numbers; a batch index is the truncated fourth row of `in_pos` (a negative one would address
memory before the buffers and is read here as `0`). -/
def fill_point_cube_distance_thread (sqrt : F32 r → F32 r) (MAX : F32 r → F32 r → F32 r)
    (n_cube n_point : Nat) (in_z in_q in_t : Nat → F32 r) (in_mask : Nat → Int)
    (in_pos : Nat → F32 r) (index : Nat) (point_cube_distance : Nat → F32 r) : Nat → F32 r :=
  let point_index := index / n_cube
  let cube_index := index % n_cube
  let batch_index := (F32.static_cast_int (in_pos (3 * n_point + point_index))).toNat
  let cube_mask := in_mask (batch_index * n_cube + cube_index)
  if cube_mask = 1 then
    let px := in_pos (0 * n_point + point_index)
    let py := in_pos (1 * n_point + point_index)
    let pz := in_pos (2 * n_point + point_index)
    let z := fun k => in_z ((batch_index * n_cube + cube_index) * 3 + k)
    let q := fun k => in_q ((batch_index * n_cube + cube_index) * 4 + k)
    let t := fun k => in_t ((batch_index * n_cube + cube_index) * 3 + k)
    let px := px - t 0
    let py := py - t 1
    let pz := pz - t 2
    let qc := conjugate ⟨q 0, q 1, q 2, q 3⟩
    let rotation_matrix := as_rotation_matrix sqrt qc
    let p := matvec_kernel rotation_matrix ⟨px, py, pz⟩
    let dx := MAX (F32.abs p.x - z 0) 0
    let dy := MAX (F32.abs p.y - z 1) 0
    let dz := MAX (F32.abs p.z - z 2) 0
    Function.update point_cube_distance (point_index * n_cube + cube_index)
      (dx * dx + dy * dy + dz * dz)
  else
    Function.update point_cube_distance (point_index * n_cube + cube_index) FLT_MAX

/-- Kernel `fill_point_cube_distance`. -/
def fill_point_cube_distance (sqrt : F32 r → F32 r) (MAX : F32 r → F32 r → F32 r)
    (nthreads n_cube n_point : Nat) (in_z in_q in_t : Nat → F32 r) (in_mask : Nat → Int)
    (in_pos : Nat → F32 r) (point_cube_distance : Nat → F32 r) : Nat → F32 r :=
  CUDA_1D_KERNEL_LOOP nthreads
    (fill_point_cube_distance_thread sqrt MAX n_cube n_point in_z in_q in_t in_mask in_pos)
    point_cube_distance

/-- The scan of one thread of `get_min_distance_cube_index` over its row `distance`:
`min_val = distance[0]`, `min_idx = 0`, then `for (i = 1; i < n_cube; ++i)` with a strict `<`.
The result is the pair `(min_val, min_idx)`. -/
def get_min_distance_cube_index_scan (n_cube : Nat) (distance : Nat → F32 r) : F32 r × Nat :=
  (List.range' 1 (n_cube - 1)).foldl
    (fun (st : F32 r × Nat) i =>
      let d := distance i
      if d < st.1 then (d, i) else st)
    (distance 0, 0)

/-- One thread of the kernel `get_min_distance_cube_index`. -/
def get_min_distance_cube_index_thread (n_cube : Nat) (point_cube_distance : Nat → F32 r)
    (index : Nat) (min_distance_cube_index : Nat → Nat) : Nat → Nat :=
  let distance := fun i => point_cube_distance (index * n_cube + i)
  Function.update min_distance_cube_index index
    (get_min_distance_cube_index_scan n_cube distance).2

/-- Kernel `get_min_distance_cube_index`. -/
def get_min_distance_cube_index (nthreads n_cube : Nat) (point_cube_distance : Nat → F32 r)
    (min_distance_cube_index : Nat → Nat) : Nat → Nat :=
  CUDA_1D_KERNEL_LOOP nthreads
    (get_min_distance_cube_index_thread n_cube point_cube_distance)
    min_distance_cube_index

/-- One thread of the kernel `get_coverage_loss`; the state is the cell `*loss_ptr`. -/
def get_coverage_loss_thread (n_cube n_point : Nat) (point_cube_distance : Nat → F32 r)
    (min_distance_cube_index : Nat → Nat) (index : Nat) (loss : F32 r) : F32 r :=
  let distance := point_cube_distance (index * n_cube + min_distance_cube_index index)
  loss + distance / F32.of_int n_point

/-- Kernel `get_coverage_loss`. -/
def get_coverage_loss (nthreads n_cube n_point : Nat) (point_cube_distance : Nat → F32 r)
    (min_distance_cube_index : Nat → Nat) (loss : F32 r) : F32 r :=
  CUDA_1D_KERNEL_LOOP nthreads
    (get_coverage_loss_thread n_cube n_point point_cube_distance min_distance_cube_index)
    loss

/-- Host function `compute_coverage_select_loss`.  `pcd0` and `idx0` are the initial contents
of the two scratch tensors, `loss0` the initial content of `*loss_ptr`. -/
def compute_coverage_select_loss (sqrt : F32 r → F32 r) (MAX : F32 r → F32 r → F32 r)
    (n_cube n_point : Nat) (in_z in_q in_t : Nat → F32 r) (in_mask : Nat → Int)
    (in_pos : Nat → F32 r) (pcd0 : Nat → F32 r) (idx0 : Nat → Nat) (loss0 : F32 r) : F32 r :=
  let point_cube_distance :=
    fill_point_cube_distance sqrt MAX (n_point * n_cube) n_cube n_point in_z in_q in_t in_mask
      in_pos pcd0
  let min_distance_cube_index :=
    get_min_distance_cube_index n_point n_cube point_cube_distance idx0
  let loss := (gpu_set_zero (fun _ => loss0) 1) 0
  get_coverage_loss n_point n_cube n_point point_cube_distance min_distance_cube_index loss

/-- One thread of the kernel `fill_grad_point_cube_distance`; `loss` is the cell `*loss`, which
holds the upstream gradient. -/
def fill_grad_point_cube_distance_thread (n_cube n_point : Nat) (loss : F32 r)
    (min_distance_cube_index : Nat → Nat) (index : Nat) (grad_point_cube_distance : Nat → F32 r) :
    Nat → F32 r :=
  Function.update grad_point_cube_distance (index * n_cube + min_distance_cube_index index)
    (loss / F32.of_int n_point)

/-- Kernel `fill_grad_point_cube_distance`. -/
def fill_grad_point_cube_distance (nthreads n_cube n_point : Nat) (loss : F32 r)
    (min_distance_cube_index : Nat → Nat) (grad_point_cube_distance : Nat → F32 r) :
    Nat → F32 r :=
  CUDA_1D_KERNEL_LOOP nthreads
    (fill_grad_point_cube_distance_thread n_cube n_point loss min_distance_cube_index)
    grad_point_cube_distance

/-- One thread of the kernel `fill_grad_wrt_zqt`, acting on the three gradient buffers. -/
def fill_grad_wrt_zqt_thread (sqrt : F32 r → F32 r) (MAX : F32 r → F32 r → F32 r)
    (n_cube n_point : Nat) (in_z in_q in_t : Nat → F32 r) (in_mask : Nat → Int)
    (in_pos : Nat → F32 r) (grad_point_cube_distance : Nat → F32 r) (index : Nat)
    (G : GradBufs (F32 r)) : GradBufs (F32 r) :=
  let point_index := index / n_cube
  let cube_index := index % n_cube
  let batch_index := (F32.static_cast_int (in_pos (3 * n_point + point_index))).toNat
  let cube_mask := in_mask (batch_index * n_cube + cube_index)
  if cube_mask = 1 then
    let px := in_pos (0 * n_point + point_index)
    let py := in_pos (1 * n_point + point_index)
    let pz := in_pos (2 * n_point + point_index)
    let z := fun k => in_z ((batch_index * n_cube + cube_index) * 3 + k)
    let q := fun k => in_q ((batch_index * n_cube + cube_index) * 4 + k)
    let t := fun k => in_t ((batch_index * n_cube + cube_index) * 3 + k)
    let px := px - t 0
    let py := py - t 1
    let pz := pz - t 2
    let tmp_px := px
    let tmp_py := py
    let tmp_pz := pz
    let qc := conjugate ⟨q 0, q 1, q 2, q 3⟩
    let tmp_q := qc
    let rotation_matrix := as_rotation_matrix sqrt qc
    let p := matvec_kernel rotation_matrix ⟨px, py, pz⟩
    let dx := MAX (F32.abs p.x - z 0) 0
    let dy := MAX (F32.abs p.y - z 1) 0
    let dz := MAX (F32.abs p.z - z 2) 0
    let gz := (batch_index * n_cube + cube_index) * 3
    let gq := (batch_index * n_cube + cube_index) * 4
    let gt := (batch_index * n_cube + cube_index) * 3
    let grad_distance := grad_point_cube_distance (point_index * n_cube + cube_index)
    let gdx := grad_distance * 2 * dx
    let gdy := grad_distance * 2 * dy
    let gdz := grad_distance * 2 * dz
    -- gradient w.r.t. z: each `if`/`else` block updates the buffer `grad_z` and the register `gd*`
    let grad_z :=
      if F32.abs p.x - z 0 > 0 then CudaAtomicAdd G.grad_z (gz + 0) (-gdx) else G.grad_z
    let gdx := if F32.abs p.x - z 0 > 0 then gdx * SIGN p.x else 0
    let grad_z :=
      if F32.abs p.y - z 1 > 0 then CudaAtomicAdd grad_z (gz + 1) (-gdy) else grad_z
    let gdy := if F32.abs p.y - z 1 > 0 then gdy * SIGN p.y else 0
    let grad_z :=
      if F32.abs p.z - z 2 > 0 then CudaAtomicAdd grad_z (gz + 2) (-gdz) else grad_z
    let gdz := if F32.abs p.z - z 2 > 0 then gdz * SIGN p.z else 0
    -- gradient w.r.t. q
    let grad_rotation_matrix : Mat9 (F32 r) :=
      { m0 := gdx * tmp_px, m1 := gdx * tmp_py, m2 := gdx * tmp_pz,
        m3 := gdy * tmp_px, m4 := gdy * tmp_py, m5 := gdy * tmp_pz,
        m6 := gdz * tmp_px, m7 := gdz * tmp_py, m8 := gdz * tmp_pz }
    let g := conjugate (grad_rotation_matrix_to_quaternion grad_rotation_matrix tmp_q)
    let grad_q := CudaAtomicAdd G.grad_q (gq + 0) g.w
    let grad_q := CudaAtomicAdd grad_q (gq + 1) g.x
    let grad_q := CudaAtomicAdd grad_q (gq + 2) g.y
    let grad_q := CudaAtomicAdd grad_q (gq + 3) g.z
    let gd := t_matvec_kernel rotation_matrix ⟨gdx, gdy, gdz⟩
    -- gradient w.r.t. t
    let grad_t := CudaAtomicAdd G.grad_t (gt + 0) (-gd.x)
    let grad_t := CudaAtomicAdd grad_t (gt + 1) (-gd.y)
    let grad_t := CudaAtomicAdd grad_t (gt + 2) (-gd.z)
    ⟨grad_z, grad_q, grad_t⟩
  else
    G

/-- Kernel `fill_grad_wrt_zqt`. -/
def fill_grad_wrt_zqt (sqrt : F32 r → F32 r) (MAX : F32 r → F32 r → F32 r)
    (nthreads n_cube n_point : Nat) (in_z in_q in_t : Nat → F32 r) (in_mask : Nat → Int)
    (in_pos : Nat → F32 r) (grad_point_cube_distance : Nat → F32 r) (G : GradBufs (F32 r)) :
    GradBufs (F32 r) :=
  CUDA_1D_KERNEL_LOOP nthreads
    (fill_grad_wrt_zqt_thread sqrt MAX n_cube n_point in_z in_q in_t in_mask in_pos
      grad_point_cube_distance)
    G

/-- Host function `compute_coverage_select_loss_grad`.  `loss` is the upstream gradient,
`pcd0`, `idx0`, `gpcd0` are the initial contents of the three scratch tensors and `G0` the
initial contents of the three output buffers. -/
def compute_coverage_select_loss_grad (sqrt : F32 r → F32 r) (MAX : F32 r → F32 r → F32 r)
    (n_cube n_point batch_size : Nat) (loss : F32 r)
    (in_z in_q in_t : Nat → F32 r) (in_mask : Nat → Int) (in_pos : Nat → F32 r)
    (pcd0 : Nat → F32 r) (idx0 : Nat → Nat) (gpcd0 : Nat → F32 r) (G0 : GradBufs (F32 r)) :
    GradBufs (F32 r) :=
  let point_cube_distance :=
    fill_point_cube_distance sqrt MAX (n_point * n_cube) n_cube n_point in_z in_q in_t in_mask
      in_pos pcd0
  let min_distance_cube_index :=
    get_min_distance_cube_index n_point n_cube point_cube_distance idx0
  let gpcd := gpu_set_zero gpcd0 (n_point * n_cube)
  let gpcd := fill_grad_point_cube_distance n_point n_cube n_point loss
    min_distance_cube_index gpcd
  let grad_z := gpu_set_zero G0.grad_z (batch_size * n_cube * 3)
  let grad_q := gpu_set_zero G0.grad_q (batch_size * n_cube * 4)
  let grad_t := gpu_set_zero G0.grad_t (batch_size * n_cube * 3)
  fill_grad_wrt_zqt sqrt MAX (n_point * n_cube) n_cube n_point in_z in_q in_t in_mask in_pos
    gpcd ⟨grad_z, grad_q, grad_t⟩

/-! ### Vocabulary of the claims over binary32 -/

/-- Batch index of point `p`: the truncated entry `p` of the fourth row of `in_pos`. -/
def batch_of (n_point : Nat) (in_pos : Nat → F32 r) (p : Nat) : Nat :=
  (F32.static_cast_int (in_pos (3 * n_point + p))).toNat

/-- Offset (in cuboids) of slot `c` of the batch element of point `p`. -/
def slot_of (n_cube n_point : Nat) (in_pos : Nat → F32 r) (p c : Nat) : Nat :=
  batch_of n_point in_pos p * n_cube + c

/-- The registers `(px, py, pz)` after `px -= t[0]; py -= t[1]; pz -= t[2]`. -/
def centred (t pos : Vec3 (F32 r)) : Vec3 (F32 r) := ⟨pos.x - t.x, pos.y - t.y, pos.z - t.z⟩

/-- Local-frame coordinates of the point `pos` for a cuboid with orientation `q` and translation
`t`: `as_rotation_matrix(conjugate(q))` applied to `pos - t`. -/
def local_coords (sqrt : F32 r → F32 r) (q : Quat (F32 r)) (t pos : Vec3 (F32 r)) :
    Vec3 (F32 r) :=
  matvec_kernel (as_rotation_matrix sqrt (conjugate q)) (centred t pos)

/-- The register `dx` (`dy`, `dz`): the overshoot `MAX(abs(l) - z, 0)` of one axis. -/
def overshoot (MAX : F32 r → F32 r → F32 r) (l z : F32 r) : F32 r := MAX (F32.abs l - z) 0

/-- The registers `(dx, dy, dz)`. -/
def overshoots (MAX : F32 r → F32 r → F32 r) (z l : Vec3 (F32 r)) : Vec3 (F32 r) :=
  ⟨overshoot MAX l.x z.x, overshoot MAX l.y z.y, overshoot MAX l.z z.z⟩

/-- Clipped squared box distance of local coordinates `l` to the box of half-extents `z`. -/
def box_distance (MAX : F32 r → F32 r → F32 r) (z l : Vec3 (F32 r)) : F32 r :=
  overshoot MAX l.x z.x * overshoot MAX l.x z.x + overshoot MAX l.y z.y * overshoot MAX l.y z.y +
    overshoot MAX l.z z.z * overshoot MAX l.z z.z

/-- Signed, axis-clipped coordinate gradient of one axis: the register `gdx` (`gdy`, `gdz`)
after the scale block of `fill_grad_wrt_zqt`, for local coordinate `l`, half-extent `z` and
routed gradient `g`. -/
def axis_grad (MAX : F32 r → F32 r → F32 r) (l z g : F32 r) : F32 r :=
  if F32.abs l - z > 0 then g * 2 * overshoot MAX l z * SIGN l else 0

/-- Effect of the scale block of one axis on the buffer `grad_z`. -/
def axis_add (MAX : F32 r → F32 r → F32 r) (buf : Nat → F32 r) (i : Nat) (l z g : F32 r) :
    Nat → F32 r :=
  if F32.abs l - z > 0 then CudaAtomicAdd buf i (-(g * 2 * overshoot MAX l z)) else buf

/-- The vector `(gdx, gdy, gdz)` of signed, axis-clipped coordinate gradients. -/
def clipped_grad (MAX : F32 r → F32 r → F32 r) (z l : Vec3 (F32 r)) (g : F32 r) : Vec3 (F32 r) :=
  ⟨axis_grad MAX l.x z.x g, axis_grad MAX l.y z.y g, axis_grad MAX l.z z.z g⟩

/-- Outer product `a bᵀ` as a row-major `float[9]` (the array `grad_rotation_matrix`). -/
def outer (a b : Vec3 (F32 r)) : Mat9 (F32 r) :=
  { m0 := a.x * b.x, m1 := a.x * b.y, m2 := a.x * b.z,
    m3 := a.y * b.x, m4 := a.y * b.y, m5 := a.y * b.z,
    m6 := a.z * b.x, m7 := a.z * b.y, m8 := a.z * b.z }

/-- The four values `(gqw, gqx, gqy, gqz)` that a thread of `fill_grad_wrt_zqt` adds to the
orientation gradient of its slot. -/
def pair_grad_q (sqrt : F32 r → F32 r) (MAX : F32 r → F32 r → F32 r) (z : Vec3 (F32 r))
    (q : Quat (F32 r)) (t pos : Vec3 (F32 r)) (g : F32 r) : Quat (F32 r) :=
  conjugate (grad_rotation_matrix_to_quaternion
    (outer (clipped_grad MAX z (local_coords sqrt q t pos) g) (centred t pos)) (conjugate q))

/-- The vector `(gdx, gdy, gdz)` after `t_matvec_kernel`; a thread of `fill_grad_wrt_zqt` adds
its negation to the translation gradient of its slot. -/
def pair_grad_t (sqrt : F32 r → F32 r) (MAX : F32 r → F32 r → F32 r) (z : Vec3 (F32 r))
    (q : Quat (F32 r)) (t pos : Vec3 (F32 r)) (g : F32 r) : Vec3 (F32 r) :=
  t_matvec_kernel (as_rotation_matrix sqrt (conjugate q))
    (clipped_grad MAX z (local_coords sqrt q t pos) g)

/-- The point with local coordinates `l` is covered by the box of half-extents `z`:
`|local_axis| <= scale_axis` on the three axes. -/
def within_box (z l : Vec3 (F32 r)) : Prop :=
  F32.abs l.x ≤ z.x ∧ F32.abs l.y ≤ z.y ∧ F32.abs l.z ≤ z.z

/-- No underflow on one axis: the coordinate is within the half-extent, or the square `d * d` of
the overshoot is not zero. -/
def axis_no_underflow (MAX : F32 r → F32 r → F32 r) (l z : F32 r) : Prop :=
  F32.abs l ≤ z ∨ overshoot MAX l z * overshoot MAX l z ≠ 0

/-- No underflow in the clipped squared box distance: `axis_no_underflow` on the three axes. -/
def no_underflow (MAX : F32 r → F32 r → F32 r) (z l : Vec3 (F32 r)) : Prop :=
  axis_no_underflow MAX l.x z.x ∧ axis_no_underflow MAX l.y z.y ∧ axis_no_underflow MAX l.z z.z

/-- A vector whose three components are finite. -/
def Finite3 (v : Vec3 (F32 r)) : Prop := F32.IsFinite v.x ∧ F32.IsFinite v.y ∧ F32.IsFinite v.z

instance (z l : Vec3 (F32 r)) : Decidable (within_box z l) :=
  inferInstanceAs (Decidable (F32.abs l.x ≤ z.x ∧ F32.abs l.y ≤ z.y ∧ F32.abs l.z ≤ z.z))

instance (MAX : F32 r → F32 r → F32 r) (l z : F32 r) : Decidable (axis_no_underflow MAX l z) :=
  inferInstanceAs (Decidable (F32.abs l ≤ z ∨ overshoot MAX l z * overshoot MAX l z ≠ 0))

instance (MAX : F32 r → F32 r → F32 r) (z l : Vec3 (F32 r)) : Decidable (no_underflow MAX z l) :=
  inferInstanceAs (Decidable (axis_no_underflow MAX l.x z.x ∧ axis_no_underflow MAX l.y z.y ∧
    axis_no_underflow MAX l.z z.z))

instance (v : Vec3 (F32 r)) : Decidable (Finite3 v) :=
  inferInstanceAs (Decidable (F32.IsFinite v.x ∧ F32.IsFinite v.y ∧ F32.IsFinite v.z))

/-- The `float[9]` array of zeros. -/
def zero_matrix : Mat9 (F32 r) :=
  { m0 := 0, m1 := 0, m2 := 0, m3 := 0, m4 := 0, m5 := 0, m6 := 0, m7 := 0, m8 := 0 }

/-! ### Concrete inputs used by the instances below -/

/-- A square root for concrete inputs: the exact root of the square of a rational, rounded; the
root of another non-negative rational is replaced by the quotient of the integer square roots of
its numerator and denominator. -/
def sqrt_of_square : F32 r → F32 r
  | F32.fin x => if x < 0 then F32.nan else F32.round r (Rat.sqrt x)
  | F32.pinf => F32.pinf
  | F32.ninf => F32.nan
  | F32.nan => F32.nan

/-- Orientation buffer holding the identity quaternion `(1,0,0,0)` in every slot. -/
def identity_q : Nat → F32 r := fun i => if i % 4 = 0 then 1 else 0

/-- The `[4, 1]` point buffer of the single point `(x, 0, 0)` with batch index `0`. -/
def point_on_x_axis (x : F32 r) : Nat → F32 r := fun i => if i = 0 then x else 0

/-- Translation buffer of two slots: slot `0` at `(a, 0, 0)` and slot `1` at `(-a, 0, 0)`. -/
def opposite_t (a : ℚ) : Nat → F32 r :=
  fun i => if i = 0 then F32.fin a else if i = 3 then F32.fin (-a) else 0

/-- The `[4, 1]` point buffer of the single point `(2^-80, 0, 0)` with batch index `0`. -/
def tiny_point : Nat → F32 flush_to_zero := point_on_x_axis (F32.fin (1 / 2 ^ 80))

/-- The `[4, 1]` point buffer of the single point `(2^127, 0, 0)` with batch index `0`. -/
def far_point : Nat → F32 flush_to_zero := point_on_x_axis (F32.fin (2 ^ 127))

/-- The `[4, 1]` point buffer of the single point `(3, 0, 0)` with batch index `0`. -/
def near_point : Nat → F32 flush_to_zero := point_on_x_axis (F32.fin 3)

/-- A buffer of zeros. -/
def zeros : Nat → F32 flush_to_zero := fun _ => 0

/-- A buffer of ones. -/
def ones : Nat → F32 flush_to_zero := fun _ => 1

/-- Mask with every slot active. -/
def all_active : Nat → Int := fun _ => 1

/-- Translation buffer of the overflow instance: slot `0` at `(2^127, 0, 0)`, slot `1` at
`(-2^127, 0, 0)`. -/
def far_apart_t : Nat → F32 flush_to_zero := opposite_t (2 ^ 127)

/-- Translation buffer of two slots near the origin: slot `0` at `(2, 0, 0)`, slot `1` at
`(-2, 0, 0)`. -/
def near_t : Nat → F32 flush_to_zero := opposite_t 2

end Binary32

/-! ## Lemmas on the kernel loops -/

section Loops

variable {F : Type} [LinearOrderedField F]

theorem kernel_loop_succ {S : Type} (n : Nat) (body : Nat → S → S) (s : S) :
    CUDA_1D_KERNEL_LOOP (n + 1) body s = body n (CUDA_1D_KERNEL_LOOP n body s) := by
  simp [CUDA_1D_KERNEL_LOOP, List.range_succ, List.foldl_append]

theorem kernel_loop_zero {S : Type} (body : Nat → S → S) (s : S) :
    CUDA_1D_KERNEL_LOOP 0 body s = s := by
  simp [CUDA_1D_KERNEL_LOOP]

/-- A loop whose thread `index` only writes cell `index` fills the first `n` cells. -/
theorem kernel_loop_write {A : Type} (n : Nat) (val : Nat → A) (body : Nat → (Nat → A) → Nat → A)
    (hbody : ∀ index buf, body index buf = Function.update buf index (val index))
    (buf : Nat → A) (i : Nat) :
    CUDA_1D_KERNEL_LOOP n body buf i = if i < n then val i else buf i := by
  induction n with
  | zero => simp [kernel_loop_zero]
  | succ n ih =>
    rw [kernel_loop_succ, hbody]
    by_cases h : i = n
    · subst h; simp
    · rw [Function.update_noteq h, ih]
      by_cases h2 : i < n
      · have : i < n + 1 := by omega
        simp [h2, this]
      · have : ¬ i < n + 1 := by omega
        simp [h2, this]

/-- A loop whose threads add a value to one accumulator computes a sum. -/
theorem kernel_loop_sum (n : Nat) (f : Nat → F) (body : Nat → F → F)
    (hbody : ∀ index acc, body index acc = acc + f index) (s : F) :
    CUDA_1D_KERNEL_LOOP n body s = s + ∑ i in Finset.range n, f i := by
  induction n with
  | zero => simp [kernel_loop_zero]
  | succ n ih => rw [kernel_loop_succ, hbody, ih, Finset.sum_range_succ, add_assoc]

/-- Invariant of the strict-less-than scan after the indices `1 .. k` have been visited. -/
theorem scan_invariant (d : Nat → F) (k : Nat) :
    let st := (List.range' 1 k).foldl
      (fun (st : F × Nat) i => if d i < st.1 then (d i, i) else st) (d 0, 0)
    st.2 < k + 1 ∧ st.1 = d st.2 ∧ (∀ j, j < k + 1 → st.1 ≤ d j) ∧
      (∀ j, j < st.2 → st.1 < d j) := by
  induction k with
  | zero =>
    simp only [List.range'_zero, List.foldl_nil]
    refine ⟨by omega, trivial, ?_, ?_⟩
    · intro j hj
      have : j = 0 := by omega
      subst this; exact le_refl _
    · intro j hj; omega
  | succ k ih =>
    simp only [List.range'_1_concat, List.foldl_append, List.foldl_cons, List.foldl_nil]
    simp only at ih
    obtain ⟨h1, h2, h3, h4⟩ := ih
    split_ifs with hlt
    · refine ⟨by simp; omega, rfl, ?_, ?_⟩
      · intro j hj
        by_cases hjk : j = 1 + k
        · subst hjk; exact le_refl _
        · exact le_trans (le_of_lt hlt) (h3 j (by omega))
      · intro j hj
        exact lt_of_lt_of_le hlt (h3 j (by simp at hj; omega))
    · refine ⟨by omega, h2, ?_, h4⟩
      intro j hj
      by_cases hjk : j = 1 + k
      · subst hjk; exact not_lt.mp hlt
      · exact h3 j (by omega)

/-- Specification of the scan of one row of length `n_cube ≥ 1`. -/
theorem scan_spec (n_cube : Nat) (d : Nat → F) (hn : 1 ≤ n_cube) :
    (get_min_distance_cube_index_scan n_cube d).2 < n_cube ∧
      (∀ j, j < n_cube → d (get_min_distance_cube_index_scan n_cube d).2 ≤ d j) ∧
      (∀ j, j < (get_min_distance_cube_index_scan n_cube d).2 →
        d (get_min_distance_cube_index_scan n_cube d).2 < d j) := by
  have h := scan_invariant d (n_cube - 1)
  simp only at h
  obtain ⟨h1, h2, h3, h4⟩ := h
  have hk : n_cube - 1 + 1 = n_cube := by omega
  rw [hk] at h1 h3
  unfold get_min_distance_cube_index_scan
  refine ⟨h1, ?_, ?_⟩
  · intro j hj; rw [← h2]; exact h3 j hj
  · intro j hj; rw [← h2]; exact h4 j hj

/-- Cell `index` of the selection vector after the kernel `get_min_distance_cube_index`. -/
theorem get_min_distance_cube_index_apply (nthreads n_cube : Nat) (D : Nat → F)
    (idx0 : Nat → Nat) (index : Nat) (hi : index < nthreads) :
    get_min_distance_cube_index nthreads n_cube D idx0 index =
      (get_min_distance_cube_index_scan n_cube (fun i => D (index * n_cube + i))).2 := by
  unfold get_min_distance_cube_index
  rw [kernel_loop_write nthreads
    (fun index => (get_min_distance_cube_index_scan n_cube (fun i => D (index * n_cube + i))).2)
    (get_min_distance_cube_index_thread n_cube D) (fun _ _ => rfl)]
  simp [hi]

/-- Thread `index` of `fill_point_cube_distance` writes cell `index` of the matrix. -/
theorem fill_point_cube_distance_thread_eq [FloorRing F] (sqrt : F → F) (n_cube n_point : Nat)
    (in_z in_q in_t : Nat → F) (in_mask : Nat → Int) (in_pos : Nat → F)
    (index : Nat) (buf : Nat → F) :
    fill_point_cube_distance_thread sqrt n_cube n_point in_z in_q in_t in_mask in_pos index buf =
      Function.update buf index
        (if in_mask (slot_of n_cube n_point in_pos (index / n_cube) (index % n_cube)) = 1 then
          box_distance
            (vec3_at in_z (slot_of n_cube n_point in_pos (index / n_cube) (index % n_cube)))
            (local_coords sqrt
              (quat_at in_q (slot_of n_cube n_point in_pos (index / n_cube) (index % n_cube)))
              (vec3_at in_t (slot_of n_cube n_point in_pos (index / n_cube) (index % n_cube)))
              (point_at n_point in_pos (index / n_cube)))
        else FLT_MAX) := by
  simp only [fill_point_cube_distance_thread, slot_of, batch_of, box_distance, vec3_at, quat_at,
    local_coords, point_at, Nat.div_add_mod']
  split_ifs <;> rfl

theorem pair_index_lt {n_cube n_point p c : Nat} (hp : p < n_point) (hc : c < n_cube) :
    p * n_cube + c < n_point * n_cube := by
  calc p * n_cube + c < p * n_cube + n_cube := by omega
    _ = (p + 1) * n_cube := by ring
    _ ≤ n_point * n_cube := Nat.mul_le_mul_right _ hp

theorem pair_index_div {n_cube p c : Nat} (hc : c < n_cube) : (p * n_cube + c) / n_cube = p := by
  rw [Nat.add_comm, Nat.add_mul_div_right _ _ (by omega), Nat.div_eq_of_lt hc, Nat.zero_add]

theorem pair_index_mod {n_cube p c : Nat} (hc : c < n_cube) : (p * n_cube + c) % n_cube = c := by
  rw [Nat.add_comm, Nat.add_mul_mod_self_right, Nat.mod_eq_of_lt hc]

/-- Cell `(p, c)` of the distance matrix after the kernel `fill_point_cube_distance`. -/
theorem fill_point_cube_distance_apply [FloorRing F] (sqrt : F → F) (n_cube n_point : Nat)
    (in_z in_q in_t : Nat → F) (in_mask : Nat → Int) (in_pos : Nat → F) (pcd0 : Nat → F)
    (p c : Nat) (hp : p < n_point) (hc : c < n_cube) :
    fill_point_cube_distance sqrt (n_point * n_cube) n_cube n_point in_z in_q in_t in_mask in_pos
        pcd0 (p * n_cube + c) =
      if in_mask (slot_of n_cube n_point in_pos p c) = 1 then
        box_distance (vec3_at in_z (slot_of n_cube n_point in_pos p c))
          (local_coords sqrt (quat_at in_q (slot_of n_cube n_point in_pos p c))
            (vec3_at in_t (slot_of n_cube n_point in_pos p c)) (point_at n_point in_pos p))
      else FLT_MAX := by
  unfold fill_point_cube_distance
  rw [kernel_loop_write (n_point * n_cube) _
    (fill_point_cube_distance_thread sqrt n_cube n_point in_z in_q in_t in_mask in_pos)
    (fun index buf => fill_point_cube_distance_thread_eq sqrt n_cube n_point in_z in_q in_t
      in_mask in_pos index buf)]
  rw [if_pos (pair_index_lt hp hc), pair_index_div hc, pair_index_mod hc]

theorem static_cast_int_zero [FloorRing F] : static_cast_int (0 : F) = 0 := by
  simp [static_cast_int]

theorem CudaAtomicAdd_apply (buf : Nat → F) (j : Nat) (v : F) (i : Nat) :
    CudaAtomicAdd buf j v i = buf i + if i = j then v else 0 := by
  unfold CudaAtomicAdd
  by_cases h : i = j
  · subst h; simp
  · simp [Function.update_noteq h, h]

theorem fill_grad_wrt_zqt_thread_eq [FloorRing F] (sqrt : F → F) (n_cube n_point : Nat)
    (in_z in_q in_t : Nat → F) (in_mask : Nat → Int) (in_pos : Nat → F)
    (gpcd : Nat → F) (index : Nat) (G : GradBufs F) (s : Nat) (l : Vec3 F) (g : F)
    (gq : Quat F) (gt : Vec3 F)
    (hs : s = slot_of n_cube n_point in_pos (index / n_cube) (index % n_cube))
    (hl : l = local_coords sqrt (quat_at in_q s) (vec3_at in_t s)
      (point_at n_point in_pos (index / n_cube)))
    (hg : g = gpcd (index / n_cube * n_cube + index % n_cube))
    (hgq : gq = pair_grad_q sqrt (vec3_at in_z s) (quat_at in_q s) (vec3_at in_t s)
      (point_at n_point in_pos (index / n_cube)) g)
    (hgt : gt = pair_grad_t sqrt (vec3_at in_z s) (quat_at in_q s) (vec3_at in_t s)
      (point_at n_point in_pos (index / n_cube)) g) :
    fill_grad_wrt_zqt_thread sqrt n_cube n_point in_z in_q in_t in_mask in_pos gpcd index G =
      if in_mask s = 1 then
        ⟨axis_add (axis_add (axis_add G.grad_z (s * 3 + 0) l.x (in_z (s * 3 + 0)) g)
            (s * 3 + 1) l.y (in_z (s * 3 + 1)) g) (s * 3 + 2) l.z (in_z (s * 3 + 2)) g,
          CudaAtomicAdd (CudaAtomicAdd (CudaAtomicAdd (CudaAtomicAdd G.grad_q (s * 4 + 0) gq.w)
            (s * 4 + 1) gq.x) (s * 4 + 2) gq.y) (s * 4 + 3) gq.z,
          CudaAtomicAdd (CudaAtomicAdd (CudaAtomicAdd G.grad_t (s * 3 + 0) (-gt.x))
            (s * 3 + 1) (-gt.y)) (s * 3 + 2) (-gt.z)⟩
      else G := by
  subst hs hl hg hgq hgt
  rfl

theorem axis_add_apply (buf : Nat → F) (j : Nat) (l z g : F) (i : Nat) :
    axis_add buf j l z g i = buf i + if i = j then axis_grad_z l z g else 0 := by
  unfold axis_add axis_grad_z
  split_ifs <;> simp [CudaAtomicAdd_apply, *]

theorem fill_grad_wrt_zqt_thread_additive [FloorRing F] (sqrt : F → F) (n_cube n_point : Nat)
    (in_z in_q in_t : Nat → F) (in_mask : Nat → Int) (in_pos : Nat → F)
    (gpcd : Nat → F) (index : Nat) (G : GradBufs F) (i : Nat) :
    (fill_grad_wrt_zqt_thread sqrt n_cube n_point in_z in_q in_t in_mask in_pos gpcd index
        G).grad_z i =
      G.grad_z i + (pair_contribution sqrt n_cube n_point in_z in_q in_t in_mask in_pos gpcd
        index).grad_z i ∧
    (fill_grad_wrt_zqt_thread sqrt n_cube n_point in_z in_q in_t in_mask in_pos gpcd index
        G).grad_q i =
      G.grad_q i + (pair_contribution sqrt n_cube n_point in_z in_q in_t in_mask in_pos gpcd
        index).grad_q i ∧
    (fill_grad_wrt_zqt_thread sqrt n_cube n_point in_z in_q in_t in_mask in_pos gpcd index
        G).grad_t i =
      G.grad_t i + (pair_contribution sqrt n_cube n_point in_z in_q in_t in_mask in_pos gpcd
        index).grad_t i := by
  unfold pair_contribution
  rw [fill_grad_wrt_zqt_thread_eq sqrt n_cube n_point in_z in_q in_t in_mask in_pos gpcd index G
      _ _ _ _ _ rfl rfl rfl rfl rfl,
    fill_grad_wrt_zqt_thread_eq sqrt n_cube n_point in_z in_q in_t in_mask in_pos gpcd index
      zero_grad _ _ _ _ _ rfl rfl rfl rfl rfl]
  split_ifs
  · simp only [axis_add_apply, CudaAtomicAdd_apply, zero_grad]
    refine ⟨by ring, by ring, by ring⟩
  · simp [zero_grad]

/-- A loop of threads that add a contribution to every cell computes the sum of the
contributions. -/
theorem kernel_loop_additive (n : Nat) (body : Nat → GradBufs F → GradBufs F)
    (hbody : ∀ index G i,
      (body index G).grad_z i = G.grad_z i + (body index zero_grad).grad_z i ∧
      (body index G).grad_q i = G.grad_q i + (body index zero_grad).grad_q i ∧
      (body index G).grad_t i = G.grad_t i + (body index zero_grad).grad_t i)
    (G : GradBufs F) (i : Nat) :
    (CUDA_1D_KERNEL_LOOP n body G).grad_z i =
        G.grad_z i + ∑ index in Finset.range n, (body index zero_grad).grad_z i ∧
      (CUDA_1D_KERNEL_LOOP n body G).grad_q i =
        G.grad_q i + ∑ index in Finset.range n, (body index zero_grad).grad_q i ∧
      (CUDA_1D_KERNEL_LOOP n body G).grad_t i =
        G.grad_t i + ∑ index in Finset.range n, (body index zero_grad).grad_t i := by
  induction n with
  | zero => simp [kernel_loop_zero]
  | succ n ih =>
    obtain ⟨h1, h2, h3⟩ := ih
    obtain ⟨b1, b2, b3⟩ := hbody n (CUDA_1D_KERNEL_LOOP n body G) i
    rw [kernel_loop_succ, b1, b2, b3, h1, h2, h3]
    simp only [Finset.sum_range_succ]
    refine ⟨by ring, by ring, by ring⟩

/-- A sum over all pair indices is a sum over the points of a sum over the slots. -/
theorem sum_pairs (n_point n_cube : Nat) (f : Nat → F) :
    ∑ index in Finset.range (n_point * n_cube), f index =
      ∑ p in Finset.range n_point, ∑ c in Finset.range n_cube, f (p * n_cube + c) := by
  induction n_point with
  | zero => simp
  | succ n ih =>
    rw [Finset.sum_range_succ, ← ih, Nat.succ_mul, Finset.sum_range_add]

theorem gpu_set_zero_apply (buf : Nat → F) (n i : Nat) :
    gpu_set_zero buf n i = if i < n then 0 else buf i := rfl

theorem kernel_loop_one {S : Type} (body : Nat → S → S) (s : S) :
    CUDA_1D_KERNEL_LOOP 1 body s = body 0 s := by
  rw [show (1 : Nat) = 0 + 1 from rfl, kernel_loop_succ, kernel_loop_zero]

theorem pair_index_inj {n_cube p c p' c' : Nat} (hc : c < n_cube) (hc' : c' < n_cube)
    (h : p * n_cube + c = p' * n_cube + c') : p = p' ∧ c = c' := by
  have h1 := congrArg (fun i => i / n_cube) h
  have h2 := congrArg (fun i => i % n_cube) h
  simp only [pair_index_div hc, pair_index_div hc', pair_index_mod hc, pair_index_mod hc'] at h1 h2
  exact ⟨h1, h2⟩

/-- Cells of the routed-gradient buffer after the first `n` threads of
`fill_grad_point_cube_distance`. -/
theorem fill_grad_point_cube_distance_loop (n n_cube n_point : Nat) (g : F) (sel : Nat → Nat)
    (B : Nat → F) (hsel : ∀ p, p < n → sel p < n_cube) (p c : Nat) (hc : c < n_cube) :
    CUDA_1D_KERNEL_LOOP n (fill_grad_point_cube_distance_thread n_cube n_point g sel) B
        (p * n_cube + c) =
      if p < n ∧ c = sel p then g / (n_point : F) else B (p * n_cube + c) := by
  induction n with
  | zero => simp [kernel_loop_zero]
  | succ n ih =>
    have hthread : ∀ (i : Nat) (B' : Nat → F),
        fill_grad_point_cube_distance_thread n_cube n_point g sel i B' =
          Function.update B' (i * n_cube + sel i) (g / (n_point : F)) := fun _ _ => rfl
    rw [kernel_loop_succ, hthread]
    have hseln : sel n < n_cube := hsel n (by omega)
    by_cases h : p * n_cube + c = n * n_cube + sel n
    · obtain ⟨hpn, hcs⟩ := pair_index_inj hc hseln h
      subst hpn
      rw [h, Function.update_same, if_pos ⟨by omega, hcs⟩]
    · rw [Function.update_noteq h, ih (fun q hq => hsel q (by omega))]
      by_cases hp : p < n
      · have : p < n + 1 := by omega
        simp [hp, this]
      · have hne : ¬ (p < n + 1 ∧ c = sel p) := by
          rintro ⟨h1, h2⟩
          have : p = n := by omega
          subst this
          exact h (by rw [h2])
        simp [hp, hne]

theorem vec3_get_vec3_at {A : Type} (buf : Nat → A) (s k : Nat) (hk : k < 3) :
    vec3_get (vec3_at buf s) k = buf (s * 3 + k) := by
  interval_cases k <;> simp [vec3_get, vec3_at]

theorem axis_add_vec3 (buf : Nat → F) (s : Nat) (l z : Vec3 F) (g : F) (k : Nat) (hk : k < 3) :
    axis_add (axis_add (axis_add buf (s * 3 + 0) l.x z.x g) (s * 3 + 1) l.y z.y g)
        (s * 3 + 2) l.z z.z g (s * 3 + k) =
      buf (s * 3 + k) + axis_grad_z (vec3_get l k) (vec3_get z k) g := by
  interval_cases k <;> simp [axis_add_apply, vec3_get]

theorem CudaAtomicAdd_vec3 (buf : Nat → F) (s : Nat) (v : Vec3 F) (k : Nat) (hk : k < 3) :
    CudaAtomicAdd (CudaAtomicAdd (CudaAtomicAdd buf (s * 3 + 0) v.x) (s * 3 + 1) v.y)
        (s * 3 + 2) v.z (s * 3 + k) =
      buf (s * 3 + k) + vec3_get v k := by
  interval_cases k <;> simp [CudaAtomicAdd_apply, vec3_get]

/-- Cells of the three gradient buffers of the slot of an active pair after the pair's thread of
`fill_grad_wrt_zqt`. -/
theorem fill_grad_wrt_zqt_thread_active [FloorRing F] (sqrt : F → F) (n_cube n_point : Nat)
    (in_z in_q in_t : Nat → F) (in_mask : Nat → Int) (in_pos : Nat → F)
    (gpcd : Nat → F) (G : GradBufs F) (p c : Nat) (hc : c < n_cube)
    (hmask : in_mask (slot_of n_cube n_point in_pos p c) = 1) (k : Nat) (hk : k < 3) :
    (fill_grad_wrt_zqt_thread sqrt n_cube n_point in_z in_q in_t in_mask in_pos gpcd
        (p * n_cube + c) G).grad_z (slot_of n_cube n_point in_pos p c * 3 + k) =
      G.grad_z (slot_of n_cube n_point in_pos p c * 3 + k) +
        axis_grad_z
          (vec3_get (local_coords sqrt (quat_at in_q (slot_of n_cube n_point in_pos p c))
            (vec3_at in_t (slot_of n_cube n_point in_pos p c)) (point_at n_point in_pos p)) k)
          (in_z (slot_of n_cube n_point in_pos p c * 3 + k)) (gpcd (p * n_cube + c)) ∧
    (fill_grad_wrt_zqt_thread sqrt n_cube n_point in_z in_q in_t in_mask in_pos gpcd
        (p * n_cube + c) G).grad_t (slot_of n_cube n_point in_pos p c * 3 + k) =
      G.grad_t (slot_of n_cube n_point in_pos p c * 3 + k) +
        -vec3_get (pair_grad_t sqrt (vec3_at in_z (slot_of n_cube n_point in_pos p c))
          (quat_at in_q (slot_of n_cube n_point in_pos p c))
          (vec3_at in_t (slot_of n_cube n_point in_pos p c)) (point_at n_point in_pos p)
          (gpcd (p * n_cube + c))) k := by
  rw [fill_grad_wrt_zqt_thread_eq sqrt n_cube n_point in_z in_q in_t in_mask in_pos gpcd
    (p * n_cube + c) G _ _ _ _ _ rfl rfl rfl rfl rfl]
  simp only [pair_index_div hc, pair_index_mod hc, if_pos hmask]
  constructor
  · have h := axis_add_vec3 G.grad_z (slot_of n_cube n_point in_pos p c)
      (local_coords sqrt (quat_at in_q (slot_of n_cube n_point in_pos p c))
        (vec3_at in_t (slot_of n_cube n_point in_pos p c)) (point_at n_point in_pos p))
      (vec3_at in_z (slot_of n_cube n_point in_pos p c)) (gpcd (p * n_cube + c)) k hk
    have hz : vec3_get (vec3_at in_z (slot_of n_cube n_point in_pos p c)) k =
        in_z (slot_of n_cube n_point in_pos p c * 3 + k) := by
      interval_cases k <;> simp [vec3_get, vec3_at]
    rw [hz] at h
    exact h
  · have h := CudaAtomicAdd_vec3 G.grad_t (slot_of n_cube n_point in_pos p c)
      ⟨-(pair_grad_t sqrt (vec3_at in_z (slot_of n_cube n_point in_pos p c))
          (quat_at in_q (slot_of n_cube n_point in_pos p c))
          (vec3_at in_t (slot_of n_cube n_point in_pos p c)) (point_at n_point in_pos p)
          (gpcd (p * n_cube + c))).x,
        -(pair_grad_t sqrt (vec3_at in_z (slot_of n_cube n_point in_pos p c))
          (quat_at in_q (slot_of n_cube n_point in_pos p c))
          (vec3_at in_t (slot_of n_cube n_point in_pos p c)) (point_at n_point in_pos p)
          (gpcd (p * n_cube + c))).y,
        -(pair_grad_t sqrt (vec3_at in_z (slot_of n_cube n_point in_pos p c))
          (quat_at in_q (slot_of n_cube n_point in_pos p c))
          (vec3_at in_t (slot_of n_cube n_point in_pos p c)) (point_at n_point in_pos p)
          (gpcd (p * n_cube + c))).z⟩ k hk
    rw [h]
    interval_cases k <;> simp [vec3_get]

theorem vec3_set_get {A : Type} (v : Vec3 A) (k : Nat) (hk : k < 3) :
    vec3_set v k (vec3_get v k) = v := by
  interval_cases k <;> simp [vec3_set, vec3_get]

theorem vec3_at_update {A : Type} (buf : Nat → A) (s k : Nat) (x : A) (hk : k < 3) :
    vec3_at (Function.update buf (s * 3 + k) x) s = vec3_set (vec3_at buf s) k x := by
  interval_cases k <;> simp [vec3_at, vec3_set, Function.update_apply]

end Loops

/-! ## Lemmas on the rotation matrix -/

section Rotation

variable {F : Type} [LinearOrderedField F]

theorem normSq_nonneg (q : Quat F) : 0 ≤ normSq q := by
  unfold normSq
  nlinarith [mul_self_nonneg q.w, mul_self_nonneg q.x, mul_self_nonneg q.y, mul_self_nonneg q.z]

theorem normSq_ne_zero {q : Quat F} (hq : q ≠ ⟨0, 0, 0, 0⟩) : normSq q ≠ 0 := by
  intro h
  apply hq
  unfold normSq at h
  have hw : q.w = 0 := by
    nlinarith [mul_self_nonneg q.w, mul_self_nonneg q.x, mul_self_nonneg q.y, mul_self_nonneg q.z]
  have hx : q.x = 0 := by
    nlinarith [mul_self_nonneg q.w, mul_self_nonneg q.x, mul_self_nonneg q.y, mul_self_nonneg q.z]
  have hy : q.y = 0 := by
    nlinarith [mul_self_nonneg q.w, mul_self_nonneg q.x, mul_self_nonneg q.y, mul_self_nonneg q.z]
  have hz : q.z = 0 := by
    nlinarith [mul_self_nonneg q.w, mul_self_nonneg q.x, mul_self_nonneg q.y, mul_self_nonneg q.z]
  cases q
  simp_all

theorem normSq_conjugate (q : Quat F) : normSq (conjugate q) = normSq q := by
  simp only [normSq, conjugate]; ring

theorem normSq_quat_smul (k : F) (q : Quat F) : normSq (quat_smul k q) = k * k * normSq q := by
  simp only [normSq, quat_smul]; ring

theorem normSq_hamilton (a b : Quat F) : normSq (hamilton a b) = normSq a * normSq b := by
  simp only [normSq, hamilton]; ring

/-- With an exact square root the entries of `as_rotation_matrix` are rational functions of the
raw quaternion: the two divisions by the norm combine into one division by `normSq`. -/
theorem as_rotation_matrix_eq {sqrt : F → F} (hs : IsSqrt sqrt) (q : Quat F) :
    as_rotation_matrix sqrt q =
      { m0 := 1 - 2 * (q.y * q.y / normSq q) - 2 * (q.z * q.z / normSq q),
        m1 := 2 * (q.x * q.y / normSq q) - 2 * (q.z * q.w / normSq q),
        m2 := 2 * (q.x * q.z / normSq q) + 2 * (q.y * q.w / normSq q),
        m3 := 2 * (q.x * q.y / normSq q) + 2 * (q.z * q.w / normSq q),
        m4 := 1 - 2 * (q.x * q.x / normSq q) - 2 * (q.z * q.z / normSq q),
        m5 := 2 * (q.y * q.z / normSq q) - 2 * (q.x * q.w / normSq q),
        m6 := 2 * (q.x * q.z / normSq q) - 2 * (q.y * q.w / normSq q),
        m7 := 2 * (q.y * q.z / normSq q) + 2 * (q.x * q.w / normSq q),
        m8 := 1 - 2 * (q.x * q.x / normSq q) - 2 * (q.y * q.y / normSq q) } := by
  have key : ∀ a b : F,
      a / sqrt (q.w * q.w + q.x * q.x + q.y * q.y + q.z * q.z) *
        (b / sqrt (q.w * q.w + q.x * q.x + q.y * q.y + q.z * q.z)) =
      a * b / normSq q := by
    intro a b
    have h := hs _ (normSq_nonneg q)
    unfold normSq at h
    rw [div_mul_div_comm, h]
    rfl
  simp only [as_rotation_matrix, normalize, diag, tr_add, tr_sub, mul_assoc, key]

/-- Scaling the quaternion by a non-zero factor does not change the rotation matrix. -/
theorem as_rotation_matrix_quat_smul {sqrt : F → F} (hs : IsSqrt sqrt) (k : F) (hk : k ≠ 0)
    (q : Quat F) :
    as_rotation_matrix sqrt (quat_smul k q) = as_rotation_matrix sqrt q := by
  have key : ∀ a b : F, k * a * (k * b) / (k * k * normSq q) = a * b / normSq q := by
    intro a b
    rw [show k * a * (k * b) = k * k * (a * b) by ring]
    exact mul_div_mul_left _ _ (mul_ne_zero hk hk)
  rw [as_rotation_matrix_eq hs, as_rotation_matrix_eq hs, normSq_quat_smul]
  simp only [quat_smul, key]

theorem conjugate_hamilton (a b : Quat F) :
    conjugate (hamilton a b) = hamilton (conjugate b) (conjugate a) := by
  simp only [conjugate, hamilton, Quat.mk.injEq]
  refine ⟨by ring, by ring, by ring, by ring⟩

theorem matvec_as_rotation {sqrt : F → F} (hs : IsSqrt sqrt) (q : Quat F) (hq : normSq q ≠ 0)
    (v : Vec3 F) :
    matvec_kernel (as_rotation_matrix sqrt q) v =
      ⟨(rot_num q v).x / normSq q, (rot_num q v).y / normSq q, (rot_num q v).z / normSq q⟩ := by
  rw [as_rotation_matrix_eq hs]
  simp only [matvec_kernel, rot_num, Vec3.mk.injEq]
  generalize normSq q = n at hq ⊢
  refine ⟨?_, ?_, ?_⟩ <;> field_simp

theorem rot_num_div (q : Quat F) (a b c n : F) :
    rot_num q ⟨a / n, b / n, c / n⟩ =
      ⟨(rot_num q ⟨a, b, c⟩).x / n, (rot_num q ⟨a, b, c⟩).y / n, (rot_num q ⟨a, b, c⟩).z / n⟩ := by
  simp only [rot_num, Vec3.mk.injEq, div_eq_mul_inv]
  refine ⟨by ring, by ring, by ring⟩

theorem rot_num_hamilton (a b : Quat F) (v : Vec3 F) :
    rot_num (hamilton a b) v = rot_num a (rot_num b v) := by
  simp only [rot_num, hamilton, normSq, Vec3.mk.injEq]
  refine ⟨by ring, by ring, by ring⟩

theorem rot_num_conjugate_self (q : Quat F) (v : Vec3 F) :
    rot_num (conjugate q) (rot_num q v) =
      ⟨normSq q * normSq q * v.x, normSq q * normSq q * v.y, normSq q * normSq q * v.z⟩ := by
  simp only [rot_num, conjugate, normSq, Vec3.mk.injEq]
  refine ⟨by ring, by ring, by ring⟩

theorem matvec_hamilton {sqrt : F → F} (hs : IsSqrt sqrt) (a b : Quat F)
    (ha : normSq a ≠ 0) (hb : normSq b ≠ 0) (v : Vec3 F) :
    matvec_kernel (as_rotation_matrix sqrt (hamilton a b)) v =
      matvec_kernel (as_rotation_matrix sqrt a) (matvec_kernel (as_rotation_matrix sqrt b) v) := by
  rw [matvec_as_rotation hs _ (by rw [normSq_hamilton]; exact mul_ne_zero ha hb),
    matvec_as_rotation hs b hb, matvec_as_rotation hs a ha, rot_num_div, normSq_hamilton,
    rot_num_hamilton]
  simp only [Vec3.mk.injEq, div_div]
  refine ⟨?_, ?_, ?_⟩ <;> rw [mul_comm (normSq b)]

theorem matvec_conjugate_self {sqrt : F → F} (hs : IsSqrt sqrt) (q : Quat F)
    (hq : normSq q ≠ 0) (v : Vec3 F) :
    matvec_kernel (as_rotation_matrix sqrt (conjugate q))
      (matvec_kernel (as_rotation_matrix sqrt q) v) = v := by
  rw [matvec_as_rotation hs q hq, matvec_as_rotation hs _ (by rw [normSq_conjugate]; exact hq),
    rot_num_div, normSq_conjugate, rot_num_conjugate_self]
  cases v
  simp only [Vec3.mk.injEq, div_div]
  refine ⟨?_, ?_, ?_⟩ <;> field_simp

theorem matvec_sub (m : Mat9 F) (a b : Vec3 F) :
    (⟨(matvec_kernel m a).x - (matvec_kernel m b).x, (matvec_kernel m a).y - (matvec_kernel m b).y,
      (matvec_kernel m a).z - (matvec_kernel m b).z⟩ : Vec3 F) =
      matvec_kernel m ⟨a.x - b.x, a.y - b.y, a.z - b.z⟩ := by
  simp only [matvec_kernel, Vec3.mk.injEq]
  refine ⟨by ring, by ring, by ring⟩

theorem local_coords_rotate {sqrt : F → F} (hs : IsSqrt sqrt) (r q : Quat F)
    (hr : normSq r ≠ 0) (hq : normSq q ≠ 0) (t pos : Vec3 F) :
    local_coords sqrt (hamilton r q) (matvec_kernel (as_rotation_matrix sqrt r) t)
      (matvec_kernel (as_rotation_matrix sqrt r) pos) = local_coords sqrt q t pos := by
  simp only [local_coords]
  rw [matvec_sub, conjugate_hamilton,
    matvec_hamilton hs _ _ (by rw [normSq_conjugate]; exact hq)
      (by rw [normSq_conjugate]; exact hr),
    matvec_conjugate_self hs r hr]
theorem as_rotation_matrix_conjugate (sqrt : F → F) (q : Quat F) :
    as_rotation_matrix sqrt (conjugate q) = transpose (as_rotation_matrix sqrt q) := by
  simp only [as_rotation_matrix, normalize, conjugate, transpose, diag, tr_add, tr_sub,
    neg_mul_neg, Mat9.mk.injEq]
  refine ⟨by ring, by ring, by ring, by ring, by ring, by ring, by ring, by ring, by ring⟩

theorem t_matvec_kernel_eq (m : Mat9 F) (v : Vec3 F) :
    t_matvec_kernel m v = matvec_kernel (transpose m) v := rfl

theorem conjugate_conjugate (q : Quat F) : conjugate (conjugate q) = q := by
  cases q
  simp [conjugate]

theorem matvec_self_conjugate {sqrt : F → F} (hs : IsSqrt sqrt) (q : Quat F)
    (hq : normSq q ≠ 0) (v : Vec3 F) :
    matvec_kernel (as_rotation_matrix sqrt q)
      (matvec_kernel (as_rotation_matrix sqrt (conjugate q)) v) = v := by
  have h := matvec_conjugate_self hs (conjugate q) (by rw [normSq_conjugate]; exact hq) v
  rw [conjugate_conjugate] at h
  exact h

/-- For a non-zero quaternion and an exact, non-negative square root the fused closed form
equals the two-step "version one". -/
theorem version_one_eq {sqrt : F → F} (hs : IsSqrt sqrt) (hnn : ∀ a : F, 0 ≤ a → 0 ≤ sqrt a)
    (m : Mat9 F) (q : Quat F) (hq : q.w * q.w + q.x * q.x + q.y * q.y + q.z * q.z ≠ 0) :
    grad_rotation_matrix_to_quaternion m q =
      grad_rotation_matrix_to_quaternion_version_one sqrt m q := by
  have hN0 : 0 ≤ q.w * q.w + q.x * q.x + q.y * q.y + q.z * q.z := by
    nlinarith [mul_self_nonneg q.w, mul_self_nonneg q.x, mul_self_nonneg q.y, mul_self_nonneg q.z]
  have hn2 := hs _ hN0
  have hn0 := hnn _ hN0
  have h3 : 0 ≤ (q.w * q.w + q.x * q.x + q.y * q.y + q.z * q.z) ^ 3 := pow_nonneg hN0 3
  have hd : sqrt ((q.w * q.w + q.x * q.x + q.y * q.y + q.z * q.z) ^ 3) =
      (q.w * q.w + q.x * q.x + q.y * q.y + q.z * q.z) *
        sqrt (q.w * q.w + q.x * q.x + q.y * q.y + q.z * q.z) := by
    apply (mul_self_inj (hnn _ h3) (mul_nonneg hN0 hn0)).mp
    rw [hs _ h3]
    calc (q.w * q.w + q.x * q.x + q.y * q.y + q.z * q.z) ^ 3
        = (q.w * q.w + q.x * q.x + q.y * q.y + q.z * q.z) *
            (q.w * q.w + q.x * q.x + q.y * q.y + q.z * q.z) *
            (sqrt (q.w * q.w + q.x * q.x + q.y * q.y + q.z * q.z) *
              sqrt (q.w * q.w + q.x * q.x + q.y * q.y + q.z * q.z)) := by rw [hn2]; ring
      _ = _ := by ring
  simp only [grad_rotation_matrix_to_quaternion, grad_rotation_matrix_to_quaternion_version_one,
    normalize, hd, div_eq_mul_inv, mul_inv, one_mul, Quat.mk.injEq]
  have e1 : (sqrt (q.w * q.w + q.x * q.x + q.y * q.y + q.z * q.z))⁻¹ *
      (sqrt (q.w * q.w + q.x * q.x + q.y * q.y + q.z * q.z))⁻¹ =
      (q.w * q.w + q.x * q.x + q.y * q.y + q.z * q.z)⁻¹ := by
    rw [← mul_inv, hn2]
  have e2 : (q.w * q.w + q.x * q.x + q.y * q.y + q.z * q.z) *
      (q.w * q.w + q.x * q.x + q.y * q.y + q.z * q.z)⁻¹ = 1 := mul_inv_cancel₀ hq
  generalize (sqrt (q.w * q.w + q.x * q.x + q.y * q.y + q.z * q.z))⁻¹ = ninv at e1 ⊢
  generalize (q.w * q.w + q.x * q.x + q.y * q.y + q.z * q.z)⁻¹ = Ninv at e1 e2 ⊢
  refine ⟨?_, ?_, ?_, ?_⟩
  · linear_combination (-((2 * q.x * (-m.m5 + m.m7) + 2 * q.y * (m.m2 - m.m6) + 2 * q.z * (-m.m1 + m.m3)) * Ninv)) * e2 - (((q.x * q.x + q.y * q.y + q.z * q.z) * (2 * q.x * (-m.m5 + m.m7) + 2 * q.y * (m.m2 - m.m6) + 2 * q.z * (-m.m1 + m.m3)) + (-q.x * q.w) * (2 * q.w * (-m.m5 + m.m7) + 4 * q.x * (-m.m4 - m.m8) + 2 * q.y * (m.m1 + m.m3) + 2 * q.z * (m.m2 + m.m6)) + (-q.y * q.w) * (2 * q.w * (m.m2 - m.m6) + 2 * q.x * (m.m1 + m.m3) + 4 * q.y * (-m.m0 - m.m8) + 2 * q.z * (m.m5 + m.m7)) + (-q.z * q.w) * (2 * q.w * (-m.m1 + m.m3) + 2 * q.x * (m.m2 + m.m6) + 2 * q.y * (m.m5 + m.m7) + 4 * q.z * (-m.m0 - m.m4))) * Ninv) * e1
  · linear_combination (-((2 * q.w * (-m.m5 + m.m7) + 4 * q.x * (-m.m4 - m.m8) + 2 * q.y * (m.m1 + m.m3) + 2 * q.z * (m.m2 + m.m6)) * Ninv)) * e2 - (((-q.w * q.x) * (2 * q.x * (-m.m5 + m.m7) + 2 * q.y * (m.m2 - m.m6) + 2 * q.z * (-m.m1 + m.m3)) + (q.w * q.w + q.y * q.y + q.z * q.z) * (2 * q.w * (-m.m5 + m.m7) + 4 * q.x * (-m.m4 - m.m8) + 2 * q.y * (m.m1 + m.m3) + 2 * q.z * (m.m2 + m.m6)) + (-q.y * q.x) * (2 * q.w * (m.m2 - m.m6) + 2 * q.x * (m.m1 + m.m3) + 4 * q.y * (-m.m0 - m.m8) + 2 * q.z * (m.m5 + m.m7)) + (-q.z * q.x) * (2 * q.w * (-m.m1 + m.m3) + 2 * q.x * (m.m2 + m.m6) + 2 * q.y * (m.m5 + m.m7) + 4 * q.z * (-m.m0 - m.m4))) * Ninv) * e1
  · linear_combination (-((2 * q.w * (m.m2 - m.m6) + 2 * q.x * (m.m1 + m.m3) + 4 * q.y * (-m.m0 - m.m8) + 2 * q.z * (m.m5 + m.m7)) * Ninv)) * e2 - (((-q.w * q.y) * (2 * q.x * (-m.m5 + m.m7) + 2 * q.y * (m.m2 - m.m6) + 2 * q.z * (-m.m1 + m.m3)) + (-q.x * q.y) * (2 * q.w * (-m.m5 + m.m7) + 4 * q.x * (-m.m4 - m.m8) + 2 * q.y * (m.m1 + m.m3) + 2 * q.z * (m.m2 + m.m6)) + (q.w * q.w + q.x * q.x + q.z * q.z) * (2 * q.w * (m.m2 - m.m6) + 2 * q.x * (m.m1 + m.m3) + 4 * q.y * (-m.m0 - m.m8) + 2 * q.z * (m.m5 + m.m7)) + (-q.z * q.y) * (2 * q.w * (-m.m1 + m.m3) + 2 * q.x * (m.m2 + m.m6) + 2 * q.y * (m.m5 + m.m7) + 4 * q.z * (-m.m0 - m.m4))) * Ninv) * e1
  · linear_combination (-((2 * q.w * (-m.m1 + m.m3) + 2 * q.x * (m.m2 + m.m6) + 2 * q.y * (m.m5 + m.m7) + 4 * q.z * (-m.m0 - m.m4)) * Ninv)) * e2 - (((-q.w * q.z) * (2 * q.x * (-m.m5 + m.m7) + 2 * q.y * (m.m2 - m.m6) + 2 * q.z * (-m.m1 + m.m3)) + (-q.x * q.z) * (2 * q.w * (-m.m5 + m.m7) + 4 * q.x * (-m.m4 - m.m8) + 2 * q.y * (m.m1 + m.m3) + 2 * q.z * (m.m2 + m.m6)) + (-q.y * q.z) * (2 * q.w * (m.m2 - m.m6) + 2 * q.x * (m.m1 + m.m3) + 4 * q.y * (-m.m0 - m.m8) + 2 * q.z * (m.m5 + m.m7)) + (q.w * q.w + q.x * q.x + q.y * q.y) * (2 * q.w * (-m.m1 + m.m3) + 2 * q.x * (m.m2 + m.m6) + 2 * q.y * (m.m5 + m.m7) + 4 * q.z * (-m.m0 - m.m4))) * Ninv) * e1

theorem isSqrt_real : IsSqrt Real.sqrt := fun _ ha => Real.mul_self_sqrt ha

end Rotation

/-! ## Derivatives -/

section Calculus

variable {F : Type} [LinearOrderedField F]

theorem mat_dot_as_rotation_matrix (m : Mat9 ℝ) (q : Quat ℝ) :
    mat_dot m (as_rotation_matrix Real.sqrt q) =
      (m.m0 + m.m4 + m.m8) + rot_poly m q / normSq q := by
  rw [as_rotation_matrix_eq isSqrt_real]
  simp only [mat_dot, rot_poly]
  ring

theorem hasDerivAt_quad_div (P : ℝ → ℝ) (a b c n k x0 : ℝ)
    (hP : ∀ x, P x = a * (x * x) + b * x + c) (h0 : x0 * x0 + n ≠ 0) :
    HasDerivAt (fun x => k + P x / (x * x + n))
      ((2 * a * x0 + b) * (1 / (x0 * x0 + n)) -
        P x0 * (2 * x0) * (1 / (x0 * x0 + n) * (1 / (x0 * x0 + n)))) x0 := by
  have hP' : HasDerivAt P (2 * a * x0 + b) x0 := by
    have e : P = fun x => a * (x * x) + b * x + c := funext hP
    rw [e]
    have h1 := ((hasDerivAt_id x0).mul (hasDerivAt_id x0)).const_mul a
    have h2 := (hasDerivAt_id x0).const_mul b
    have h3 := (h1.add h2).add_const c
    convert h3 using 1
    simp only [id]
    ring
  have hN : HasDerivAt (fun x : ℝ => x * x + n) (2 * x0) x0 := by
    have h1 := ((hasDerivAt_id x0).mul (hasDerivAt_id x0)).add_const n
    convert h1 using 1
    simp only [id]
    ring
  have h := (hP'.div hN h0).const_add k
  convert h using 1
  field_simp
  ring

theorem hasDerivAt_rot_w (m : Mat9 ℝ) (q : Quat ℝ) (hq : normSq q ≠ 0) :
    HasDerivAt (fun x => mat_dot m (as_rotation_matrix Real.sqrt ⟨x, q.x, q.y, q.z⟩))
      (grad_rotation_matrix_to_quaternion m q).w q.w := by
  have hf : (fun x => mat_dot m (as_rotation_matrix Real.sqrt ⟨x, q.x, q.y, q.z⟩)) =
      fun x => (m.m0 + m.m4 + m.m8) + rot_poly m ⟨x, q.x, q.y, q.z⟩ /
        (x * x + (q.x * q.x + q.y * q.y + q.z * q.z)) := by
    funext x
    rw [mat_dot_as_rotation_matrix]
    simp only [normSq]
    ring
  have h0 : q.w * q.w + (q.x * q.x + q.y * q.y + q.z * q.z) ≠ 0 := by
    intro h; apply hq; unfold normSq; linarith
  rw [hf]
  have hd := hasDerivAt_quad_div (fun x => rot_poly m ⟨x, q.x, q.y, q.z⟩)
    ((rot_poly m ⟨1, q.x, q.y, q.z⟩ + rot_poly m ⟨-1, q.x, q.y, q.z⟩) / 2 -
      rot_poly m ⟨0, q.x, q.y, q.z⟩)
    ((rot_poly m ⟨1, q.x, q.y, q.z⟩ - rot_poly m ⟨-1, q.x, q.y, q.z⟩) / 2)
    (rot_poly m ⟨0, q.x, q.y, q.z⟩) (q.x * q.x + q.y * q.y + q.z * q.z) (m.m0 + m.m4 + m.m8) q.w
    (by intro x; simp only [rot_poly]; ring) h0
  convert hd using 1
  simp only [grad_rotation_matrix_to_quaternion, rot_poly]
  ring

theorem hasDerivAt_rot_x (m : Mat9 ℝ) (q : Quat ℝ) (hq : normSq q ≠ 0) :
    HasDerivAt (fun x => mat_dot m (as_rotation_matrix Real.sqrt ⟨q.w, x, q.y, q.z⟩))
      (grad_rotation_matrix_to_quaternion m q).x q.x := by
  have hf : (fun x => mat_dot m (as_rotation_matrix Real.sqrt ⟨q.w, x, q.y, q.z⟩)) =
      fun x => (m.m0 + m.m4 + m.m8) + rot_poly m ⟨q.w, x, q.y, q.z⟩ /
        (x * x + (q.w * q.w + q.y * q.y + q.z * q.z)) := by
    funext x
    rw [mat_dot_as_rotation_matrix]
    simp only [normSq]
    ring
  have h0 : q.x * q.x + (q.w * q.w + q.y * q.y + q.z * q.z) ≠ 0 := by
    intro h; apply hq; unfold normSq; linarith
  rw [hf]
  have hd := hasDerivAt_quad_div (fun x => rot_poly m ⟨q.w, x, q.y, q.z⟩)
    ((rot_poly m ⟨q.w, 1, q.y, q.z⟩ + rot_poly m ⟨q.w, -1, q.y, q.z⟩) / 2 -
      rot_poly m ⟨q.w, 0, q.y, q.z⟩)
    ((rot_poly m ⟨q.w, 1, q.y, q.z⟩ - rot_poly m ⟨q.w, -1, q.y, q.z⟩) / 2)
    (rot_poly m ⟨q.w, 0, q.y, q.z⟩) (q.w * q.w + q.y * q.y + q.z * q.z) (m.m0 + m.m4 + m.m8) q.x
    (by intro x; simp only [rot_poly]; ring) h0
  convert hd using 1
  simp only [grad_rotation_matrix_to_quaternion, rot_poly]
  ring

theorem hasDerivAt_rot_y (m : Mat9 ℝ) (q : Quat ℝ) (hq : normSq q ≠ 0) :
    HasDerivAt (fun x => mat_dot m (as_rotation_matrix Real.sqrt ⟨q.w, q.x, x, q.z⟩))
      (grad_rotation_matrix_to_quaternion m q).y q.y := by
  have hf : (fun x => mat_dot m (as_rotation_matrix Real.sqrt ⟨q.w, q.x, x, q.z⟩)) =
      fun x => (m.m0 + m.m4 + m.m8) + rot_poly m ⟨q.w, q.x, x, q.z⟩ /
        (x * x + (q.w * q.w + q.x * q.x + q.z * q.z)) := by
    funext x
    rw [mat_dot_as_rotation_matrix]
    simp only [normSq]
    ring
  have h0 : q.y * q.y + (q.w * q.w + q.x * q.x + q.z * q.z) ≠ 0 := by
    intro h; apply hq; unfold normSq; linarith
  rw [hf]
  have hd := hasDerivAt_quad_div (fun x => rot_poly m ⟨q.w, q.x, x, q.z⟩)
    ((rot_poly m ⟨q.w, q.x, 1, q.z⟩ + rot_poly m ⟨q.w, q.x, -1, q.z⟩) / 2 -
      rot_poly m ⟨q.w, q.x, 0, q.z⟩)
    ((rot_poly m ⟨q.w, q.x, 1, q.z⟩ - rot_poly m ⟨q.w, q.x, -1, q.z⟩) / 2)
    (rot_poly m ⟨q.w, q.x, 0, q.z⟩) (q.w * q.w + q.x * q.x + q.z * q.z) (m.m0 + m.m4 + m.m8) q.y
    (by intro x; simp only [rot_poly]; ring) h0
  convert hd using 1
  simp only [grad_rotation_matrix_to_quaternion, rot_poly]
  ring

theorem hasDerivAt_rot_z (m : Mat9 ℝ) (q : Quat ℝ) (hq : normSq q ≠ 0) :
    HasDerivAt (fun x => mat_dot m (as_rotation_matrix Real.sqrt ⟨q.w, q.x, q.y, x⟩))
      (grad_rotation_matrix_to_quaternion m q).z q.z := by
  have hf : (fun x => mat_dot m (as_rotation_matrix Real.sqrt ⟨q.w, q.x, q.y, x⟩)) =
      fun x => (m.m0 + m.m4 + m.m8) + rot_poly m ⟨q.w, q.x, q.y, x⟩ /
        (x * x + (q.w * q.w + q.x * q.x + q.y * q.y)) := by
    funext x
    rw [mat_dot_as_rotation_matrix]
    simp only [normSq]
    ring
  have h0 : q.z * q.z + (q.w * q.w + q.x * q.x + q.y * q.y) ≠ 0 := by
    intro h; apply hq; unfold normSq; linarith
  rw [hf]
  have hd := hasDerivAt_quad_div (fun x => rot_poly m ⟨q.w, q.x, q.y, x⟩)
    ((rot_poly m ⟨q.w, q.x, q.y, 1⟩ + rot_poly m ⟨q.w, q.x, q.y, -1⟩) / 2 -
      rot_poly m ⟨q.w, q.x, q.y, 0⟩)
    ((rot_poly m ⟨q.w, q.x, q.y, 1⟩ - rot_poly m ⟨q.w, q.x, q.y, -1⟩) / 2)
    (rot_poly m ⟨q.w, q.x, q.y, 0⟩) (q.w * q.w + q.x * q.x + q.y * q.y) (m.m0 + m.m4 + m.m8) q.z
    (by intro x; simp only [rot_poly]; ring) h0
  convert hd using 1
  simp only [grad_rotation_matrix_to_quaternion, rot_poly]
  ring

theorem hasDerivAt_clip_sq (z u0 : ℝ) (hz : 0 ≤ z) :
    HasDerivAt (fun u : ℝ => MAX (|u| - z) 0 * MAX (|u| - z) 0)
      (2 * MAX (|u0| - z) 0 * SIGN u0) u0 := by
  unfold MAX SIGN
  rcases lt_trichotomy (|u0|) z with h | h | h
  · have hev : (fun u : ℝ => max (|u| - z) 0 * max (|u| - z) 0) =ᶠ[nhds u0] fun _ => 0 := by
      have hc : ∀ᶠ u in nhds u0, |u| < z :=
        (continuous_abs.tendsto u0).eventually (gt_mem_nhds h)
      filter_upwards [hc] with u hu
      rw [max_eq_right (by linarith)]
      ring
    have e0 : max (|u0| - z) 0 = 0 := max_eq_right (by linarith)
    rw [e0]
    simp only [mul_zero, zero_mul]
    exact (hasDerivAt_const u0 (0 : ℝ)).congr_of_eventuallyEq hev
  · have e0 : max (|u0| - z) 0 = 0 := max_eq_right (by linarith)
    rw [e0]
    simp only [mul_zero, zero_mul]
    rw [hasDerivAt_iff_isLittleO, e0]
    have hb : (fun u : ℝ => max (|u| - z) 0 * max (|u| - z) 0 - 0 * 0 - (u - u0) • (0 : ℝ)) =O[nhds u0]
        fun u => ‖u - u0‖ ^ 2 := by
      apply Asymptotics.IsBigO.of_bound'
      filter_upwards with u
      have h1 : 0 ≤ max (|u| - z) 0 := le_max_right _ _
      have h2 : max (|u| - z) 0 ≤ |u - u0| := by
        apply max_le _ (abs_nonneg _)
        rw [← h]
        exact abs_sub_abs_le_abs_sub u u0
      simp only [smul_zero, mul_zero, sub_zero, Real.norm_eq_abs, abs_pow, abs_abs]
      rw [abs_of_nonneg (mul_nonneg h1 h1)]
      nlinarith
    exact hb.trans_isLittleO (Asymptotics.isLittleO_pow_sub_sub u0 (by norm_num))
  · rcases le_or_lt 0 u0 with hpos | hneg
    · have hu0 : z < u0 := by rwa [abs_of_nonneg hpos] at h
      have hev : (fun u : ℝ => max (|u| - z) 0 * max (|u| - z) 0) =ᶠ[nhds u0]
          fun u => (u - z) * (u - z) := by
        filter_upwards [lt_mem_nhds hu0] with u hu
        rw [abs_of_nonneg (by linarith), max_eq_left (by linarith)]
      have hd : HasDerivAt (fun u : ℝ => (u - z) * (u - z)) (2 * (u0 - z)) u0 := by
        have h1 := ((hasDerivAt_id u0).sub_const z).mul ((hasDerivAt_id u0).sub_const z)
        convert h1 using 1
        simp only [id]
        ring
      have e0 : max (|u0| - z) 0 = u0 - z := by
        rw [abs_of_nonneg hpos, max_eq_left (by linarith)]
      rw [e0, if_pos hpos, mul_one]
      exact hd.congr_of_eventuallyEq hev
    · have hu0 : u0 < -z := by
        rw [abs_of_neg hneg] at h
        linarith
      have hev : (fun u : ℝ => max (|u| - z) 0 * max (|u| - z) 0) =ᶠ[nhds u0]
          fun u => (-u - z) * (-u - z) := by
        filter_upwards [gt_mem_nhds hu0] with u hu
        rw [abs_of_neg (by linarith), max_eq_left (by linarith)]
      have hd : HasDerivAt (fun u : ℝ => (-u - z) * (-u - z)) (2 * (-u0 - z) * -1) u0 := by
        have h1 := ((hasDerivAt_neg' u0).sub_const z).mul ((hasDerivAt_neg' u0).sub_const z)
        convert h1 using 1
        ring
      have e0 : max (|u0| - z) 0 = -u0 - z := by
        rw [abs_of_neg hneg, max_eq_left (by linarith)]
      rw [e0, if_neg (not_le.mpr hneg)]
      exact hd.congr_of_eventuallyEq hev

theorem matvec_eq_mat_dot (r : Mat9 F) (v : Vec3 F) :
    matvec_kernel r v = ⟨mat_dot (row_x v) r, mat_dot (row_y v) r, mat_dot (row_z v) r⟩ := by
  simp only [matvec_kernel, mat_dot, row_x, row_y, row_z, Vec3.mk.injEq]
  refine ⟨by ring, by ring, by ring⟩

theorem grad_rotation_matrix_to_quaternion_outer (c v : Vec3 F) (q : Quat F) :
    grad_rotation_matrix_to_quaternion (outer c v) q =
      ⟨c.x * (grad_rotation_matrix_to_quaternion (row_x v) q).w +
          c.y * (grad_rotation_matrix_to_quaternion (row_y v) q).w +
          c.z * (grad_rotation_matrix_to_quaternion (row_z v) q).w,
        c.x * (grad_rotation_matrix_to_quaternion (row_x v) q).x +
          c.y * (grad_rotation_matrix_to_quaternion (row_y v) q).x +
          c.z * (grad_rotation_matrix_to_quaternion (row_z v) q).x,
        c.x * (grad_rotation_matrix_to_quaternion (row_x v) q).y +
          c.y * (grad_rotation_matrix_to_quaternion (row_y v) q).y +
          c.z * (grad_rotation_matrix_to_quaternion (row_z v) q).y,
        c.x * (grad_rotation_matrix_to_quaternion (row_x v) q).z +
          c.y * (grad_rotation_matrix_to_quaternion (row_y v) q).z +
          c.z * (grad_rotation_matrix_to_quaternion (row_z v) q).z⟩ := by
  simp only [grad_rotation_matrix_to_quaternion, outer, row_x, row_y, row_z, Quat.mk.injEq]
  refine ⟨by ring, by ring, by ring, by ring⟩

/-- Partial derivatives, through the conjugation, of a linear functional of the rotation matrix
built from the conjugated quaternion. -/
theorem hasDerivAt_rot_conjugate (m : Mat9 ℝ) (q : Quat ℝ) (hq : normSq q ≠ 0) (j : Nat)
    (hj : j < 4) :
    HasDerivAt (fun x => mat_dot m (as_rotation_matrix Real.sqrt (conjugate (quat_set q j x))))
      (quat_get (conjugate (grad_rotation_matrix_to_quaternion m (conjugate q))) j)
      (quat_get q j) := by
  have hc : normSq (conjugate q) ≠ 0 := by rw [normSq_conjugate]; exact hq
  interval_cases j
  · exact hasDerivAt_rot_w m (conjugate q) hc
  · have h := HasDerivAt.comp q.x (hasDerivAt_rot_x m (conjugate q) hc) (hasDerivAt_neg' q.x)
    simpa [quat_get, quat_set, conjugate, Function.comp_def] using h
  · have h := HasDerivAt.comp q.y (hasDerivAt_rot_y m (conjugate q) hc) (hasDerivAt_neg' q.y)
    simpa [quat_get, quat_set, conjugate, Function.comp_def] using h
  · have h := HasDerivAt.comp q.z (hasDerivAt_rot_z m (conjugate q) hc) (hasDerivAt_neg' q.z)
    simpa [quat_get, quat_set, conjugate, Function.comp_def] using h

theorem quat_set_get {A : Type} (q : Quat A) (j : Nat) (hj : j < 4) :
    quat_set q j (quat_get q j) = q := by
  interval_cases j <;> simp [quat_set, quat_get]

theorem axis_grad_eq (l z g : F) :
    axis_grad l z g = g * (2 * MAX (|l| - z) 0 * SIGN l) := by
  unfold axis_grad
  split_ifs with h
  · ring
  · have e : MAX (|l| - z) 0 = 0 := max_eq_right (not_lt.mp h)
    rw [e]
    ring

/-- The box distance of a pair is differentiable in each raw orientation component, and the
value `pair_grad_q` is the routed gradient times that partial derivative. -/
theorem hasDerivAt_box_distance (z : Vec3 ℝ) (q : Quat ℝ) (t pos : Vec3 ℝ) (g : ℝ)
    (hz : 0 ≤ z.x ∧ 0 ≤ z.y ∧ 0 ≤ z.z) (hq : normSq q ≠ 0) (j : Nat) (hj : j < 4) :
    ∃ d : ℝ,
      HasDerivAt (fun x => box_distance z (local_coords Real.sqrt (quat_set q j x) t pos)) d
        (quat_get q j) ∧
      quat_get (pair_grad_q Real.sqrt z q t pos g) j = g * d := by
  have hl : ∀ q' : Quat ℝ, local_coords Real.sqrt q' t pos =
      ⟨mat_dot (row_x ⟨pos.x - t.x, pos.y - t.y, pos.z - t.z⟩)
          (as_rotation_matrix Real.sqrt (conjugate q')),
        mat_dot (row_y ⟨pos.x - t.x, pos.y - t.y, pos.z - t.z⟩)
          (as_rotation_matrix Real.sqrt (conjugate q')),
        mat_dot (row_z ⟨pos.x - t.x, pos.y - t.y, pos.z - t.z⟩)
          (as_rotation_matrix Real.sqrt (conjugate q'))⟩ := by
    intro q'
    rw [local_coords, matvec_eq_mat_dot]
  have hux := hasDerivAt_rot_conjugate (row_x ⟨pos.x - t.x, pos.y - t.y, pos.z - t.z⟩) q hq j hj
  have huy := hasDerivAt_rot_conjugate (row_y ⟨pos.x - t.x, pos.y - t.y, pos.z - t.z⟩) q hq j hj
  have huz := hasDerivAt_rot_conjugate (row_z ⟨pos.x - t.x, pos.y - t.y, pos.z - t.z⟩) q hq j hj
  have hx := HasDerivAt.comp (quat_get q j) (hasDerivAt_clip_sq z.x _ hz.1) hux
  have hy := HasDerivAt.comp (quat_get q j) (hasDerivAt_clip_sq z.y _ hz.2.1) huy
  have hz' := HasDerivAt.comp (quat_get q j) (hasDerivAt_clip_sq z.z _ hz.2.2) huz
  have hsum := (hx.add hy).add hz'
  rw [quat_set_get q j hj] at hsum
  refine ⟨_, hsum.congr_of_eventuallyEq (Filter.Eventually.of_forall fun x => ?_), ?_⟩
  · simp only [box_distance, hl, Function.comp_def]
  · simp only [pair_grad_q, grad_rotation_matrix_to_quaternion_outer, clipped_grad, axis_grad_eq,
      hl]
    interval_cases j <;> simp only [quat_get, conjugate] <;> norm_num <;> ring

theorem quat_at_update {A : Type} (in_q : Nat → A) (s j : Nat) (x : A) (hj : j < 4) :
    quat_at (Function.update in_q (s * 4 + j) x) s = quat_set (quat_at in_q s) j x := by
  interval_cases j <;> simp [quat_at, quat_set, Function.update_apply]

theorem quat_get_quat_at {A : Type} (in_q : Nat → A) (s j : Nat) (hj : j < 4) :
    quat_get (quat_at in_q s) j = in_q (s * 4 + j) := by
  interval_cases j <;> simp [quat_at, quat_get]

theorem CudaAtomicAdd_quat (buf : Nat → F) (s : Nat) (g : Quat F) (j : Nat) (hj : j < 4) :
    CudaAtomicAdd (CudaAtomicAdd (CudaAtomicAdd (CudaAtomicAdd buf (s * 4 + 0) g.w)
      (s * 4 + 1) g.x) (s * 4 + 2) g.y) (s * 4 + 3) g.z (s * 4 + j) =
      buf (s * 4 + j) + quat_get g j := by
  interval_cases j <;> simp [CudaAtomicAdd_apply, quat_get]

theorem hasDerivAt_affine (a b c x0 : ℝ) : HasDerivAt (fun x => a * (c - x) + b) (-a) x0 := by
  have h := (((hasDerivAt_id x0).const_sub c).const_mul a).add_const b
  convert h using 1
  ring

theorem hasDerivAt_linear_form (a0 a1 a2 : ℝ) (t pos : Vec3 ℝ) (k : Nat) (hk : k < 3) :
    HasDerivAt
      (fun x => a0 * (pos.x - (vec3_set t k x).x) + a1 * (pos.y - (vec3_set t k x).y) +
        a2 * (pos.z - (vec3_set t k x).z))
      (-vec3_get ⟨a0, a1, a2⟩ k) (vec3_get t k) := by
  interval_cases k
  · exact (hasDerivAt_affine a0 (a1 * (pos.y - t.y) + a2 * (pos.z - t.z)) pos.x
      t.x).congr_of_eventuallyEq
      (Filter.Eventually.of_forall fun x => by simp [vec3_set]; ring)
  · exact (hasDerivAt_affine a1 (a0 * (pos.x - t.x) + a2 * (pos.z - t.z)) pos.y
      t.y).congr_of_eventuallyEq
      (Filter.Eventually.of_forall fun x => by simp [vec3_set]; ring)
  · exact (hasDerivAt_affine a2 (a0 * (pos.x - t.x) + a1 * (pos.y - t.y)) pos.z
      t.z).congr_of_eventuallyEq
      (Filter.Eventually.of_forall fun x => by simp [vec3_set]; ring)

/-- The box distance of a pair is differentiable in each translation component, and the negated
component of `pair_grad_t` is the routed gradient times that partial derivative. -/
theorem hasDerivAt_box_distance_translation (sqrt : ℝ → ℝ) (z : Vec3 ℝ) (q : Quat ℝ)
    (t pos : Vec3 ℝ) (g : ℝ) (hz : 0 ≤ z.x ∧ 0 ≤ z.y ∧ 0 ≤ z.z) (k : Nat) (hk : k < 3) :
    ∃ d : ℝ,
      HasDerivAt (fun x => box_distance z (local_coords sqrt q (vec3_set t k x) pos)) d
        (vec3_get t k) ∧
      -vec3_get (pair_grad_t sqrt z q t pos g) k = g * d := by
  have hux : HasDerivAt (fun x => (local_coords sqrt q (vec3_set t k x) pos).x) _
      (vec3_get t k) :=
    hasDerivAt_linear_form (as_rotation_matrix sqrt (conjugate q)).m0
      (as_rotation_matrix sqrt (conjugate q)).m1 (as_rotation_matrix sqrt (conjugate q)).m2
      t pos k hk
  have huy : HasDerivAt (fun x => (local_coords sqrt q (vec3_set t k x) pos).y) _
      (vec3_get t k) :=
    hasDerivAt_linear_form (as_rotation_matrix sqrt (conjugate q)).m3
      (as_rotation_matrix sqrt (conjugate q)).m4 (as_rotation_matrix sqrt (conjugate q)).m5
      t pos k hk
  have huz : HasDerivAt (fun x => (local_coords sqrt q (vec3_set t k x) pos).z) _
      (vec3_get t k) :=
    hasDerivAt_linear_form (as_rotation_matrix sqrt (conjugate q)).m6
      (as_rotation_matrix sqrt (conjugate q)).m7 (as_rotation_matrix sqrt (conjugate q)).m8
      t pos k hk
  have hx := HasDerivAt.comp (vec3_get t k) (hasDerivAt_clip_sq z.x _ hz.1) hux
  have hy := HasDerivAt.comp (vec3_get t k) (hasDerivAt_clip_sq z.y _ hz.2.1) huy
  have hz' := HasDerivAt.comp (vec3_get t k) (hasDerivAt_clip_sq z.z _ hz.2.2) huz
  have hsum := (hx.add hy).add hz'
  rw [vec3_set_get t k hk] at hsum
  refine ⟨_, hsum.congr_of_eventuallyEq (Filter.Eventually.of_forall fun x => ?_), ?_⟩
  · simp only [box_distance, Function.comp_def]
  · simp only [pair_grad_t, clipped_grad, axis_grad_eq, t_matvec_kernel]
    interval_cases k <;> simp only [vec3_get] <;> norm_num <;> ring

end Calculus

/-! ## Frame and sign lemmas for the two host functions -/

section Frame

variable {F : Type} [LinearOrderedField F]

/-- The outputs of `grad_rotation_matrix_to_quaternion` are orthogonal to the raw quaternion. -/
theorem grad_rotation_matrix_to_quaternion_orthogonal (m : Mat9 F) (q : Quat F) :
    q.w * (grad_rotation_matrix_to_quaternion m q).w +
      q.x * (grad_rotation_matrix_to_quaternion m q).x +
      q.y * (grad_rotation_matrix_to_quaternion m q).y +
      q.z * (grad_rotation_matrix_to_quaternion m q).z = 0 := by
  have e : (1 / (q.w * q.w + q.x * q.x + q.y * q.y + q.z * q.z)) *
      ((q.w * q.w + q.x * q.x + q.y * q.y + q.z * q.z) *
        (1 / (q.w * q.w + q.x * q.x + q.y * q.y + q.z * q.z)) - 1) = 0 := by
    by_cases h : q.w * q.w + q.x * q.x + q.y * q.y + q.z * q.z = 0
    · rw [h]; simp
    · rw [mul_one_div_cancel h]; simp
  simp only [grad_rotation_matrix_to_quaternion]
  generalize 1 / (q.w * q.w + q.x * q.x + q.y * q.y + q.z * q.z) = s at e ⊢
  linear_combination
    (m.m0 * (4 * (q.y * q.y + q.z * q.z)) + m.m1 * (4 * (q.w * q.z - q.x * q.y)) -
      m.m2 * (4 * (q.w * q.y + q.x * q.z)) - m.m3 * (4 * (q.w * q.z + q.x * q.y)) +
      m.m4 * (4 * (q.x * q.x + q.z * q.z)) + m.m5 * (4 * (q.w * q.x - q.y * q.z)) +
      m.m6 * (4 * (q.w * q.y - q.x * q.z)) - m.m7 * (4 * (q.w * q.x + q.y * q.z)) +
      m.m8 * (4 * (q.x * q.x + q.y * q.y))) * e

/-- The orientation contribution of a pair is orthogonal to the raw orientation. -/
theorem pair_grad_q_orthogonal (sqrt : F → F) (z : Vec3 F) (q : Quat F) (t pos : Vec3 F)
    (g : F) :
    q.w * (pair_grad_q sqrt z q t pos g).w + q.x * (pair_grad_q sqrt z q t pos g).x +
      q.y * (pair_grad_q sqrt z q t pos g).y + q.z * (pair_grad_q sqrt z q t pos g).z = 0 := by
  have h := grad_rotation_matrix_to_quaternion_orthogonal
    (outer (clipped_grad z (local_coords sqrt q t pos) g)
      ⟨pos.x - t.x, pos.y - t.y, pos.z - t.z⟩) (conjugate q)
  simp only [pair_grad_q, conjugate] at h ⊢
  linear_combination h

/-- Cells that the pair with flat index `index` contributes to slot `s`: nothing unless the
pair's slot is active and is `s`. -/
theorem pair_contribution_slot [FloorRing F] (sqrt : F → F) (n_cube n_point : Nat)
    (in_z in_q in_t : Nat → F) (in_mask : Nat → Int) (in_pos : Nat → F)
    (gpcd : Nat → F) (index s : Nat) :
    (∀ k, k < 3 →
      (pair_contribution sqrt n_cube n_point in_z in_q in_t in_mask in_pos gpcd index).grad_z
          (s * 3 + k) =
        if in_mask (slot_of n_cube n_point in_pos (index / n_cube) (index % n_cube)) = 1 ∧
            slot_of n_cube n_point in_pos (index / n_cube) (index % n_cube) = s then
          axis_grad_z
            (vec3_get (local_coords sqrt (quat_at in_q s) (vec3_at in_t s)
              (point_at n_point in_pos (index / n_cube))) k)
            (vec3_get (vec3_at in_z s) k) (gpcd index)
        else 0) ∧
    (∀ j, j < 4 →
      (pair_contribution sqrt n_cube n_point in_z in_q in_t in_mask in_pos gpcd index).grad_q
          (s * 4 + j) =
        if in_mask (slot_of n_cube n_point in_pos (index / n_cube) (index % n_cube)) = 1 ∧
            slot_of n_cube n_point in_pos (index / n_cube) (index % n_cube) = s then
          quat_get (pair_grad_q sqrt (vec3_at in_z s) (quat_at in_q s) (vec3_at in_t s)
            (point_at n_point in_pos (index / n_cube)) (gpcd index)) j
        else 0) ∧
    (∀ k, k < 3 →
      (pair_contribution sqrt n_cube n_point in_z in_q in_t in_mask in_pos gpcd index).grad_t
          (s * 3 + k) =
        if in_mask (slot_of n_cube n_point in_pos (index / n_cube) (index % n_cube)) = 1 ∧
            slot_of n_cube n_point in_pos (index / n_cube) (index % n_cube) = s then
          -vec3_get (pair_grad_t sqrt (vec3_at in_z s) (quat_at in_q s) (vec3_at in_t s)
            (point_at n_point in_pos (index / n_cube)) (gpcd index)) k
        else 0) := by
  unfold pair_contribution
  rw [fill_grad_wrt_zqt_thread_eq sqrt n_cube n_point in_z in_q in_t in_mask in_pos gpcd index
    zero_grad _ _ _ _ _ rfl rfl rfl rfl rfl, Nat.div_add_mod']
  generalize slot_of n_cube n_point in_pos (index / n_cube) (index % n_cube) = s'
  by_cases hm : in_mask s' = 1
  · by_cases hs : s' = s
    · subst hs
      simp only [hm, if_true, and_self]
      refine ⟨fun k hk => ?_, fun j hj => ?_, fun k hk => ?_⟩
      · have h := axis_add_vec3 (zero_grad : GradBufs F).grad_z s'
          (local_coords sqrt (quat_at in_q s') (vec3_at in_t s')
            (point_at n_point in_pos (index / n_cube))) (vec3_at in_z s') (gpcd index) k hk
        simp only [vec3_at] at h ⊢
        rw [h]
        simp [zero_grad]
      · rw [CudaAtomicAdd_quat _ _ _ j hj]
        simp [zero_grad]
      · have h := CudaAtomicAdd_vec3 (zero_grad : GradBufs F).grad_t s'
          ⟨-(pair_grad_t sqrt (vec3_at in_z s') (quat_at in_q s') (vec3_at in_t s')
              (point_at n_point in_pos (index / n_cube)) (gpcd index)).x,
            -(pair_grad_t sqrt (vec3_at in_z s') (quat_at in_q s') (vec3_at in_t s')
              (point_at n_point in_pos (index / n_cube)) (gpcd index)).y,
            -(pair_grad_t sqrt (vec3_at in_z s') (quat_at in_q s') (vec3_at in_t s')
              (point_at n_point in_pos (index / n_cube)) (gpcd index)).z⟩ k hk
        rw [h]
        interval_cases k <;> simp [vec3_get, zero_grad]
    · simp only [hm, if_true, hs, and_false, if_false]
      refine ⟨fun k hk => ?_, fun j hj => ?_, fun k hk => ?_⟩
      · have h0 : ¬ (s * 3 + k = s' * 3) := by omega
        have h1 : ¬ (s * 3 + k = s' * 3 + 1) := by omega
        have h2 : ¬ (s * 3 + k = s' * 3 + 2) := by omega
        simp [axis_add_apply, h0, h1, h2, zero_grad]
      · have h0 : ¬ (s * 4 + j = s' * 4) := by omega
        have h1 : ¬ (s * 4 + j = s' * 4 + 1) := by omega
        have h2 : ¬ (s * 4 + j = s' * 4 + 2) := by omega
        have h3 : ¬ (s * 4 + j = s' * 4 + 3) := by omega
        simp [CudaAtomicAdd_apply, h0, h1, h2, h3, zero_grad]
      · have h0 : ¬ (s * 3 + k = s' * 3) := by omega
        have h1 : ¬ (s * 3 + k = s' * 3 + 1) := by omega
        have h2 : ¬ (s * 3 + k = s' * 3 + 2) := by omega
        simp [CudaAtomicAdd_apply, h0, h1, h2, zero_grad]
  · simp only [hm, if_false, false_and, zero_grad]
    exact ⟨fun _ _ => trivial, fun _ _ => trivial, fun _ _ => trivial⟩

/-- After `gpu_set_zero`, every zeroed cell of the output of
`compute_coverage_select_loss_grad` is the sum of the contributions of all pairs. -/
theorem compute_coverage_select_loss_grad_eq_sum [FloorRing F] (sqrt : F → F)
    (n_cube n_point batch_size : Nat) (loss : F)
    (in_z in_q in_t : Nat → F) (in_mask : Nat → Int) (in_pos : Nat → F)
    (pcd0 : Nat → F) (idx0 : Nat → Nat) (gpcd0 : Nat → F) (G0 : GradBufs F) (i : Nat) :
    (i < batch_size * n_cube * 3 →
      (compute_coverage_select_loss_grad sqrt n_cube n_point batch_size loss in_z in_q in_t
          in_mask in_pos pcd0 idx0 gpcd0 G0).grad_z i =
        ∑ index in Finset.range (n_point * n_cube),
          (pair_contribution sqrt n_cube n_point in_z in_q in_t in_mask in_pos
            (routed_gradient sqrt n_cube n_point loss in_z in_q in_t in_mask in_pos pcd0 idx0
              gpcd0) index).grad_z i) ∧
    (i < batch_size * n_cube * 4 →
      (compute_coverage_select_loss_grad sqrt n_cube n_point batch_size loss in_z in_q in_t
          in_mask in_pos pcd0 idx0 gpcd0 G0).grad_q i =
        ∑ index in Finset.range (n_point * n_cube),
          (pair_contribution sqrt n_cube n_point in_z in_q in_t in_mask in_pos
            (routed_gradient sqrt n_cube n_point loss in_z in_q in_t in_mask in_pos pcd0 idx0
              gpcd0) index).grad_q i) ∧
    (i < batch_size * n_cube * 3 →
      (compute_coverage_select_loss_grad sqrt n_cube n_point batch_size loss in_z in_q in_t
          in_mask in_pos pcd0 idx0 gpcd0 G0).grad_t i =
        ∑ index in Finset.range (n_point * n_cube),
          (pair_contribution sqrt n_cube n_point in_z in_q in_t in_mask in_pos
            (routed_gradient sqrt n_cube n_point loss in_z in_q in_t in_mask in_pos pcd0 idx0
              gpcd0) index).grad_t i) := by
  have key := kernel_loop_additive (n_point * n_cube)
    (fill_grad_wrt_zqt_thread sqrt n_cube n_point in_z in_q in_t in_mask in_pos
      (routed_gradient sqrt n_cube n_point loss in_z in_q in_t in_mask in_pos pcd0 idx0 gpcd0))
    (fun index G i => fill_grad_wrt_zqt_thread_additive sqrt n_cube n_point in_z in_q in_t
      in_mask in_pos _ index G i)
    ⟨gpu_set_zero G0.grad_z (batch_size * n_cube * 3),
      gpu_set_zero G0.grad_q (batch_size * n_cube * 4),
      gpu_set_zero G0.grad_t (batch_size * n_cube * 3)⟩ i
  refine ⟨fun hi => ?_, fun hi => ?_, fun hi => ?_⟩
  · have h := key.1
    simp only [gpu_set_zero_apply, if_pos hi, zero_add] at h
    exact h
  · have h := key.2.1
    simp only [gpu_set_zero_apply, if_pos hi, zero_add] at h
    exact h
  · have h := key.2.2
    simp only [gpu_set_zero_apply, if_pos hi, zero_add] at h
    exact h

end Frame

/-! ## The synthetic gradient check -/

section Synthetic

variable {F : Type} [LinearOrderedField F]

/-- The synthetic case of the gradient check: one batch element, one slot, one point `(2,0,0)`,
an active cuboid with scale `(1,1,1)`, orientation `(1,0,0,0)` and translation `(0,0,0)`,
upstream gradient `1`.  The loss is `1`, the scale gradient `(-2,0,0)` and the translation
gradient `(-2,0,0)`. -/
theorem synthetic_case [FloorRing F] (sqrt : F → F) (hs1 : sqrt 1 = 1)
    (in_z in_q in_t : Nat → F) (in_mask : Nat → Int) (in_pos : Nat → F)
    (pcd0 : Nat → F) (idx0 : Nat → Nat) (loss0 : F) (gpcd0 : Nat → F) (G0 : GradBufs F)
    (hpos : point_at 1 in_pos 0 = ⟨2, 0, 0⟩) (hbatch : in_pos 3 = 0) (hmask : in_mask 0 = 1)
    (hz : vec3_at in_z 0 = ⟨1, 1, 1⟩) (hq : quat_at in_q 0 = ⟨1, 0, 0, 0⟩)
    (ht : vec3_at in_t 0 = ⟨0, 0, 0⟩) :
    compute_coverage_select_loss sqrt 1 1 in_z in_q in_t in_mask in_pos pcd0 idx0 loss0 = 1 ∧
      vec3_at (compute_coverage_select_loss_grad sqrt 1 1 1 1 in_z in_q in_t in_mask in_pos
        pcd0 idx0 gpcd0 G0).grad_z 0 = ⟨-2, 0, 0⟩ ∧
      vec3_at (compute_coverage_select_loss_grad sqrt 1 1 1 1 in_z in_q in_t in_mask in_pos
        pcd0 idx0 gpcd0 G0).grad_t 0 = ⟨-2, 0, 0⟩ := by
  simp only [point_at, vec3_at, quat_at, Vec3.mk.injEq, Quat.mk.injEq, Nat.zero_mul,
    Nat.zero_add, Nat.one_mul, Nat.mul_one, Nat.add_zero] at hpos hz hq ht
  obtain ⟨hp0, hp1, hp2⟩ := hpos
  obtain ⟨hz0, hz1, hz2⟩ := hz
  obtain ⟨hq0, hq1, hq2, hq3⟩ := hq
  obtain ⟨ht0, ht1, ht2⟩ := ht
  refine ⟨?_, ?_, ?_⟩
  · simp [compute_coverage_select_loss, get_coverage_loss, get_coverage_loss_thread,
      fill_point_cube_distance, get_min_distance_cube_index, kernel_loop_one,
      fill_point_cube_distance_thread, get_min_distance_cube_index_thread,
      get_min_distance_cube_index_scan, gpu_set_zero_apply, static_cast_int_zero,
      hp0, hp1, hp2, hz0, hz1, hz2, hq0, hq1, hq2, hq3, ht0, ht1, ht2, hbatch, hmask, hs1,
      conjugate, as_rotation_matrix, normalize, matvec_kernel, diag, tr_add, tr_sub, MAX]
    norm_num
    rw [Function.update_same, Nat.zero_add, Function.update_same]
  · simp [compute_coverage_select_loss_grad, fill_grad_wrt_zqt, fill_grad_wrt_zqt_thread,
      fill_grad_point_cube_distance, fill_grad_point_cube_distance_thread,
      fill_point_cube_distance, get_min_distance_cube_index, kernel_loop_one,
      fill_point_cube_distance_thread, get_min_distance_cube_index_thread,
      get_min_distance_cube_index_scan, gpu_set_zero_apply, static_cast_int_zero,
      hp0, hp1, hp2, hz0, hz1, hz2, hq0, hq1, hq2, hq3, ht0, ht1, ht2, hbatch, hmask, hs1,
      conjugate, as_rotation_matrix, normalize, matvec_kernel, diag, tr_add, tr_sub, MAX,
      CudaAtomicAdd, vec3_at, SIGN]
    norm_num
    simp [gpu_set_zero_apply]
  · simp [compute_coverage_select_loss_grad, fill_grad_wrt_zqt, fill_grad_wrt_zqt_thread,
      fill_grad_point_cube_distance, fill_grad_point_cube_distance_thread,
      fill_point_cube_distance, get_min_distance_cube_index, kernel_loop_one,
      fill_point_cube_distance_thread, get_min_distance_cube_index_thread,
      get_min_distance_cube_index_scan, gpu_set_zero_apply, static_cast_int_zero,
      hp0, hp1, hp2, hz0, hz1, hz2, hq0, hq1, hq2, hq3, ht0, ht1, ht2, hbatch, hmask, hs1,
      conjugate, as_rotation_matrix, normalize, matvec_kernel, t_matvec_kernel, diag, tr_add,
      tr_sub, MAX, CudaAtomicAdd, vec3_at, SIGN]
    norm_num

end Synthetic

/-! ## The claims -/

section Claims

variable {F : Type} [LinearOrderedField F]

/-- C6: for a row of length `n_cube ≥ 1` the index `i` stored by `get_min_distance_cube_index`
for a point is the lowest index of a minimum of the row: `i < n_cube`, `D[i] ≤ D[j]` for every
`j < n_cube`, and `D[i] < D[j]` for every `j < i`. -/
theorem C6_get_min_distance_cube_index_lowest_minimum (nthreads n_cube : Nat) (D : Nat → F)
    (idx0 : Nat → Nat) (index : Nat) (hn : 1 ≤ n_cube) (hi : index < nthreads) :
    get_min_distance_cube_index nthreads n_cube D idx0 index < n_cube ∧
      (∀ j, j < n_cube →
        D (index * n_cube + get_min_distance_cube_index nthreads n_cube D idx0 index) ≤
          D (index * n_cube + j)) ∧
      (∀ j, j < get_min_distance_cube_index nthreads n_cube D idx0 index →
        D (index * n_cube + get_min_distance_cube_index nthreads n_cube D idx0 index) <
          D (index * n_cube + j)) := by
  rw [get_min_distance_cube_index_apply nthreads n_cube D idx0 index hi]
  exact scan_spec n_cube (fun i => D (index * n_cube + i)) hn

/-- C1: for `n_cube ≥ 1` the loss written by `compute_coverage_select_loss` is the arithmetic
mean over all points of the minimum of the point's row of the distance matrix produced by
`fill_point_cube_distance`; the initial contents of the scratch tensors and of the loss cell do
not matter. -/
theorem C1_loss_is_mean_of_row_minima [FloorRing F] (sqrt : F → F) (n_cube n_point : Nat)
    (in_z in_q in_t : Nat → F) (in_mask : Nat → Int) (in_pos : Nat → F)
    (pcd0 : Nat → F) (idx0 : Nat → Nat) (loss0 : F) (hc : 1 ≤ n_cube) :
    compute_coverage_select_loss sqrt n_cube n_point in_z in_q in_t in_mask in_pos pcd0 idx0
        loss0 =
      (1 / (n_point : F)) * ∑ p in Finset.range n_point,
        (Finset.range n_cube).inf' (Finset.nonempty_range_iff.mpr (Nat.pos_iff_ne_zero.mp hc))
          (fun c => fill_point_cube_distance sqrt (n_point * n_cube) n_cube n_point in_z in_q
            in_t in_mask in_pos pcd0 (p * n_cube + c)) := by
  unfold compute_coverage_select_loss
  simp only [get_coverage_loss]
  rw [kernel_loop_sum n_point
    (fun p => fill_point_cube_distance sqrt (n_point * n_cube) n_cube n_point in_z in_q in_t
      in_mask in_pos pcd0 (p * n_cube + get_min_distance_cube_index n_point n_cube
        (fill_point_cube_distance sqrt (n_point * n_cube) n_cube n_point in_z in_q in_t
          in_mask in_pos pcd0) idx0 p) / (n_point : F))
    (get_coverage_loss_thread n_cube n_point _ _) (fun _ _ => rfl)]
  have h0 : gpu_set_zero (fun _ => loss0) 1 0 = 0 := by simp [gpu_set_zero]
  rw [h0, zero_add, Finset.mul_sum]
  apply Finset.sum_congr rfl
  intro p hp
  have hp' : p < n_point := Finset.mem_range.mp hp
  rw [get_min_distance_cube_index_apply n_point n_cube _ idx0 p hp']
  obtain ⟨h1, h2, _⟩ := scan_spec n_cube
    (fun i => fill_point_cube_distance sqrt (n_point * n_cube) n_cube n_point in_z in_q
      in_t in_mask in_pos pcd0 (p * n_cube + i)) hc
  rw [div_eq_mul_inv, one_div, mul_comm]
  congr 1
  apply le_antisymm
  · apply Finset.le_inf'
    intro j hj
    exact h2 j (Finset.mem_range.mp hj)
  · exact Finset.inf'_le _ (Finset.mem_range.mpr h1)

/-- C1 at a concrete input over the reals: two points `(3,0,0)` and `(1,0,0)`, two active unit
boxes centred at `(0,0,0)` and `(4,0,0)`; the rows of the distance matrix are `(4, 0)` and
`(0, 4)`. -/
theorem C1_loss_is_mean_of_row_minima_witness :
    (1 : Nat) ≤ 2 ∧
    compute_coverage_select_loss Real.sqrt 2 2 (fun _ => 1)
        (fun i => if i % 4 = 0 then 1 else 0) (fun i => if i = 3 then 4 else 0)
        (fun _ => 1) (fun i => if i = 0 then 3 else if i = 1 then 1 else 0)
        (fun _ => 7) (fun _ => 5) 3 =
      (1 / ((2 : Nat) : ℝ)) * ∑ p in Finset.range 2,
        (Finset.range 2).inf' (Finset.nonempty_range_iff.mpr (Nat.pos_iff_ne_zero.mp (by decide)))
          (fun c => fill_point_cube_distance Real.sqrt (2 * 2) 2 2 (fun _ => 1)
            (fun i => if i % 4 = 0 then 1 else 0) (fun i => if i = 3 then 4 else 0)
            (fun _ => 1) (fun i => if i = 0 then 3 else if i = 1 then 1 else 0)
            (fun _ => 7) (p * 2 + c)) :=
  ⟨by decide, C1_loss_is_mean_of_row_minima Real.sqrt 2 2 _ _ _ _ _ _ _ _ (by decide)⟩

/-- C7: for an active cuboid slot with a non-zero orientation, a point whose local-frame
coordinates are strictly inside the box on all three axes gets distance exactly `0` in the
matrix written by `fill_point_cube_distance`. -/
theorem C7_strictly_inside_distance_zero [FloorRing F] (sqrt : F → F) (n_cube n_point : Nat)
    (in_z in_q in_t : Nat → F) (in_mask : Nat → Int) (in_pos : Nat → F) (pcd0 : Nat → F)
    (p c : Nat) (hp : p < n_point) (hc : c < n_cube)
    (hmask : in_mask (slot_of n_cube n_point in_pos p c) = 1)
    (_hq : quat_at in_q (slot_of n_cube n_point in_pos p c) ≠ ⟨0, 0, 0, 0⟩)
    (hx : |(local_coords sqrt (quat_at in_q (slot_of n_cube n_point in_pos p c))
        (vec3_at in_t (slot_of n_cube n_point in_pos p c)) (point_at n_point in_pos p)).x| <
      in_z (slot_of n_cube n_point in_pos p c * 3 + 0))
    (hy : |(local_coords sqrt (quat_at in_q (slot_of n_cube n_point in_pos p c))
        (vec3_at in_t (slot_of n_cube n_point in_pos p c)) (point_at n_point in_pos p)).y| <
      in_z (slot_of n_cube n_point in_pos p c * 3 + 1))
    (hz : |(local_coords sqrt (quat_at in_q (slot_of n_cube n_point in_pos p c))
        (vec3_at in_t (slot_of n_cube n_point in_pos p c)) (point_at n_point in_pos p)).z| <
      in_z (slot_of n_cube n_point in_pos p c * 3 + 2)) :
    fill_point_cube_distance sqrt (n_point * n_cube) n_cube n_point in_z in_q in_t in_mask in_pos
        pcd0 (p * n_cube + c) = 0 := by
  rw [fill_point_cube_distance_apply sqrt n_cube n_point in_z in_q in_t in_mask in_pos pcd0 p c
    hp hc, if_pos hmask]
  have ex : MAX (|(local_coords sqrt (quat_at in_q (slot_of n_cube n_point in_pos p c))
        (vec3_at in_t (slot_of n_cube n_point in_pos p c)) (point_at n_point in_pos p)).x| -
      (vec3_at in_z (slot_of n_cube n_point in_pos p c)).x) 0 = 0 :=
    max_eq_right (by show _ - in_z _ ≤ 0; linarith)
  have ey : MAX (|(local_coords sqrt (quat_at in_q (slot_of n_cube n_point in_pos p c))
        (vec3_at in_t (slot_of n_cube n_point in_pos p c)) (point_at n_point in_pos p)).y| -
      (vec3_at in_z (slot_of n_cube n_point in_pos p c)).y) 0 = 0 :=
    max_eq_right (by show _ - in_z _ ≤ 0; linarith)
  have ez : MAX (|(local_coords sqrt (quat_at in_q (slot_of n_cube n_point in_pos p c))
        (vec3_at in_t (slot_of n_cube n_point in_pos p c)) (point_at n_point in_pos p)).z| -
      (vec3_at in_z (slot_of n_cube n_point in_pos p c)).z) 0 = 0 :=
    max_eq_right (by show _ - in_z _ ≤ 0; linarith)
  simp only [box_distance]
  rw [ex, ey, ez]
  ring

/-- C6 at a concrete row `(3, 1, 1, 2)` of rationals. -/
theorem C6_get_min_distance_cube_index_lowest_minimum_witness :
    (1 : Nat) ≤ 4 ∧ (0 : Nat) < 1 ∧
    (get_min_distance_cube_index 1 4
        (fun i => if i = 0 then (3 : ℚ) else if i = 3 then 2 else 1) (fun _ => 0) 0 < 4 ∧
      (∀ j, j < 4 →
        (fun i => if i = 0 then (3 : ℚ) else if i = 3 then 2 else 1)
            (0 * 4 + get_min_distance_cube_index 1 4
              (fun i => if i = 0 then (3 : ℚ) else if i = 3 then 2 else 1) (fun _ => 0) 0) ≤
          (fun i => if i = 0 then (3 : ℚ) else if i = 3 then 2 else 1) (0 * 4 + j)) ∧
      (∀ j, j < get_min_distance_cube_index 1 4
          (fun i => if i = 0 then (3 : ℚ) else if i = 3 then 2 else 1) (fun _ => 0) 0 →
        (fun i => if i = 0 then (3 : ℚ) else if i = 3 then 2 else 1)
            (0 * 4 + get_min_distance_cube_index 1 4
              (fun i => if i = 0 then (3 : ℚ) else if i = 3 then 2 else 1) (fun _ => 0) 0) <
          (fun i => if i = 0 then (3 : ℚ) else if i = 3 then 2 else 1) (0 * 4 + j))) :=
  ⟨by decide, by decide,
    C6_get_min_distance_cube_index_lowest_minimum 1 4 _ _ 0 (by decide) (by decide)⟩

/-- C7 at a concrete input over the reals: the point `(1/2, 0, 0)` and the unit box with identity
orientation centred at the origin. -/
theorem C7_strictly_inside_distance_zero_witness :
    fill_point_cube_distance Real.sqrt (1 * 1) 1 1 (fun _ => 1) identity_q (fun _ => 0)
      (fun _ => 1) (point_on_x_axis (1 / 2)) (fun _ => 7) (0 * 1 + 0) = 0 :=
  C7_strictly_inside_distance_zero Real.sqrt 1 1 (fun _ => 1) identity_q (fun _ => 0)
    (fun _ => 1) (point_on_x_axis (1 / 2)) (fun _ => 7) 0 0 (by decide) (by decide) rfl
    (by simp [quat_at, identity_q])
    (by
      simp [local_coords, quat_at, vec3_at, point_at, slot_of, batch_of, point_on_x_axis,
        static_cast_int_zero, identity_q, conjugate, as_rotation_matrix, normalize,
        matvec_kernel, diag, tr_add, tr_sub]
      norm_num [abs_lt])
    (by
      simp [local_coords, quat_at, vec3_at, point_at, slot_of, batch_of, point_on_x_axis,
        static_cast_int_zero, identity_q, conjugate, as_rotation_matrix, normalize,
        matvec_kernel, diag, tr_add, tr_sub])
    (by
      simp [local_coords, quat_at, vec3_at, point_at, slot_of, batch_of, point_on_x_axis,
        static_cast_int_zero, identity_q, conjugate, as_rotation_matrix, normalize,
        matvec_kernel, diag, tr_add, tr_sub])

/-- C5, as amended: if some active slot of the point's batch element has a distance strictly
below the `FLT_MAX` sentinel, then the index stored by `get_min_distance_cube_index` on the row
produced by `fill_point_cube_distance` is an active slot. -/
theorem C5_selected_slot_active [FloorRing F] (sqrt : F → F) (n_cube n_point : Nat)
    (in_z in_q in_t : Nat → F) (in_mask : Nat → Int) (in_pos : Nat → F)
    (pcd0 : Nat → F) (idx0 : Nat → Nat) (p c : Nat) (hp : p < n_point) (hc : c < n_cube)
    (_hact : in_mask (slot_of n_cube n_point in_pos p c) = 1)
    (hlt : fill_point_cube_distance sqrt (n_point * n_cube) n_cube n_point in_z in_q in_t
      in_mask in_pos pcd0 (p * n_cube + c) < FLT_MAX) :
    in_mask (slot_of n_cube n_point in_pos p
      (get_min_distance_cube_index n_point n_cube
        (fill_point_cube_distance sqrt (n_point * n_cube) n_cube n_point in_z in_q in_t
          in_mask in_pos pcd0) idx0 p)) = 1 := by
  rw [get_min_distance_cube_index_apply n_point n_cube _ idx0 p hp]
  obtain ⟨h1, h2, _⟩ := scan_spec n_cube
    (fun i => fill_point_cube_distance sqrt (n_point * n_cube) n_cube n_point in_z in_q
      in_t in_mask in_pos pcd0 (p * n_cube + i)) (by omega)
  have hle := h2 c hc
  simp only at hle
  by_contra hne
  rw [fill_point_cube_distance_apply sqrt n_cube n_point in_z in_q in_t in_mask in_pos pcd0 p _
    hp h1, if_neg hne] at hle
  exact absurd hlt (not_lt.mpr hle)

/-- C5 as amended, at a concrete input over the reals: slot `0` inactive, slot `1` an active
unit box at the origin, the point `(2,0,0)`; slot `1` has distance `1` and is selected. -/
theorem C5_selected_slot_active_witness :
    second_slot_mask (slot_of 2 1 (point_on_x_axis (2 : ℝ)) 0
      (get_min_distance_cube_index 1 2
        (fill_point_cube_distance Real.sqrt (1 * 2) 2 1 (fun _ => 1) identity_q (fun _ => 0)
          second_slot_mask (point_on_x_axis 2) (fun _ => 7)) (fun _ => 5) 0)) = 1 :=
  C5_selected_slot_active Real.sqrt 2 1 (fun _ => 1) identity_q (fun _ => 0) second_slot_mask
    (point_on_x_axis 2) (fun _ => 7) (fun _ => 5) 0 1 (by decide) (by decide)
    (by simp [slot_of, batch_of, point_on_x_axis, static_cast_int_zero, second_slot_mask])
    (by
      rw [fill_point_cube_distance_apply Real.sqrt 2 1 _ _ _ _ _ _ 0 1 (by decide) (by decide)]
      simp [slot_of, batch_of, point_on_x_axis, static_cast_int_zero, second_slot_mask,
        box_distance, local_coords, quat_at, vec3_at, point_at, identity_q, conjugate,
        as_rotation_matrix, normalize, matvec_kernel, diag, tr_add, tr_sub, MAX, FLT_MAX]
      norm_num)

/-- C5 fails as stated: one point `(2^64, 0, 0)`, two slots with zero scale, identity
orientation and zero translation, slot `0` inactive and slot `1` active.  The active distance
`2^128` is not below `FLT_MAX`, so the strict scan keeps index `0`, an inactive slot, although
an active slot exists. -/
theorem C5_counterexample :
    (1 : Nat) ≤ 2 ∧
    (∃ c, c < 2 ∧ second_slot_mask (slot_of 2 1 (point_on_x_axis ((2 : ℝ) ^ 64)) 0 c) = 1) ∧
    get_min_distance_cube_index 1 2
        (fill_point_cube_distance Real.sqrt (1 * 2) 2 1 (fun _ => 0) identity_q (fun _ => 0)
          second_slot_mask (point_on_x_axis ((2 : ℝ) ^ 64)) (fun _ => 0)) (fun _ => 0) 0 = 0 ∧
    second_slot_mask (slot_of 2 1 (point_on_x_axis ((2 : ℝ) ^ 64)) 0
      (get_min_distance_cube_index 1 2
        (fill_point_cube_distance Real.sqrt (1 * 2) 2 1 (fun _ => 0) identity_q (fun _ => 0)
          second_slot_mask (point_on_x_axis ((2 : ℝ) ^ 64)) (fun _ => 0)) (fun _ => 0) 0)) ≠
      1 := by
  have hs : ∀ c, slot_of 2 1 (point_on_x_axis ((2 : ℝ) ^ 64)) 0 c = c := by
    intro c
    simp [slot_of, batch_of, point_on_x_axis, static_cast_int_zero]
  have h0 : fill_point_cube_distance Real.sqrt (1 * 2) 2 1 (fun _ => 0) identity_q (fun _ => 0)
      second_slot_mask (point_on_x_axis ((2 : ℝ) ^ 64)) (fun _ => 0) (0 * 2 + 0) = FLT_MAX := by
    rw [fill_point_cube_distance_apply Real.sqrt 2 1 _ _ _ _ _ _ 0 0 (by decide) (by decide)]
    simp [hs, second_slot_mask]
  have h1 : fill_point_cube_distance Real.sqrt (1 * 2) 2 1 (fun _ => 0) identity_q (fun _ => 0)
      second_slot_mask (point_on_x_axis ((2 : ℝ) ^ 64)) (fun _ => 0) (0 * 2 + 1) = 2 ^ 128 := by
    rw [fill_point_cube_distance_apply Real.sqrt 2 1 _ _ _ _ _ _ 0 1 (by decide) (by decide)]
    simp [hs, second_slot_mask, box_distance, local_coords, quat_at, vec3_at, point_at,
      point_on_x_axis, identity_q, conjugate, as_rotation_matrix, normalize, matvec_kernel,
      diag, tr_add, tr_sub, MAX]
    norm_num
  have hsel : get_min_distance_cube_index 1 2
      (fill_point_cube_distance Real.sqrt (1 * 2) 2 1 (fun _ => 0) identity_q (fun _ => 0)
        second_slot_mask (point_on_x_axis ((2 : ℝ) ^ 64)) (fun _ => 0)) (fun _ => 0) 0 = 0 := by
    rw [get_min_distance_cube_index_apply 1 2 _ _ 0 (by decide)]
    simp only [get_min_distance_cube_index_scan, List.range', List.foldl]
    rw [h0, h1]
    norm_num [FLT_MAX]
  refine ⟨by decide, ⟨1, by decide, ?_⟩, hsel, ?_⟩
  · rw [hs]; simp [second_slot_mask]
  · rw [hsel, hs]; simp [second_slot_mask]

/-- C8: for an active slot with non-zero orientation `q` and a constant `k > 0`, replacing the
slot's orientation by `k * q` changes neither the rotation matrix nor the distance that
`fill_point_cube_distance` writes for a point and that slot. -/
theorem C8_orientation_scale_invariance [FloorRing F] (sqrt : F → F) (hs : IsSqrt sqrt)
    (n_cube n_point : Nat) (in_z in_q in_q' in_t : Nat → F) (in_mask : Nat → Int)
    (in_pos : Nat → F) (pcd0 pcd0' : Nat → F) (k : F) (hk : 0 < k) (p c : Nat)
    (hp : p < n_point) (hc : c < n_cube)
    (_hmask : in_mask (slot_of n_cube n_point in_pos p c) = 1)
    (_hq : quat_at in_q (slot_of n_cube n_point in_pos p c) ≠ ⟨0, 0, 0, 0⟩)
    (hq' : quat_at in_q' (slot_of n_cube n_point in_pos p c) =
      quat_smul k (quat_at in_q (slot_of n_cube n_point in_pos p c))) :
    as_rotation_matrix sqrt (quat_smul k (quat_at in_q (slot_of n_cube n_point in_pos p c))) =
        as_rotation_matrix sqrt (quat_at in_q (slot_of n_cube n_point in_pos p c)) ∧
      fill_point_cube_distance sqrt (n_point * n_cube) n_cube n_point in_z in_q' in_t in_mask
          in_pos pcd0' (p * n_cube + c) =
        fill_point_cube_distance sqrt (n_point * n_cube) n_cube n_point in_z in_q in_t in_mask
          in_pos pcd0 (p * n_cube + c) := by
  refine ⟨as_rotation_matrix_quat_smul hs k (ne_of_gt hk) _, ?_⟩
  rw [fill_point_cube_distance_apply sqrt n_cube n_point in_z in_q' in_t in_mask in_pos pcd0' p c
    hp hc, fill_point_cube_distance_apply sqrt n_cube n_point in_z in_q in_t in_mask in_pos pcd0
    p c hp hc, hq']
  have hconj : ∀ q : Quat F, conjugate (quat_smul k q) = quat_smul k (conjugate q) := by
    intro q
    simp only [conjugate, quat_smul, Quat.mk.injEq]
    refine ⟨trivial, by ring, by ring, by ring⟩
  simp only [local_coords, hconj, as_rotation_matrix_quat_smul hs k (ne_of_gt hk)]

/-- C8 at a concrete input over the reals: the point `(2,0,0)`, a unit box at the origin, the
orientations `(1,0,0,0)` and `3 * (1,0,0,0)`. -/
theorem C8_orientation_scale_invariance_witness :
    as_rotation_matrix Real.sqrt (quat_smul 3 (quat_at identity_q
        (slot_of 1 1 (point_on_x_axis (2 : ℝ)) 0 0))) =
        as_rotation_matrix Real.sqrt (quat_at identity_q
          (slot_of 1 1 (point_on_x_axis (2 : ℝ)) 0 0)) ∧
      fill_point_cube_distance Real.sqrt (1 * 1) 1 1 (fun _ => 1) (fun i => 3 * identity_q i)
          (fun _ => 0) (fun _ => 1) (point_on_x_axis 2) (fun _ => 7) (0 * 1 + 0) =
        fill_point_cube_distance Real.sqrt (1 * 1) 1 1 (fun _ => 1) identity_q
          (fun _ => 0) (fun _ => 1) (point_on_x_axis 2) (fun _ => 5) (0 * 1 + 0) :=
  C8_orientation_scale_invariance Real.sqrt isSqrt_real 1 1 (fun _ => 1) identity_q
    (fun i => 3 * identity_q i) (fun _ => 0) (fun _ => 1) (point_on_x_axis 2) (fun _ => 5)
    (fun _ => 7) 3 (by norm_num) 0 0 (by decide) (by decide) rfl
    (by simp [quat_at, identity_q]) (by simp [quat_at, quat_smul])

/-- C9: for non-zero quaternions `r` and `q`, with `R = as_rotation_matrix(r)`, the distance that
`fill_point_cube_distance` writes for the point `R * p` and an active slot with scale `s`,
orientation `r * q` (Hamilton product) and translation `R * t` equals the distance it writes for
the point `p` and the slot with scale `s`, orientation `q` and translation `t`. -/
theorem C9_rotation_invariance [FloorRing F] (sqrt : F → F) (hs : IsSqrt sqrt)
    (n_cube n_point : Nat) (in_z in_q in_q' in_t in_t' : Nat → F) (in_mask : Nat → Int)
    (in_pos in_pos' : Nat → F) (pcd0 pcd0' : Nat → F) (r : Quat F) (p c : Nat)
    (hp : p < n_point) (hc : c < n_cube) (hr : r ≠ ⟨0, 0, 0, 0⟩)
    (_hmask : in_mask (slot_of n_cube n_point in_pos p c) = 1)
    (hq : quat_at in_q (slot_of n_cube n_point in_pos p c) ≠ ⟨0, 0, 0, 0⟩)
    (hbatch : in_pos' (3 * n_point + p) = in_pos (3 * n_point + p))
    (hpos : point_at n_point in_pos' p =
      matvec_kernel (as_rotation_matrix sqrt r) (point_at n_point in_pos p))
    (hq' : quat_at in_q' (slot_of n_cube n_point in_pos p c) =
      hamilton r (quat_at in_q (slot_of n_cube n_point in_pos p c)))
    (ht' : vec3_at in_t' (slot_of n_cube n_point in_pos p c) =
      matvec_kernel (as_rotation_matrix sqrt r)
        (vec3_at in_t (slot_of n_cube n_point in_pos p c))) :
    fill_point_cube_distance sqrt (n_point * n_cube) n_cube n_point in_z in_q' in_t' in_mask
        in_pos' pcd0' (p * n_cube + c) =
      fill_point_cube_distance sqrt (n_point * n_cube) n_cube n_point in_z in_q in_t in_mask
        in_pos pcd0 (p * n_cube + c) := by
  have hslot : slot_of n_cube n_point in_pos' p c = slot_of n_cube n_point in_pos p c := by
    simp only [slot_of, batch_of, hbatch]
  rw [fill_point_cube_distance_apply sqrt n_cube n_point in_z in_q' in_t' in_mask in_pos' pcd0'
    p c hp hc, fill_point_cube_distance_apply sqrt n_cube n_point in_z in_q in_t in_mask in_pos
    pcd0 p c hp hc, hslot, hq', ht', hpos,
    local_coords_rotate hs r _ (normSq_ne_zero hr) (normSq_ne_zero hq)]

/-- C9 at a concrete input over the reals: the half-turn `r = (0,0,0,1)` about the z axis maps
the point `(2,0,0)` to `(-2,0,0)` and the identity orientation to `(0,0,0,1)`. -/
theorem C9_rotation_invariance_witness :
    fill_point_cube_distance Real.sqrt (1 * 1) 1 1 (fun _ => 1)
        (fun i => if i % 4 = 3 then 1 else 0) (fun _ => 0) (fun _ => 1) (point_on_x_axis (-2))
        (fun _ => 7) (0 * 1 + 0) =
      fill_point_cube_distance Real.sqrt (1 * 1) 1 1 (fun _ => 1) identity_q (fun _ => 0)
        (fun _ => 1) (point_on_x_axis 2) (fun _ => 5) (0 * 1 + 0) :=
  C9_rotation_invariance Real.sqrt isSqrt_real 1 1 (fun _ => 1) identity_q
    (fun i => if i % 4 = 3 then 1 else 0) (fun _ => 0) (fun _ => 0) (fun _ => 1)
    (point_on_x_axis 2) (point_on_x_axis (-2)) (fun _ => 5) (fun _ => 7) ⟨0, 0, 0, 1⟩ 0 0
    (by decide) (by decide) (by simp) rfl (by simp [quat_at, identity_q])
    (by simp [point_on_x_axis])
    (by
      simp [point_at, point_on_x_axis, matvec_kernel, as_rotation_matrix, normalize, diag,
        tr_add, tr_sub]
      norm_num)
    (by simp [quat_at, identity_q, hamilton, slot_of, batch_of, point_on_x_axis,
      static_cast_int_zero])
    (by simp [vec3_at, matvec_kernel])

/-- C3: in the synthetic case (one batch element, `n_cube = 1`, `n_point = 1`, the point
`(2,0,0)` with batch index `0`, an active cuboid with scale `(1,1,1)`, orientation `(1,0,0,0)`
and translation `(0,0,0)`) `compute_coverage_select_loss` yields the loss `1`, and
`compute_coverage_select_loss_grad` with upstream gradient `1` yields the scale gradient
`(-2, 0, 0)`. -/
theorem C3_synthetic_loss_and_grad_scale [FloorRing F] (sqrt : F → F) (hs1 : sqrt 1 = 1)
    (in_z in_q in_t : Nat → F) (in_mask : Nat → Int) (in_pos : Nat → F)
    (pcd0 : Nat → F) (idx0 : Nat → Nat) (loss0 : F) (gpcd0 : Nat → F) (G0 : GradBufs F)
    (hpos : point_at 1 in_pos 0 = ⟨2, 0, 0⟩) (hbatch : in_pos 3 = 0) (hmask : in_mask 0 = 1)
    (hz : vec3_at in_z 0 = ⟨1, 1, 1⟩) (hq : quat_at in_q 0 = ⟨1, 0, 0, 0⟩)
    (ht : vec3_at in_t 0 = ⟨0, 0, 0⟩) :
    compute_coverage_select_loss sqrt 1 1 in_z in_q in_t in_mask in_pos pcd0 idx0 loss0 = 1 ∧
      vec3_at (compute_coverage_select_loss_grad sqrt 1 1 1 1 in_z in_q in_t in_mask in_pos
        pcd0 idx0 gpcd0 G0).grad_z 0 = ⟨-2, 0, 0⟩ :=
  ⟨(synthetic_case sqrt hs1 in_z in_q in_t in_mask in_pos pcd0 idx0 loss0 gpcd0 G0 hpos hbatch
      hmask hz hq ht).1,
    (synthetic_case sqrt hs1 in_z in_q in_t in_mask in_pos pcd0 idx0 loss0 gpcd0 G0 hpos hbatch
      hmask hz hq ht).2.1⟩

/-- C3 over the reals with `Real.sqrt` and concrete buffers. -/
theorem C3_synthetic_loss_and_grad_scale_witness :
    compute_coverage_select_loss Real.sqrt 1 1 (fun _ => 1) identity_q (fun _ => 0) (fun _ => 1)
        (point_on_x_axis 2) (fun _ => 7) (fun _ => 5) 3 = 1 ∧
      vec3_at (compute_coverage_select_loss_grad Real.sqrt 1 1 1 1 (fun _ => 1) identity_q
        (fun _ => 0) (fun _ => 1) (point_on_x_axis 2) (fun _ => 7) (fun _ => 5) (fun _ => 4)
        ⟨fun _ => 1, fun _ => 2, fun _ => 3⟩).grad_z 0 = ⟨-2, 0, 0⟩ :=
  C3_synthetic_loss_and_grad_scale Real.sqrt Real.sqrt_one (fun _ => 1) identity_q (fun _ => 0)
    (fun _ => 1) (point_on_x_axis 2) (fun _ => 7) (fun _ => 5) 3 (fun _ => 4)
    ⟨fun _ => 1, fun _ => 2, fun _ => 3⟩
    (by simp [point_at, point_on_x_axis]) (by simp [point_on_x_axis]) rfl
    (by simp [vec3_at]) (by simp [quat_at, identity_q]) (by simp [vec3_at])

/-- C4, as amended: in the synthetic case `compute_coverage_select_loss_grad` with upstream
gradient `1` yields `grad_translation.x = -2`. -/
theorem C4_synthetic_grad_translation [FloorRing F] (sqrt : F → F) (hs1 : sqrt 1 = 1)
    (in_z in_q in_t : Nat → F) (in_mask : Nat → Int) (in_pos : Nat → F)
    (pcd0 : Nat → F) (idx0 : Nat → Nat) (gpcd0 : Nat → F) (G0 : GradBufs F)
    (hpos : point_at 1 in_pos 0 = ⟨2, 0, 0⟩) (hbatch : in_pos 3 = 0) (hmask : in_mask 0 = 1)
    (hz : vec3_at in_z 0 = ⟨1, 1, 1⟩) (hq : quat_at in_q 0 = ⟨1, 0, 0, 0⟩)
    (ht : vec3_at in_t 0 = ⟨0, 0, 0⟩) :
    (compute_coverage_select_loss_grad sqrt 1 1 1 1 in_z in_q in_t in_mask in_pos
      pcd0 idx0 gpcd0 G0).grad_t 0 = -2 := by
  have h := (synthetic_case sqrt hs1 in_z in_q in_t in_mask in_pos pcd0 idx0 0 gpcd0 G0 hpos
    hbatch hmask hz hq ht).2.2
  simp only [vec3_at, Vec3.mk.injEq] at h
  exact h.1

/-- C4 as amended, over the reals with `Real.sqrt` and concrete buffers. -/
theorem C4_synthetic_grad_translation_witness :
    (compute_coverage_select_loss_grad Real.sqrt 1 1 1 1 (fun _ => 1) identity_q
      (fun _ => 0) (fun _ => 1) (point_on_x_axis 2) (fun _ => 7) (fun _ => 5) (fun _ => 4)
      ⟨fun _ => 1, fun _ => 2, fun _ => 3⟩).grad_t 0 = -2 :=
  C4_synthetic_grad_translation Real.sqrt Real.sqrt_one (fun _ => 1) identity_q (fun _ => 0)
    (fun _ => 1) (point_on_x_axis 2) (fun _ => 7) (fun _ => 5) (fun _ => 4)
    ⟨fun _ => 1, fun _ => 2, fun _ => 3⟩
    (by simp [point_at, point_on_x_axis]) (by simp [point_on_x_axis]) rfl
    (by simp [vec3_at]) (by simp [quat_at, identity_q]) (by simp [vec3_at])

/-- C4 fails as stated: in the synthetic case over the reals the translation gradient along x
written by `compute_coverage_select_loss_grad` is not `+2`. -/
theorem C4_counterexample :
    (compute_coverage_select_loss_grad Real.sqrt 1 1 1 1 (fun _ => 1) identity_q
      (fun _ => 0) (fun _ => 1) (point_on_x_axis 2) (fun _ => 0) (fun _ => 0) (fun _ => 0)
      zero_grad).grad_t 0 ≠ 2 := by
  have h := (synthetic_case Real.sqrt Real.sqrt_one (fun _ => 1) identity_q (fun _ => 0)
    (fun _ => 1) (point_on_x_axis 2) (fun _ => 0) (fun _ => 0) 0 (fun _ => 0) zero_grad
    (by simp [point_at, point_on_x_axis]) (by simp [point_on_x_axis]) rfl
    (by simp [vec3_at]) (by simp [quat_at, identity_q]) (by simp [vec3_at])).2.2
  simp only [vec3_at, Vec3.mk.injEq] at h
  rw [h.1]
  norm_num

/-- C10: with the output buffers zeroed by `compute_coverage_select_loss_grad`, every entry of
`grad_scale`, `grad_orientation` and `grad_translation` it produces equals the sum, over all
points and all slots, of the contribution of that (point, slot) pair from `fill_grad_wrt_zqt`
to that entry. -/
theorem C10_gradient_is_sum_of_contributions [FloorRing F] (sqrt : F → F)
    (n_cube n_point batch_size : Nat) (loss : F)
    (in_z in_q in_t : Nat → F) (in_mask : Nat → Int) (in_pos : Nat → F)
    (pcd0 : Nat → F) (idx0 : Nat → Nat) (gpcd0 : Nat → F) (G0 : GradBufs F)
    (i j : Nat) (hi : i < batch_size * n_cube * 3) (hj : j < batch_size * n_cube * 4) :
    (compute_coverage_select_loss_grad sqrt n_cube n_point batch_size loss in_z in_q in_t
          in_mask in_pos pcd0 idx0 gpcd0 G0).grad_z i =
        ∑ p in Finset.range n_point, ∑ c in Finset.range n_cube,
          (pair_contribution sqrt n_cube n_point in_z in_q in_t in_mask in_pos
            (routed_gradient sqrt n_cube n_point loss in_z in_q in_t in_mask in_pos pcd0 idx0
              gpcd0) (p * n_cube + c)).grad_z i ∧
    (compute_coverage_select_loss_grad sqrt n_cube n_point batch_size loss in_z in_q in_t
          in_mask in_pos pcd0 idx0 gpcd0 G0).grad_q j =
        ∑ p in Finset.range n_point, ∑ c in Finset.range n_cube,
          (pair_contribution sqrt n_cube n_point in_z in_q in_t in_mask in_pos
            (routed_gradient sqrt n_cube n_point loss in_z in_q in_t in_mask in_pos pcd0 idx0
              gpcd0) (p * n_cube + c)).grad_q j ∧
    (compute_coverage_select_loss_grad sqrt n_cube n_point batch_size loss in_z in_q in_t
          in_mask in_pos pcd0 idx0 gpcd0 G0).grad_t i =
        ∑ p in Finset.range n_point, ∑ c in Finset.range n_cube,
          (pair_contribution sqrt n_cube n_point in_z in_q in_t in_mask in_pos
            (routed_gradient sqrt n_cube n_point loss in_z in_q in_t in_mask in_pos pcd0 idx0
              gpcd0) (p * n_cube + c)).grad_t i := by
  have key := fun i => kernel_loop_additive (n_point * n_cube)
    (fill_grad_wrt_zqt_thread sqrt n_cube n_point in_z in_q in_t in_mask in_pos
      (routed_gradient sqrt n_cube n_point loss in_z in_q in_t in_mask in_pos pcd0 idx0 gpcd0))
    (fun index G i => fill_grad_wrt_zqt_thread_additive sqrt n_cube n_point in_z in_q in_t
      in_mask in_pos _ index G i)
    ⟨gpu_set_zero G0.grad_z (batch_size * n_cube * 3),
      gpu_set_zero G0.grad_q (batch_size * n_cube * 4),
      gpu_set_zero G0.grad_t (batch_size * n_cube * 3)⟩ i
  refine ⟨?_, ?_, ?_⟩
  · have h := (key i).1
    simp only [gpu_set_zero_apply, if_pos hi, zero_add, sum_pairs] at h
    exact h
  · have h := (key j).2.1
    simp only [gpu_set_zero_apply, if_pos hj, zero_add, sum_pairs] at h
    exact h
  · have h := (key i).2.2
    simp only [gpu_set_zero_apply, if_pos hi, zero_add, sum_pairs] at h
    exact h

/-- C10 at a concrete input over the reals: the two points `(2,0,0)` and `(3,0,0)` of one batch
element select the same (only) cuboid, and the first entry of each of its gradients is the sum
of the two points' contributions. -/
theorem C10_gradient_is_sum_of_contributions_witness :
    (compute_coverage_select_loss_grad Real.sqrt 1 2 1 1 (fun _ => 1) identity_q (fun _ => 0)
          (fun _ => 1) (fun i => if i = 0 then 2 else if i = 1 then 3 else 0) (fun _ => 7)
          (fun _ => 5) (fun _ => 4) ⟨fun _ => 1, fun _ => 2, fun _ => 3⟩).grad_z 0 =
        ∑ p in Finset.range 2, ∑ c in Finset.range 1,
          (pair_contribution Real.sqrt 1 2 (fun _ => 1) identity_q (fun _ => 0) (fun _ => 1)
            (fun i => if i = 0 then 2 else if i = 1 then 3 else 0)
            (routed_gradient Real.sqrt 1 2 1 (fun _ => 1) identity_q (fun _ => 0) (fun _ => 1)
              (fun i => if i = 0 then 2 else if i = 1 then 3 else 0) (fun _ => 7) (fun _ => 5)
              (fun _ => 4)) (p * 1 + c)).grad_z 0 ∧
    (compute_coverage_select_loss_grad Real.sqrt 1 2 1 1 (fun _ => 1) identity_q (fun _ => 0)
          (fun _ => 1) (fun i => if i = 0 then 2 else if i = 1 then 3 else 0) (fun _ => 7)
          (fun _ => 5) (fun _ => 4) ⟨fun _ => 1, fun _ => 2, fun _ => 3⟩).grad_q 0 =
        ∑ p in Finset.range 2, ∑ c in Finset.range 1,
          (pair_contribution Real.sqrt 1 2 (fun _ => 1) identity_q (fun _ => 0) (fun _ => 1)
            (fun i => if i = 0 then 2 else if i = 1 then 3 else 0)
            (routed_gradient Real.sqrt 1 2 1 (fun _ => 1) identity_q (fun _ => 0) (fun _ => 1)
              (fun i => if i = 0 then 2 else if i = 1 then 3 else 0) (fun _ => 7) (fun _ => 5)
              (fun _ => 4)) (p * 1 + c)).grad_q 0 ∧
    (compute_coverage_select_loss_grad Real.sqrt 1 2 1 1 (fun _ => 1) identity_q (fun _ => 0)
          (fun _ => 1) (fun i => if i = 0 then 2 else if i = 1 then 3 else 0) (fun _ => 7)
          (fun _ => 5) (fun _ => 4) ⟨fun _ => 1, fun _ => 2, fun _ => 3⟩).grad_t 0 =
        ∑ p in Finset.range 2, ∑ c in Finset.range 1,
          (pair_contribution Real.sqrt 1 2 (fun _ => 1) identity_q (fun _ => 0) (fun _ => 1)
            (fun i => if i = 0 then 2 else if i = 1 then 3 else 0)
            (routed_gradient Real.sqrt 1 2 1 (fun _ => 1) identity_q (fun _ => 0) (fun _ => 1)
              (fun i => if i = 0 then 2 else if i = 1 then 3 else 0) (fun _ => 7) (fun _ => 5)
              (fun _ => 4)) (p * 1 + c)).grad_t 0 :=
  C10_gradient_is_sum_of_contributions Real.sqrt 1 2 1 1 (fun _ => 1) identity_q (fun _ => 0)
    (fun _ => 1) (fun i => if i = 0 then 2 else if i = 1 then 3 else 0) (fun _ => 7)
    (fun _ => 5) (fun _ => 4) ⟨fun _ => 1, fun _ => 2, fun _ => 3⟩ 0 0 (by decide) (by decide)

/-- C2: for an active (point, slot) pair with non-zero orientation and non-negative scale, and
for each raw orientation component `j` of the slot, the box distance written by
`fill_point_cube_distance` is differentiable in that component, and the value the thread of
`fill_grad_wrt_zqt` adds to entry `j` of the slot's orientation gradient is the routed gradient
`grad_point_cube_distance[p][c]` times that partial derivative. -/
theorem C2_orientation_gradient_is_derivative (n_cube n_point : Nat)
    (in_z in_q in_t : Nat → ℝ) (in_mask : Nat → Int) (in_pos : Nat → ℝ)
    (gpcd pcd0 : Nat → ℝ) (G : GradBufs ℝ) (p c j : Nat)
    (hp : p < n_point) (hc : c < n_cube) (hj : j < 4)
    (hmask : in_mask (slot_of n_cube n_point in_pos p c) = 1)
    (hq : quat_at in_q (slot_of n_cube n_point in_pos p c) ≠ ⟨0, 0, 0, 0⟩)
    (hz : 0 ≤ in_z (slot_of n_cube n_point in_pos p c * 3 + 0) ∧
      0 ≤ in_z (slot_of n_cube n_point in_pos p c * 3 + 1) ∧
      0 ≤ in_z (slot_of n_cube n_point in_pos p c * 3 + 2)) :
    ∃ d : ℝ,
      HasDerivAt
        (fun x => fill_point_cube_distance Real.sqrt (n_point * n_cube) n_cube n_point in_z
          (Function.update in_q (slot_of n_cube n_point in_pos p c * 4 + j) x) in_t in_mask
          in_pos pcd0 (p * n_cube + c))
        d (in_q (slot_of n_cube n_point in_pos p c * 4 + j)) ∧
      (fill_grad_wrt_zqt_thread Real.sqrt n_cube n_point in_z in_q in_t in_mask in_pos gpcd
          (p * n_cube + c) G).grad_q (slot_of n_cube n_point in_pos p c * 4 + j) =
        G.grad_q (slot_of n_cube n_point in_pos p c * 4 + j) + gpcd (p * n_cube + c) * d := by
  obtain ⟨d, hd, hg⟩ := hasDerivAt_box_distance
    (vec3_at in_z (slot_of n_cube n_point in_pos p c))
    (quat_at in_q (slot_of n_cube n_point in_pos p c))
    (vec3_at in_t (slot_of n_cube n_point in_pos p c)) (point_at n_point in_pos p)
    (gpcd (p * n_cube + c)) hz (normSq_ne_zero hq) j hj
  refine ⟨d, ?_, ?_⟩
  · have hfun : (fun x => fill_point_cube_distance Real.sqrt (n_point * n_cube) n_cube n_point
          in_z (Function.update in_q (slot_of n_cube n_point in_pos p c * 4 + j) x) in_t in_mask
          in_pos pcd0 (p * n_cube + c)) =
        fun x => box_distance (vec3_at in_z (slot_of n_cube n_point in_pos p c))
          (local_coords Real.sqrt (quat_set (quat_at in_q (slot_of n_cube n_point in_pos p c)) j x)
            (vec3_at in_t (slot_of n_cube n_point in_pos p c)) (point_at n_point in_pos p)) := by
      funext x
      rw [fill_point_cube_distance_apply Real.sqrt n_cube n_point in_z _ in_t in_mask in_pos pcd0
        p c hp hc, if_pos hmask, quat_at_update _ _ _ _ hj]
    rw [hfun, ← quat_get_quat_at in_q _ j hj]
    exact hd
  · rw [fill_grad_wrt_zqt_thread_eq Real.sqrt n_cube n_point in_z in_q in_t in_mask in_pos gpcd
      (p * n_cube + c) G _ _ _ _ _ rfl rfl rfl rfl rfl]
    simp only [pair_index_div hc, pair_index_mod hc, if_pos hmask]
    rw [CudaAtomicAdd_quat _ _ _ j hj, hg]

/-- C2 at a concrete input over the reals: the point `(2,0,0)`, a unit box at the origin with
identity orientation, routed gradient `1`, component `x` of the orientation. -/
theorem C2_orientation_gradient_is_derivative_witness :
    ∃ d : ℝ,
      HasDerivAt
        (fun x => fill_point_cube_distance Real.sqrt (1 * 1) 1 1 (fun _ => 1)
          (Function.update identity_q (slot_of 1 1 (point_on_x_axis (2 : ℝ)) 0 0 * 4 + 1) x)
          (fun _ => 0) (fun _ => 1) (point_on_x_axis 2) (fun _ => 7) (0 * 1 + 0))
        d (identity_q (slot_of 1 1 (point_on_x_axis (2 : ℝ)) 0 0 * 4 + 1)) ∧
      (fill_grad_wrt_zqt_thread Real.sqrt 1 1 (fun _ => 1) identity_q (fun _ => 0) (fun _ => 1)
          (point_on_x_axis 2) (fun _ => 1) (0 * 1 + 0) zero_grad).grad_q
          (slot_of 1 1 (point_on_x_axis (2 : ℝ)) 0 0 * 4 + 1) =
        (zero_grad : GradBufs ℝ).grad_q (slot_of 1 1 (point_on_x_axis (2 : ℝ)) 0 0 * 4 + 1) +
          (fun _ => (1 : ℝ)) (0 * 1 + 0) * d :=
  C2_orientation_gradient_is_derivative 1 1 (fun _ => 1) identity_q (fun _ => 0) (fun _ => 1)
    (point_on_x_axis 2) (fun _ => 1) (fun _ => 7) zero_grad 0 0 1 (by decide) (by decide)
    (by decide) rfl (by simp [quat_at, identity_q]) (by norm_num)

/-- C11: for an upstream gradient `g` and a selection vector with entries below `n_cube`, the
`[n_point, n_cube]` buffer produced by zero-filling and then `fill_grad_point_cube_distance`
holds `g / n_point` at `(p, selected[p])` for every point `p` and `0` at every other cell. -/
theorem C11_routed_gradient_cells (n_cube n_point : Nat) (g : F) (sel : Nat → Nat)
    (gpcd0 : Nat → F) (hsel : ∀ p, p < n_point → sel p < n_cube) (p c : Nat)
    (hp : p < n_point) (hc : c < n_cube) :
    fill_grad_point_cube_distance n_point n_cube n_point g sel
        (gpu_set_zero gpcd0 (n_point * n_cube)) (p * n_cube + c) =
      if c = sel p then g / (n_point : F) else 0 := by
  unfold fill_grad_point_cube_distance
  rw [fill_grad_point_cube_distance_loop n_point n_cube n_point g sel _ hsel p c hc,
    gpu_set_zero_apply, if_pos (pair_index_lt hp hc)]
  by_cases h : c = sel p
  · rw [if_pos ⟨hp, h⟩, if_pos h]
  · rw [if_neg (fun hh => h hh.2), if_neg h]

/-- C11 at a concrete input over the rationals: two points, two slots, the selection `(1, 0)`,
upstream gradient `3`, the cell `(0, 1)`. -/
theorem C11_routed_gradient_cells_witness :
    fill_grad_point_cube_distance 2 2 2 (3 : ℚ) (fun p => if p = 0 then 1 else 0)
        (gpu_set_zero (fun _ => 7) (2 * 2)) (0 * 2 + 1) =
      if 1 = (fun p => if p = 0 then 1 else 0) 0 then (3 : ℚ) / ((2 : Nat) : ℚ) else 0 :=
  C11_routed_gradient_cells 2 2 3 (fun p => if p = 0 then 1 else 0) (fun _ => 7)
    (by intro p _; by_cases h : p = 0 <;> simp [h]) 0 1 (by decide) (by decide)

/-- C12: for `n_cube ≥ 1` and a point whose batch element has no active slot,
`get_min_distance_cube_index` stores index `0`, the selected distance is exactly `FLT_MAX`, and
the point's thread of `get_coverage_loss` adds `FLT_MAX / n_point` to the loss. -/
theorem C12_all_inactive_selects_slot_zero [FloorRing F] (sqrt : F → F) (n_cube n_point : Nat)
    (in_z in_q in_t : Nat → F) (in_mask : Nat → Int) (in_pos : Nat → F)
    (pcd0 : Nat → F) (idx0 : Nat → Nat) (loss : F) (p : Nat) (hp : p < n_point)
    (hn : 1 ≤ n_cube)
    (hall : ∀ c, c < n_cube → in_mask (slot_of n_cube n_point in_pos p c) ≠ 1) :
    get_min_distance_cube_index n_point n_cube
        (fill_point_cube_distance sqrt (n_point * n_cube) n_cube n_point in_z in_q in_t in_mask
          in_pos pcd0) idx0 p = 0 ∧
      fill_point_cube_distance sqrt (n_point * n_cube) n_cube n_point in_z in_q in_t in_mask
          in_pos pcd0
          (p * n_cube + get_min_distance_cube_index n_point n_cube
            (fill_point_cube_distance sqrt (n_point * n_cube) n_cube n_point in_z in_q in_t
              in_mask in_pos pcd0) idx0 p) = FLT_MAX ∧
      get_coverage_loss_thread n_cube n_point
          (fill_point_cube_distance sqrt (n_point * n_cube) n_cube n_point in_z in_q in_t in_mask
            in_pos pcd0)
          (get_min_distance_cube_index n_point n_cube
            (fill_point_cube_distance sqrt (n_point * n_cube) n_cube n_point in_z in_q in_t
              in_mask in_pos pcd0) idx0) p loss =
        loss + FLT_MAX / (n_point : F) := by
  have hrow : ∀ c, c < n_cube →
      fill_point_cube_distance sqrt (n_point * n_cube) n_cube n_point in_z in_q in_t in_mask
        in_pos pcd0 (p * n_cube + c) = FLT_MAX := by
    intro c hc
    rw [fill_point_cube_distance_apply sqrt n_cube n_point in_z in_q in_t in_mask in_pos pcd0
      p c hp hc, if_neg (hall c hc)]
  obtain ⟨h1, _, h3⟩ := scan_spec n_cube
    (fun i => fill_point_cube_distance sqrt (n_point * n_cube) n_cube n_point in_z in_q
      in_t in_mask in_pos pcd0 (p * n_cube + i)) hn
  have hidx : get_min_distance_cube_index n_point n_cube
      (fill_point_cube_distance sqrt (n_point * n_cube) n_cube n_point in_z in_q in_t in_mask
        in_pos pcd0) idx0 p = 0 := by
    rw [get_min_distance_cube_index_apply n_point n_cube _ idx0 p hp]
    by_contra hne
    have hlt := h3 0 (Nat.pos_of_ne_zero hne)
    simp only at hlt
    rw [hrow _ h1, hrow 0 (by omega)] at hlt
    exact lt_irrefl _ hlt
  refine ⟨hidx, ?_, ?_⟩
  · rw [hidx]
    exact hrow 0 (by omega)
  · unfold get_coverage_loss_thread
    rw [hidx, hrow 0 (by omega)]

/-- C12 at a concrete input over the reals: one point, two slots, both inactive. -/
theorem C12_all_inactive_selects_slot_zero_witness :
    get_min_distance_cube_index 1 2
        (fill_point_cube_distance Real.sqrt (1 * 2) 2 1 (fun _ => 1) identity_q (fun _ => 0)
          (fun _ => 0) (point_on_x_axis 2) (fun _ => 7)) (fun _ => 5) 0 = 0 ∧
      fill_point_cube_distance Real.sqrt (1 * 2) 2 1 (fun _ => 1) identity_q (fun _ => 0)
          (fun _ => 0) (point_on_x_axis 2) (fun _ => 7)
          (0 * 2 + get_min_distance_cube_index 1 2
            (fill_point_cube_distance Real.sqrt (1 * 2) 2 1 (fun _ => 1) identity_q
              (fun _ => 0) (fun _ => 0) (point_on_x_axis 2) (fun _ => 7)) (fun _ => 5) 0) =
        FLT_MAX ∧
      get_coverage_loss_thread 2 1
          (fill_point_cube_distance Real.sqrt (1 * 2) 2 1 (fun _ => 1) identity_q (fun _ => 0)
            (fun _ => 0) (point_on_x_axis 2) (fun _ => 7))
          (get_min_distance_cube_index 1 2
            (fill_point_cube_distance Real.sqrt (1 * 2) 2 1 (fun _ => 1) identity_q
              (fun _ => 0) (fun _ => 0) (point_on_x_axis 2) (fun _ => 7)) (fun _ => 5)) 0 3 =
        3 + FLT_MAX / ((1 : Nat) : ℝ) :=
  C12_all_inactive_selects_slot_zero Real.sqrt 2 1 (fun _ => 1) identity_q (fun _ => 0)
    (fun _ => 0) (point_on_x_axis 2) (fun _ => 7) (fun _ => 5) 3 0 (by decide) (by decide)
    (by intro c _; norm_num)

/-- C13: every cell `(p, c)` of the distance matrix written by `fill_point_cube_distance` is
`≥ 0` when slot `c` of the point's batch element is active (mask `= 1`) and is exactly
`FLT_MAX` when it is inactive (mask `≠ 1`), whatever the point, scale, orientation and
translation are. -/
theorem C13_distance_nonneg_or_sentinel [FloorRing F] (sqrt : F → F) (n_cube n_point : Nat)
    (in_z in_q in_t : Nat → F) (in_mask : Nat → Int) (in_pos : Nat → F) (pcd0 : Nat → F)
    (p c : Nat) (hp : p < n_point) (hc : c < n_cube) :
    (in_mask (slot_of n_cube n_point in_pos p c) = 1 →
        0 ≤ fill_point_cube_distance sqrt (n_point * n_cube) n_cube n_point in_z in_q in_t
          in_mask in_pos pcd0 (p * n_cube + c)) ∧
      (in_mask (slot_of n_cube n_point in_pos p c) ≠ 1 →
        fill_point_cube_distance sqrt (n_point * n_cube) n_cube n_point in_z in_q in_t
          in_mask in_pos pcd0 (p * n_cube + c) = FLT_MAX) := by
  rw [fill_point_cube_distance_apply sqrt n_cube n_point in_z in_q in_t in_mask in_pos pcd0 p c
    hp hc]
  constructor
  · intro hm
    rw [if_pos hm]
    unfold box_distance
    exact add_nonneg (add_nonneg (mul_self_nonneg _) (mul_self_nonneg _)) (mul_self_nonneg _)
  · intro hm
    rw [if_neg hm]

/-- C13 at a concrete input over the reals: the point `(2,0,0)`, slot `0` inactive and slot
`1` an active unit box at the origin; the cell `(0, 1)`. -/
theorem C13_distance_nonneg_or_sentinel_witness :
    (second_slot_mask (slot_of 2 1 (point_on_x_axis (2 : ℝ)) 0 1) = 1 →
        0 ≤ fill_point_cube_distance Real.sqrt (1 * 2) 2 1 (fun _ => 1) identity_q (fun _ => 0)
          second_slot_mask (point_on_x_axis 2) (fun _ => 7) (0 * 2 + 1)) ∧
      (second_slot_mask (slot_of 2 1 (point_on_x_axis (2 : ℝ)) 0 1) ≠ 1 →
        fill_point_cube_distance Real.sqrt (1 * 2) 2 1 (fun _ => 1) identity_q (fun _ => 0)
          second_slot_mask (point_on_x_axis 2) (fun _ => 7) (0 * 2 + 1) = FLT_MAX) :=
  C13_distance_nonneg_or_sentinel Real.sqrt 2 1 (fun _ => 1) identity_q (fun _ => 0)
    second_slot_mask (point_on_x_axis 2) (fun _ => 7) 0 1 (by decide) (by decide)

/-- C18: for an active (point, slot) pair, the pair's thread of `fill_grad_wrt_zqt` adds to
entry `k` of the slot's translation gradient the negation of component `k` of
`t_matvec_kernel(R, g)`, where `R = as_rotation_matrix(conjugate(q))` is the rotation of the
forward pass and `g` has, per axis, the value `SIGN(local_axis) * 2 * d_axis * routed_grad` when
`|local_axis| - scale_axis > 0` and `0` otherwise. -/
theorem C18_translation_contribution [FloorRing F] (sqrt : F → F) (n_cube n_point : Nat)
    (in_z in_q in_t : Nat → F) (in_mask : Nat → Int) (in_pos : Nat → F)
    (gpcd : Nat → F) (G : GradBufs F) (p c k : Nat) (hc : c < n_cube) (hk : k < 3)
    (hmask : in_mask (slot_of n_cube n_point in_pos p c) = 1) :
    (fill_grad_wrt_zqt_thread sqrt n_cube n_point in_z in_q in_t in_mask in_pos gpcd
        (p * n_cube + c) G).grad_t (slot_of n_cube n_point in_pos p c * 3 + k) =
      G.grad_t (slot_of n_cube n_point in_pos p c * 3 + k) +
        -vec3_get (t_matvec_kernel
          (as_rotation_matrix sqrt (conjugate (quat_at in_q (slot_of n_cube n_point in_pos p c))))
          ⟨if |(local_coords sqrt (quat_at in_q (slot_of n_cube n_point in_pos p c))
                (vec3_at in_t (slot_of n_cube n_point in_pos p c))
                (point_at n_point in_pos p)).x| -
              in_z (slot_of n_cube n_point in_pos p c * 3 + 0) > 0 then
              SIGN (local_coords sqrt (quat_at in_q (slot_of n_cube n_point in_pos p c))
                (vec3_at in_t (slot_of n_cube n_point in_pos p c))
                (point_at n_point in_pos p)).x * 2 *
              MAX (|(local_coords sqrt (quat_at in_q (slot_of n_cube n_point in_pos p c))
                (vec3_at in_t (slot_of n_cube n_point in_pos p c))
                (point_at n_point in_pos p)).x| -
                in_z (slot_of n_cube n_point in_pos p c * 3 + 0)) 0 * gpcd (p * n_cube + c)
            else 0,
            if |(local_coords sqrt (quat_at in_q (slot_of n_cube n_point in_pos p c))
                (vec3_at in_t (slot_of n_cube n_point in_pos p c))
                (point_at n_point in_pos p)).y| -
              in_z (slot_of n_cube n_point in_pos p c * 3 + 1) > 0 then
              SIGN (local_coords sqrt (quat_at in_q (slot_of n_cube n_point in_pos p c))
                (vec3_at in_t (slot_of n_cube n_point in_pos p c))
                (point_at n_point in_pos p)).y * 2 *
              MAX (|(local_coords sqrt (quat_at in_q (slot_of n_cube n_point in_pos p c))
                (vec3_at in_t (slot_of n_cube n_point in_pos p c))
                (point_at n_point in_pos p)).y| -
                in_z (slot_of n_cube n_point in_pos p c * 3 + 1)) 0 * gpcd (p * n_cube + c)
            else 0,
            if |(local_coords sqrt (quat_at in_q (slot_of n_cube n_point in_pos p c))
                (vec3_at in_t (slot_of n_cube n_point in_pos p c))
                (point_at n_point in_pos p)).z| -
              in_z (slot_of n_cube n_point in_pos p c * 3 + 2) > 0 then
              SIGN (local_coords sqrt (quat_at in_q (slot_of n_cube n_point in_pos p c))
                (vec3_at in_t (slot_of n_cube n_point in_pos p c))
                (point_at n_point in_pos p)).z * 2 *
              MAX (|(local_coords sqrt (quat_at in_q (slot_of n_cube n_point in_pos p c))
                (vec3_at in_t (slot_of n_cube n_point in_pos p c))
                (point_at n_point in_pos p)).z| -
                in_z (slot_of n_cube n_point in_pos p c * 3 + 2)) 0 * gpcd (p * n_cube + c)
            else 0⟩) k := by
  rw [(fill_grad_wrt_zqt_thread_active sqrt n_cube n_point in_z in_q in_t in_mask in_pos
    gpcd G p c hc hmask k hk).2]
  have hg : ∀ l z g : F, axis_grad l z g =
      if |l| - z > 0 then SIGN l * 2 * MAX (|l| - z) 0 * g else 0 := by
    intro l z g
    unfold axis_grad
    split_ifs
    · ring
    · rfl
  simp only [pair_grad_t, clipped_grad, hg, vec3_at]

/-- C18 at a concrete input over the reals: the point `(2,0,0)`, a unit box at the origin with
identity orientation, routed gradient `1`, component `x` of the translation. -/
theorem C18_translation_contribution_witness :
    (fill_grad_wrt_zqt_thread Real.sqrt 1 1 (fun _ => 1) identity_q (fun _ => 0) (fun _ => 1)
        (point_on_x_axis 2) (fun _ => 1)
        (0 * 1 + 0) zero_grad).grad_t (slot_of 1 1 (point_on_x_axis (2 : ℝ)) 0 0 * 3 + 0) =
      (zero_grad : GradBufs ℝ).grad_t (slot_of 1 1 (point_on_x_axis (2 : ℝ)) 0 0 * 3 + 0) +
        -vec3_get (t_matvec_kernel
          (as_rotation_matrix Real.sqrt (conjugate (quat_at identity_q (slot_of 1 1 (point_on_x_axis (2 : ℝ)) 0 0))))
          ⟨if |(local_coords Real.sqrt (quat_at identity_q (slot_of 1 1 (point_on_x_axis (2 : ℝ)) 0 0))
                (vec3_at (fun _ => 0) (slot_of 1 1 (point_on_x_axis (2 : ℝ)) 0 0))
                (point_at 1 (point_on_x_axis 2) 0)).x| -
              (fun _ => (1 : ℝ)) (slot_of 1 1 (point_on_x_axis (2 : ℝ)) 0 0 * 3 + 0) > 0 then
              SIGN (local_coords Real.sqrt (quat_at identity_q (slot_of 1 1 (point_on_x_axis (2 : ℝ)) 0 0))
                (vec3_at (fun _ => 0) (slot_of 1 1 (point_on_x_axis (2 : ℝ)) 0 0))
                (point_at 1 (point_on_x_axis 2) 0)).x * 2 *
              MAX (|(local_coords Real.sqrt (quat_at identity_q (slot_of 1 1 (point_on_x_axis (2 : ℝ)) 0 0))
                (vec3_at (fun _ => 0) (slot_of 1 1 (point_on_x_axis (2 : ℝ)) 0 0))
                (point_at 1 (point_on_x_axis 2) 0)).x| -
                (fun _ => (1 : ℝ)) (slot_of 1 1 (point_on_x_axis (2 : ℝ)) 0 0 * 3 + 0)) 0 * (fun _ => (1 : ℝ)) (0 * 1 + 0)
            else 0,
            if |(local_coords Real.sqrt (quat_at identity_q (slot_of 1 1 (point_on_x_axis (2 : ℝ)) 0 0))
                (vec3_at (fun _ => 0) (slot_of 1 1 (point_on_x_axis (2 : ℝ)) 0 0))
                (point_at 1 (point_on_x_axis 2) 0)).y| -
              (fun _ => (1 : ℝ)) (slot_of 1 1 (point_on_x_axis (2 : ℝ)) 0 0 * 3 + 1) > 0 then
              SIGN (local_coords Real.sqrt (quat_at identity_q (slot_of 1 1 (point_on_x_axis (2 : ℝ)) 0 0))
                (vec3_at (fun _ => 0) (slot_of 1 1 (point_on_x_axis (2 : ℝ)) 0 0))
                (point_at 1 (point_on_x_axis 2) 0)).y * 2 *
              MAX (|(local_coords Real.sqrt (quat_at identity_q (slot_of 1 1 (point_on_x_axis (2 : ℝ)) 0 0))
                (vec3_at (fun _ => 0) (slot_of 1 1 (point_on_x_axis (2 : ℝ)) 0 0))
                (point_at 1 (point_on_x_axis 2) 0)).y| -
                (fun _ => (1 : ℝ)) (slot_of 1 1 (point_on_x_axis (2 : ℝ)) 0 0 * 3 + 1)) 0 * (fun _ => (1 : ℝ)) (0 * 1 + 0)
            else 0,
            if |(local_coords Real.sqrt (quat_at identity_q (slot_of 1 1 (point_on_x_axis (2 : ℝ)) 0 0))
                (vec3_at (fun _ => 0) (slot_of 1 1 (point_on_x_axis (2 : ℝ)) 0 0))
                (point_at 1 (point_on_x_axis 2) 0)).z| -
              (fun _ => (1 : ℝ)) (slot_of 1 1 (point_on_x_axis (2 : ℝ)) 0 0 * 3 + 2) > 0 then
              SIGN (local_coords Real.sqrt (quat_at identity_q (slot_of 1 1 (point_on_x_axis (2 : ℝ)) 0 0))
                (vec3_at (fun _ => 0) (slot_of 1 1 (point_on_x_axis (2 : ℝ)) 0 0))
                (point_at 1 (point_on_x_axis 2) 0)).z * 2 *
              MAX (|(local_coords Real.sqrt (quat_at identity_q (slot_of 1 1 (point_on_x_axis (2 : ℝ)) 0 0))
                (vec3_at (fun _ => 0) (slot_of 1 1 (point_on_x_axis (2 : ℝ)) 0 0))
                (point_at 1 (point_on_x_axis 2) 0)).z| -
                (fun _ => (1 : ℝ)) (slot_of 1 1 (point_on_x_axis (2 : ℝ)) 0 0 * 3 + 2)) 0 * (fun _ => (1 : ℝ)) (0 * 1 + 0)
            else 0⟩) 0 :=
  C18_translation_contribution Real.sqrt 1 1 (fun _ => 1) identity_q (fun _ => 0) (fun _ => 1)
    (point_on_x_axis 2) (fun _ => 1) zero_grad 0 0 0 (by decide) (by decide) rfl

/-- C14: for an active (point, slot) pair with non-zero orientation and non-negative scale, and
for each translation component `k` of the slot, the box distance written by
`fill_point_cube_distance` is differentiable in that component, and the value the thread of
`fill_grad_wrt_zqt` adds to entry `k` of the slot's translation gradient is the routed gradient
`grad_point_cube_distance[p][c]` times that partial derivative. -/
theorem C14_translation_gradient_is_derivative (n_cube n_point : Nat)
    (in_z in_q in_t : Nat → ℝ) (in_mask : Nat → Int) (in_pos : Nat → ℝ)
    (gpcd pcd0 : Nat → ℝ) (G : GradBufs ℝ) (p c k : Nat)
    (hp : p < n_point) (hc : c < n_cube) (hk : k < 3)
    (hmask : in_mask (slot_of n_cube n_point in_pos p c) = 1)
    (_hq : quat_at in_q (slot_of n_cube n_point in_pos p c) ≠ ⟨0, 0, 0, 0⟩)
    (hz : 0 ≤ in_z (slot_of n_cube n_point in_pos p c * 3 + 0) ∧
      0 ≤ in_z (slot_of n_cube n_point in_pos p c * 3 + 1) ∧
      0 ≤ in_z (slot_of n_cube n_point in_pos p c * 3 + 2)) :
    ∃ d : ℝ,
      HasDerivAt
        (fun x => fill_point_cube_distance Real.sqrt (n_point * n_cube) n_cube n_point in_z
          in_q (Function.update in_t (slot_of n_cube n_point in_pos p c * 3 + k) x) in_mask
          in_pos pcd0 (p * n_cube + c))
        d (in_t (slot_of n_cube n_point in_pos p c * 3 + k)) ∧
      (fill_grad_wrt_zqt_thread Real.sqrt n_cube n_point in_z in_q in_t in_mask in_pos gpcd
          (p * n_cube + c) G).grad_t (slot_of n_cube n_point in_pos p c * 3 + k) =
        G.grad_t (slot_of n_cube n_point in_pos p c * 3 + k) + gpcd (p * n_cube + c) * d := by
  obtain ⟨d, hd, hg⟩ := hasDerivAt_box_distance_translation Real.sqrt
    (vec3_at in_z (slot_of n_cube n_point in_pos p c))
    (quat_at in_q (slot_of n_cube n_point in_pos p c))
    (vec3_at in_t (slot_of n_cube n_point in_pos p c)) (point_at n_point in_pos p)
    (gpcd (p * n_cube + c)) hz k hk
  refine ⟨d, ?_, ?_⟩
  · have hfun : (fun x => fill_point_cube_distance Real.sqrt (n_point * n_cube) n_cube n_point
          in_z in_q (Function.update in_t (slot_of n_cube n_point in_pos p c * 3 + k) x) in_mask
          in_pos pcd0 (p * n_cube + c)) =
        fun x => box_distance (vec3_at in_z (slot_of n_cube n_point in_pos p c))
          (local_coords Real.sqrt (quat_at in_q (slot_of n_cube n_point in_pos p c))
            (vec3_set (vec3_at in_t (slot_of n_cube n_point in_pos p c)) k x)
            (point_at n_point in_pos p)) := by
      funext x
      rw [fill_point_cube_distance_apply Real.sqrt n_cube n_point in_z in_q _ in_mask in_pos pcd0
        p c hp hc, if_pos hmask, vec3_at_update _ _ _ _ hk]
    rw [hfun, ← vec3_get_vec3_at in_t _ k hk]
    exact hd
  · rw [(fill_grad_wrt_zqt_thread_active Real.sqrt n_cube n_point in_z in_q in_t in_mask in_pos
      gpcd G p c hc hmask k hk).2, hg]


/-- C14 at a concrete input over the reals: the point `(2,0,0)`, a unit box at the origin with
identity orientation, routed gradient `1`, component `x` of the translation. -/
theorem C14_translation_gradient_is_derivative_witness :
    ∃ d : ℝ,
      HasDerivAt
        (fun x => fill_point_cube_distance Real.sqrt (1 * 1) 1 1 (fun _ => 1) identity_q
          (Function.update (fun _ => 0) (slot_of 1 1 (point_on_x_axis (2 : ℝ)) 0 0 * 3 + 0) x)
          (fun _ => 1) (point_on_x_axis 2) (fun _ => 7) (0 * 1 + 0))
        d ((fun _ => (0 : ℝ)) (slot_of 1 1 (point_on_x_axis (2 : ℝ)) 0 0 * 3 + 0)) ∧
      (fill_grad_wrt_zqt_thread Real.sqrt 1 1 (fun _ => 1) identity_q (fun _ => 0) (fun _ => 1)
          (point_on_x_axis 2) (fun _ => 1) (0 * 1 + 0) zero_grad).grad_t
          (slot_of 1 1 (point_on_x_axis (2 : ℝ)) 0 0 * 3 + 0) =
        (zero_grad : GradBufs ℝ).grad_t (slot_of 1 1 (point_on_x_axis (2 : ℝ)) 0 0 * 3 + 0) +
          (fun _ => (1 : ℝ)) (0 * 1 + 0) * d :=
  C14_translation_gradient_is_derivative 1 1 (fun _ => 1) identity_q (fun _ => 0) (fun _ => 1)
    (point_on_x_axis 2) (fun _ => 1) (fun _ => 7) zero_grad 0 0 0 (by decide) (by decide)
    (by decide) rfl (by simp [quat_at, identity_q]) (by norm_num)

/-- C15: for every 3x3 matrix `m` and every non-zero raw quaternion `q`, the four outputs of
`grad_rotation_matrix_to_quaternion(m, q)` are the partial derivatives at `q`, with respect to
`qw`, `qx`, `qy`, `qz`, of `q ↦ sum over k of m[k] * as_rotation_matrix(q)[k]` (the
normalisation inside `as_rotation_matrix` included). -/
theorem C15_quaternion_backprop_is_derivative (m : Mat9 ℝ) (q : Quat ℝ)
    (hq : q ≠ ⟨0, 0, 0, 0⟩) :
    HasDerivAt (fun x => mat_dot m (as_rotation_matrix Real.sqrt ⟨x, q.x, q.y, q.z⟩))
        (grad_rotation_matrix_to_quaternion m q).w q.w ∧
      HasDerivAt (fun x => mat_dot m (as_rotation_matrix Real.sqrt ⟨q.w, x, q.y, q.z⟩))
        (grad_rotation_matrix_to_quaternion m q).x q.x ∧
      HasDerivAt (fun x => mat_dot m (as_rotation_matrix Real.sqrt ⟨q.w, q.x, x, q.z⟩))
        (grad_rotation_matrix_to_quaternion m q).y q.y ∧
      HasDerivAt (fun x => mat_dot m (as_rotation_matrix Real.sqrt ⟨q.w, q.x, q.y, x⟩))
        (grad_rotation_matrix_to_quaternion m q).z q.z :=
  ⟨hasDerivAt_rot_w m q (normSq_ne_zero hq), hasDerivAt_rot_x m q (normSq_ne_zero hq),
    hasDerivAt_rot_y m q (normSq_ne_zero hq), hasDerivAt_rot_z m q (normSq_ne_zero hq)⟩

/-- C15 at a concrete input: the matrix with entries `1 .. 9` and the quaternion `(1,2,0,0)`. -/
theorem C15_quaternion_backprop_is_derivative_witness :
    HasDerivAt (fun x => mat_dot ⟨1, 2, 3, 4, 5, 6, 7, 8, 9⟩ (as_rotation_matrix Real.sqrt
          ⟨x, (⟨1, 2, 0, 0⟩ : Quat ℝ).x, (⟨1, 2, 0, 0⟩ : Quat ℝ).y, (⟨1, 2, 0, 0⟩ : Quat ℝ).z⟩))
        (grad_rotation_matrix_to_quaternion ⟨1, 2, 3, 4, 5, 6, 7, 8, 9⟩ ⟨1, 2, 0, 0⟩).w
        (⟨1, 2, 0, 0⟩ : Quat ℝ).w ∧
      HasDerivAt (fun x => mat_dot ⟨1, 2, 3, 4, 5, 6, 7, 8, 9⟩ (as_rotation_matrix Real.sqrt
          ⟨(⟨1, 2, 0, 0⟩ : Quat ℝ).w, x, (⟨1, 2, 0, 0⟩ : Quat ℝ).y, (⟨1, 2, 0, 0⟩ : Quat ℝ).z⟩))
        (grad_rotation_matrix_to_quaternion ⟨1, 2, 3, 4, 5, 6, 7, 8, 9⟩ ⟨1, 2, 0, 0⟩).x
        (⟨1, 2, 0, 0⟩ : Quat ℝ).x ∧
      HasDerivAt (fun x => mat_dot ⟨1, 2, 3, 4, 5, 6, 7, 8, 9⟩ (as_rotation_matrix Real.sqrt
          ⟨(⟨1, 2, 0, 0⟩ : Quat ℝ).w, (⟨1, 2, 0, 0⟩ : Quat ℝ).x, x, (⟨1, 2, 0, 0⟩ : Quat ℝ).z⟩))
        (grad_rotation_matrix_to_quaternion ⟨1, 2, 3, 4, 5, 6, 7, 8, 9⟩ ⟨1, 2, 0, 0⟩).y
        (⟨1, 2, 0, 0⟩ : Quat ℝ).y ∧
      HasDerivAt (fun x => mat_dot ⟨1, 2, 3, 4, 5, 6, 7, 8, 9⟩ (as_rotation_matrix Real.sqrt
          ⟨(⟨1, 2, 0, 0⟩ : Quat ℝ).w, (⟨1, 2, 0, 0⟩ : Quat ℝ).x, (⟨1, 2, 0, 0⟩ : Quat ℝ).y, x⟩))
        (grad_rotation_matrix_to_quaternion ⟨1, 2, 3, 4, 5, 6, 7, 8, 9⟩ ⟨1, 2, 0, 0⟩).z
        (⟨1, 2, 0, 0⟩ : Quat ℝ).z :=
  C15_quaternion_backprop_is_derivative ⟨1, 2, 3, 4, 5, 6, 7, 8, 9⟩ ⟨1, 2, 0, 0⟩ (by simp)

/-- C16: for every 3x3 matrix `m` and every non-zero quaternion `q`, with a square root that is
exact and non-negative on non-negative arguments, the fused closed form of
`grad_rotation_matrix_to_quaternion` ("version two") equals the two-step computation of the
commented "version one": the gradient with respect to the unit quaternion `q / |q|`, multiplied
by the Jacobian `(|q|^2 I - q qᵀ) / |q|^3` of the normalisation. -/
theorem C16_fused_form_equals_version_one (sqrt : F → F) (hs : IsSqrt sqrt)
    (hnn : ∀ a : F, 0 ≤ a → 0 ≤ sqrt a) (m : Mat9 F) (q : Quat F) (hq : q ≠ ⟨0, 0, 0, 0⟩) :
    grad_rotation_matrix_to_quaternion m q =
      grad_rotation_matrix_to_quaternion_version_one sqrt m q :=
  version_one_eq hs hnn m q (normSq_ne_zero hq)

/-- C16 at a concrete input over the reals: the matrix with entries `1 .. 9` and the quaternion
`(1,2,0,0)`. -/
theorem C16_fused_form_equals_version_one_witness :
    grad_rotation_matrix_to_quaternion (⟨1, 2, 3, 4, 5, 6, 7, 8, 9⟩ : Mat9 ℝ) ⟨1, 2, 0, 0⟩ =
      grad_rotation_matrix_to_quaternion_version_one Real.sqrt ⟨1, 2, 3, 4, 5, 6, 7, 8, 9⟩
        ⟨1, 2, 0, 0⟩ :=
  C16_fused_form_equals_version_one Real.sqrt isSqrt_real (fun a _ => Real.sqrt_nonneg a)
    ⟨1, 2, 3, 4, 5, 6, 7, 8, 9⟩ ⟨1, 2, 0, 0⟩ (by simp)

/-- C19: for a non-zero quaternion `q` and every vector `v`, `R = as_rotation_matrix(q)` is
orthogonal: `t_matvec_kernel(R, matvec_kernel(R, v)) = v` and
`matvec_kernel(R, t_matvec_kernel(R, v)) = v`. -/
theorem C19_rotation_matrix_orthogonal (sqrt : F → F) (hs : IsSqrt sqrt) (q : Quat F)
    (hq : q ≠ ⟨0, 0, 0, 0⟩) (v : Vec3 F) :
    t_matvec_kernel (as_rotation_matrix sqrt q) (matvec_kernel (as_rotation_matrix sqrt q) v) =
        v ∧
      matvec_kernel (as_rotation_matrix sqrt q)
        (t_matvec_kernel (as_rotation_matrix sqrt q) v) = v := by
  rw [t_matvec_kernel_eq, t_matvec_kernel_eq, ← as_rotation_matrix_conjugate]
  exact ⟨matvec_conjugate_self hs q (normSq_ne_zero hq) v,
    matvec_self_conjugate hs q (normSq_ne_zero hq) v⟩

/-- C19 at a concrete input over the reals: the quaternion `(1,2,0,0)` and the vector
`(1,2,3)`. -/
theorem C19_rotation_matrix_orthogonal_witness :
    t_matvec_kernel (as_rotation_matrix Real.sqrt ⟨1, 2, 0, 0⟩)
        (matvec_kernel (as_rotation_matrix Real.sqrt ⟨1, 2, 0, 0⟩) ⟨1, 2, 3⟩) = ⟨1, 2, 3⟩ ∧
      matvec_kernel (as_rotation_matrix Real.sqrt ⟨1, 2, 0, 0⟩)
        (t_matvec_kernel (as_rotation_matrix Real.sqrt ⟨1, 2, 0, 0⟩) ⟨1, 2, 3⟩) = ⟨1, 2, 3⟩ :=
  C19_rotation_matrix_orthogonal Real.sqrt isSqrt_real ⟨1, 2, 0, 0⟩ (by simp) ⟨1, 2, 3⟩

/-- C20: for every quaternion `q`, `as_rotation_matrix(conjugate(q))` is the transpose of
`as_rotation_matrix(q)`; hence, with an exact square root and `q` non-zero, the rotation built
from the conjugate undoes the rotation built from `q`, on either side. -/
theorem C20_conjugate_is_transpose (sqrt : F → F) (q : Quat F) :
    as_rotation_matrix sqrt (conjugate q) = transpose (as_rotation_matrix sqrt q) ∧
      (IsSqrt sqrt → q ≠ ⟨0, 0, 0, 0⟩ → ∀ v : Vec3 F,
        matvec_kernel (as_rotation_matrix sqrt (conjugate q))
            (matvec_kernel (as_rotation_matrix sqrt q) v) = v ∧
          matvec_kernel (as_rotation_matrix sqrt q)
            (matvec_kernel (as_rotation_matrix sqrt (conjugate q)) v) = v) :=
  ⟨as_rotation_matrix_conjugate sqrt q, fun hs hq v =>
    ⟨matvec_conjugate_self hs q (normSq_ne_zero hq) v,
      matvec_self_conjugate hs q (normSq_ne_zero hq) v⟩⟩


/-- C20 at a concrete input over the reals: the quaternion `(1,2,0,0)`. -/
theorem C20_conjugate_is_transpose_witness :
    as_rotation_matrix Real.sqrt (conjugate ⟨1, 2, 0, 0⟩) =
        transpose (as_rotation_matrix Real.sqrt ⟨1, 2, 0, 0⟩) ∧
      ∀ v : Vec3 ℝ,
        matvec_kernel (as_rotation_matrix Real.sqrt (conjugate ⟨1, 2, 0, 0⟩))
            (matvec_kernel (as_rotation_matrix Real.sqrt ⟨1, 2, 0, 0⟩) v) = v ∧
          matvec_kernel (as_rotation_matrix Real.sqrt ⟨1, 2, 0, 0⟩)
            (matvec_kernel (as_rotation_matrix Real.sqrt (conjugate ⟨1, 2, 0, 0⟩)) v) = v :=
  ⟨(C20_conjugate_is_transpose Real.sqrt ⟨1, 2, 0, 0⟩).1,
    (C20_conjugate_is_transpose Real.sqrt ⟨1, 2, 0, 0⟩).2 isSqrt_real (by simp)⟩

/-- C21: the outputs of `grad_rotation_matrix_to_quaternion` are orthogonal to its non-zero
quaternion argument, and for every cuboid slot `s` of the zeroed output with a non-zero
orientation, the orientation gradient produced by `compute_coverage_select_loss_grad` is
orthogonal to the slot's raw orientation:
`q[0]*gq[0] + q[1]*gq[1] + q[2]*gq[2] + q[3]*gq[3] = 0`. -/
theorem C21_orientation_gradient_orthogonal [FloorRing F] (sqrt : F → F)
    (n_cube n_point batch_size : Nat) (loss : F)
    (in_z in_q in_t : Nat → F) (in_mask : Nat → Int) (in_pos : Nat → F)
    (pcd0 : Nat → F) (idx0 : Nat → Nat) (gpcd0 : Nat → F) (G0 : GradBufs F) (s : Nat)
    (hs : s < batch_size * n_cube) (_hq : quat_at in_q s ≠ ⟨0, 0, 0, 0⟩) :
    (∀ (m : Mat9 F) (q : Quat F), q ≠ ⟨0, 0, 0, 0⟩ →
      q.w * (grad_rotation_matrix_to_quaternion m q).w +
        q.x * (grad_rotation_matrix_to_quaternion m q).x +
        q.y * (grad_rotation_matrix_to_quaternion m q).y +
        q.z * (grad_rotation_matrix_to_quaternion m q).z = 0) ∧
    in_q (s * 4 + 0) *
        (compute_coverage_select_loss_grad sqrt n_cube n_point batch_size loss in_z in_q in_t
          in_mask in_pos pcd0 idx0 gpcd0 G0).grad_q (s * 4 + 0) +
      in_q (s * 4 + 1) *
        (compute_coverage_select_loss_grad sqrt n_cube n_point batch_size loss in_z in_q in_t
          in_mask in_pos pcd0 idx0 gpcd0 G0).grad_q (s * 4 + 1) +
      in_q (s * 4 + 2) *
        (compute_coverage_select_loss_grad sqrt n_cube n_point batch_size loss in_z in_q in_t
          in_mask in_pos pcd0 idx0 gpcd0 G0).grad_q (s * 4 + 2) +
      in_q (s * 4 + 3) *
        (compute_coverage_select_loss_grad sqrt n_cube n_point batch_size loss in_z in_q in_t
          in_mask in_pos pcd0 idx0 gpcd0 G0).grad_q (s * 4 + 3) = 0 := by
  refine ⟨fun m q _ => grad_rotation_matrix_to_quaternion_orthogonal m q, ?_⟩
  rw [(compute_coverage_select_loss_grad_eq_sum sqrt n_cube n_point batch_size loss in_z in_q
      in_t in_mask in_pos pcd0 idx0 gpcd0 G0 (s * 4 + 0)).2.1 (by omega),
    (compute_coverage_select_loss_grad_eq_sum sqrt n_cube n_point batch_size loss in_z in_q
      in_t in_mask in_pos pcd0 idx0 gpcd0 G0 (s * 4 + 1)).2.1 (by omega),
    (compute_coverage_select_loss_grad_eq_sum sqrt n_cube n_point batch_size loss in_z in_q
      in_t in_mask in_pos pcd0 idx0 gpcd0 G0 (s * 4 + 2)).2.1 (by omega),
    (compute_coverage_select_loss_grad_eq_sum sqrt n_cube n_point batch_size loss in_z in_q
      in_t in_mask in_pos pcd0 idx0 gpcd0 G0 (s * 4 + 3)).2.1 (by omega)]
  simp only [Finset.mul_sum, ← Finset.sum_add_distrib]
  apply Finset.sum_eq_zero
  intro index _
  have hc := (pair_contribution_slot sqrt n_cube n_point in_z in_q in_t in_mask in_pos
    (routed_gradient sqrt n_cube n_point loss in_z in_q in_t in_mask in_pos pcd0 idx0 gpcd0)
    index s).2.1
  rw [hc 0 (by omega), hc 1 (by omega), hc 2 (by omega), hc 3 (by omega)]
  split_ifs
  · have ho := pair_grad_q_orthogonal sqrt (vec3_at in_z s) (quat_at in_q s) (vec3_at in_t s)
      (point_at n_point in_pos (index / n_cube))
      (routed_gradient sqrt n_cube n_point loss in_z in_q in_t in_mask in_pos pcd0 idx0 gpcd0
        index)
    simp only [quat_get, quat_at] at ho ⊢
    simpa using ho
  · simp

/-- C21 at a concrete input over the reals: the point `(2,0,0)` and one active unit box at the
origin with identity orientation, upstream gradient `1`. -/
theorem C21_orientation_gradient_orthogonal_witness :
    (∀ (m : Mat9 ℝ) (q : Quat ℝ), q ≠ ⟨0, 0, 0, 0⟩ →
      q.w * (grad_rotation_matrix_to_quaternion m q).w +
        q.x * (grad_rotation_matrix_to_quaternion m q).x +
        q.y * (grad_rotation_matrix_to_quaternion m q).y +
        q.z * (grad_rotation_matrix_to_quaternion m q).z = 0) ∧
    identity_q (0 * 4 + 0) *
        (compute_coverage_select_loss_grad Real.sqrt 1 1 1 1 (fun _ => 1) identity_q (fun _ => 0)
          (fun _ => 1) (point_on_x_axis 2) (fun _ => 7) (fun _ => 5) (fun _ => 4)
          ⟨fun _ => 1, fun _ => 2, fun _ => 3⟩).grad_q (0 * 4 + 0) +
      identity_q (0 * 4 + 1) *
        (compute_coverage_select_loss_grad Real.sqrt 1 1 1 1 (fun _ => 1) identity_q (fun _ => 0)
          (fun _ => 1) (point_on_x_axis 2) (fun _ => 7) (fun _ => 5) (fun _ => 4)
          ⟨fun _ => 1, fun _ => 2, fun _ => 3⟩).grad_q (0 * 4 + 1) +
      identity_q (0 * 4 + 2) *
        (compute_coverage_select_loss_grad Real.sqrt 1 1 1 1 (fun _ => 1) identity_q (fun _ => 0)
          (fun _ => 1) (point_on_x_axis 2) (fun _ => 7) (fun _ => 5) (fun _ => 4)
          ⟨fun _ => 1, fun _ => 2, fun _ => 3⟩).grad_q (0 * 4 + 2) +
      identity_q (0 * 4 + 3) *
        (compute_coverage_select_loss_grad Real.sqrt 1 1 1 1 (fun _ => 1) identity_q (fun _ => 0)
          (fun _ => 1) (point_on_x_axis 2) (fun _ => 7) (fun _ => 5) (fun _ => 4)
          ⟨fun _ => 1, fun _ => 2, fun _ => 3⟩).grad_q (0 * 4 + 3) = 0 :=
  C21_orientation_gradient_orthogonal Real.sqrt 1 1 1 1 (fun _ => 1) identity_q (fun _ => 0)
    (fun _ => 1) (point_on_x_axis 2) (fun _ => 7) (fun _ => 5) (fun _ => 4)
    ⟨fun _ => 1, fun _ => 2, fun _ => 3⟩ 0 (by decide) (by simp [quat_at, identity_q])

end Claims

/-! ## Lemmas on binary32 arithmetic -/

namespace F32

variable {r : ℚ → ℚ}

theorem OVERFLOW_pos : (0 : ℚ) < OVERFLOW := by
  unfold OVERFLOW
  norm_num

theorem zero_def : (0 : F32 r) = fin 0 := by
  show fin ((0 : Nat) : ℚ) = fin 0
  simp

theorem one_def : (1 : F32 r) = fin 1 := by
  show fin ((1 : Nat) : ℚ) = fin 1
  simp

theorem two_def : (2 : F32 r) = fin 2 := by
  show fin ((2 : Nat) : ℚ) = fin 2
  simp

theorem four_def : (4 : F32 r) = fin 4 := by
  show fin ((4 : Nat) : ℚ) = fin 4
  simp

theorem fin_add_fin (x y : ℚ) : (fin x + fin y : F32 r) = round r (x + y) := rfl

theorem fin_sub_fin (x y : ℚ) : (fin x - fin y : F32 r) = round r (x + -y) := rfl

theorem fin_mul_fin (x y : ℚ) : (fin x * fin y : F32 r) = round r (x * y) := rfl

theorem neg_fin (x : ℚ) : (-(fin x) : F32 r) = fin (-x) := rfl

theorem abs_fin (x : ℚ) : abs (fin x : F32 r) = fin |x| := rfl

theorem lt_iff (a b : F32 r) : a < b ↔ lt a b = true := Iff.rfl

theorem le_iff (a b : F32 r) : a ≤ b ↔ le a b = true := Iff.rfl

theorem round_of_lt {x : ℚ} (h1 : x < OVERFLOW) (h2 : -OVERFLOW < x) :
    round r x = fin (r x) := by
  unfold round
  rw [if_neg (not_le.mpr h1), if_neg (not_le.mpr h2)]

theorem round_zero (h0 : r 0 = 0) : round r 0 = (0 : F32 r) := by
  rw [round_of_lt OVERFLOW_pos (by linarith [OVERFLOW_pos]), h0, zero_def]

theorem neg_zero_eq : (-(0 : F32 r)) = 0 := by
  rw [zero_def, neg_fin, neg_zero]

theorem zero_add_zero (h0 : r 0 = 0) : (0 : F32 r) + 0 = 0 := by
  rw [zero_def, fin_add_fin, add_zero, ← zero_def]
  exact round_zero h0

theorem zero_mul_of_isFinite (h0 : r 0 = 0) {a : F32 r} (ha : IsFinite a) : (0 : F32 r) * a = 0 := by
  obtain ⟨x, rfl⟩ := ha
  rw [zero_def, fin_mul_fin, zero_mul, ← zero_def]
  exact round_zero h0

theorem mul_zero_of_isFinite (h0 : r 0 = 0) {a : F32 r} (ha : IsFinite a) : a * (0 : F32 r) = 0 := by
  obtain ⟨x, rfl⟩ := ha
  rw [zero_def, fin_mul_fin, mul_zero, ← zero_def]
  exact round_zero h0

theorem isFinite_fin (x : ℚ) : IsFinite (fin x : F32 r) := ⟨x, rfl⟩

theorem isFinite_zero : IsFinite (0 : F32 r) := ⟨0, zero_def⟩

theorem isFinite_of_add {a b : F32 r} (h : IsFinite (a + b)) : IsFinite a ∧ IsFinite b := by
  obtain ⟨x, hx⟩ := h
  change add a b = fin x at hx
  cases a <;> cases b <;> first
    | exact ⟨isFinite_fin _, isFinite_fin _⟩
    | (simp [add] at hx)

theorem isFinite_of_mul {a b : F32 r} (h : IsFinite (a * b)) : IsFinite a ∧ IsFinite b := by
  obtain ⟨x, hx⟩ := h
  change mul a b = fin x at hx
  cases a <;> cases b <;> first
    | exact ⟨isFinite_fin _, isFinite_fin _⟩
    | (simp only [mul] at hx; split_ifs at hx)
    | (simp [mul] at hx)

theorem fin_div_fin (x y : ℚ) (hy : y ≠ 0) : (fin x / fin y : F32 r) = round r (x / y) := by
  show div (fin x) (fin y) = _
  simp [div, hy]

theorem round_one (h1 : r 1 = 1) : round r 1 = (1 : F32 r) := by
  rw [round_of_lt (by unfold OVERFLOW; norm_num) (by unfold OVERFLOW; norm_num), h1, one_def]

theorem nonneg_of_roundedNonneg {a : F32 r} (h : RoundedNonneg a) : (0 : F32 r) ≤ a := by
  rw [le_iff, zero_def]
  rcases h with rfl | ⟨x, rfl, hx, _⟩
  · rfl
  · simpa [le] using hx

theorem roundedNonneg_zero (hr : IsRounding r) : RoundedNonneg (0 : F32 r) :=
  Or.inr ⟨0, zero_def, le_refl _, hr.zero⟩

theorem roundedNonneg_round (hr : IsRounding r) {x : ℚ} (hx : 0 ≤ x) :
    RoundedNonneg (round r x) := by
  unfold round
  split_ifs with h1 h2
  · exact Or.inl rfl
  · linarith [OVERFLOW_pos]
  · refine Or.inr ⟨r x, rfl, ?_, hr.idem x⟩
    have := hr.mono 0 x hx
    rwa [hr.zero] at this

theorem round_eq_zero_iff {x : ℚ} (hx : 0 ≤ x) :
    round r x = (0 : F32 r) ↔ x < OVERFLOW ∧ r x = 0 := by
  unfold round
  rw [zero_def]
  split_ifs with h1 h2
  · simp only [reduceCtorEq, false_iff, not_and]
    intro h; linarith
  · linarith [OVERFLOW_pos]
  · simp only [fin.injEq]
    exact ⟨fun h => ⟨not_le.mp h1, h⟩, fun h => h.2⟩

theorem roundedNonneg_add (hr : IsRounding r) {a b : F32 r} (ha : RoundedNonneg a)
    (hb : RoundedNonneg b) : RoundedNonneg (a + b) ∧ (a + b = 0 ↔ a = 0 ∧ b = 0) := by
  rcases ha with rfl | ⟨x, rfl, hx, hrx⟩
  · rcases hb with rfl | ⟨y, rfl, hy, hry⟩
    · refine ⟨Or.inl rfl, ?_⟩
      show add pinf pinf = 0 ↔ _
      simp [add, zero_def]
    · refine ⟨Or.inl rfl, ?_⟩
      show add pinf (fin y) = 0 ↔ _
      simp [add, zero_def]
  · rcases hb with rfl | ⟨y, rfl, hy, hry⟩
    · refine ⟨Or.inl rfl, ?_⟩
      show add (fin x) pinf = 0 ↔ _
      simp [add, zero_def]
    · rw [fin_add_fin]
      refine ⟨roundedNonneg_round hr (add_nonneg hx hy), ?_⟩
      rw [round_eq_zero_iff (add_nonneg hx hy)]
      constructor
      · rintro ⟨_, h0⟩
        have h1 := hr.mono x (x + y) (by linarith)
        have h2 := hr.mono y (x + y) (by linarith)
        rw [hrx, h0] at h1
        rw [hry, h0] at h2
        rw [zero_def, le_antisymm h1 hx, le_antisymm h2 hy]
        exact ⟨rfl, rfl⟩
      · rintro ⟨h1, h2⟩
        rw [zero_def] at h1 h2
        injection h1 with h1
        injection h2 with h2
        subst h1 h2
        rw [add_zero]
        exact ⟨OVERFLOW_pos, hr.zero⟩

theorem nonneg_cases {a : F32 r} (h : (0 : F32 r) ≤ a) :
    a = pinf ∨ ∃ x : ℚ, a = fin x ∧ 0 ≤ x := by
  rw [le_iff, zero_def] at h
  cases a with
  | fin x => exact Or.inr ⟨x, rfl, by simpa [le] using h⟩
  | pinf => exact Or.inl rfl
  | ninf => simp [le] at h
  | nan => simp [le] at h

theorem roundedNonneg_mul_self (hr : IsRounding r) {a : F32 r} (ha : (0 : F32 r) ≤ a) :
    RoundedNonneg (a * a) := by
  rcases nonneg_cases ha with rfl | ⟨x, rfl, _⟩
  · exact Or.inl rfl
  · rw [fin_mul_fin]
    exact roundedNonneg_round hr (mul_self_nonneg x)

theorem roundedNonneg_div (hr : IsRounding r) {a : F32 r} (ha : (0 : F32 r) ≤ a) {y : ℚ}
    (hy : 0 < y) : RoundedNonneg (a / fin y) := by
  rcases nonneg_cases ha with rfl | ⟨x, rfl, hx⟩
  · left
    show div pinf (fin y) = pinf
    simp [div, le_of_lt hy]
  · rw [fin_div_fin x y (ne_of_gt hy)]
    exact roundedNonneg_round hr (div_nonneg hx (le_of_lt hy))

theorem zero_div_fin (hr : IsRounding r) {y : ℚ} (hy : y ≠ 0) : (0 : F32 r) / fin y = 0 := by
  rw [zero_def, fin_div_fin 0 y hy, zero_div, ← zero_def]
  exact round_zero hr.zero

theorem of_int_pos (hr : IsRounding r) {n : Nat} (h1 : 1 ≤ n) (h2 : n < 2 ^ 31) :
    ∃ y : ℚ, (of_int n : F32 r) = fin y ∧ 0 < y := by
  have hn1 : (1 : ℚ) ≤ (n : ℚ) := by exact_mod_cast h1
  have hn2 : (n : ℚ) < 2 ^ 31 := by exact_mod_cast h2
  refine ⟨r n, ?_, ?_⟩
  · unfold of_int
    apply round_of_lt
    · unfold OVERFLOW
      calc (n : ℚ) < 2 ^ 31 := hn2
        _ ≤ 2 ^ 128 - 2 ^ 103 := by norm_num
    · linarith [OVERFLOW_pos]
  · have := hr.mono 1 n hn1
    rw [hr.one] at this
    linarith

end F32

/-! ## Lemmas on the kernels over binary32 -/

namespace Binary32

variable {r : ℚ → ℚ}

theorem f32_CudaAtomicAdd_of_ne (buf : Nat → F32 r) (j : Nat) (v : F32 r) (i : Nat) (h : i ≠ j) :
    CudaAtomicAdd buf j v i = buf i := by
  unfold CudaAtomicAdd
  exact Function.update_noteq h _ _

theorem f32_CudaAtomicAdd_zero (h0 : r 0 = 0) (buf : Nat → F32 r) (j i : Nat) (hb : buf i = 0) :
    CudaAtomicAdd buf j 0 i = 0 := by
  unfold CudaAtomicAdd
  by_cases h : i = j
  · subst h
    rw [Function.update_same, hb]
    exact F32.zero_add_zero h0
  · rw [Function.update_noteq h, hb]

theorem f32_axis_add_of_ne (MAX : F32 r → F32 r → F32 r) (buf : Nat → F32 r) (j : Nat)
    (l z g : F32 r) (i : Nat) (h : i ≠ j) : axis_add MAX buf j l z g i = buf i := by
  unfold axis_add
  split_ifs
  · exact f32_CudaAtomicAdd_of_ne _ _ _ _ h
  · rfl

theorem f32_zero_mul_two (h0 : r 0 = 0) : (0 : F32 r) * 2 = 0 :=
  F32.zero_mul_of_isFinite h0 ⟨2, F32.two_def⟩

theorem f32_axis_add_zero (h0 : r 0 = 0) (MAX : F32 r → F32 r → F32 r) (buf : Nat → F32 r)
    (j : Nat) (l z : F32 r) (i : Nat) (hd : F32.IsFinite (overshoot MAX l z)) (hb : buf i = 0) :
    axis_add MAX buf j l z 0 i = 0 := by
  unfold axis_add
  split_ifs
  · rw [f32_zero_mul_two h0, F32.zero_mul_of_isFinite h0 hd, F32.neg_zero_eq]
    exact f32_CudaAtomicAdd_zero h0 _ _ _ hb
  · exact hb

theorem f32_isFinite_SIGN (a : F32 r) : F32.IsFinite (SIGN a) := by
  unfold SIGN
  split_ifs
  · exact ⟨1, F32.one_def⟩
  · exact ⟨-1, by rw [F32.one_def, F32.neg_fin]⟩

theorem f32_axis_grad_zero (h0 : r 0 = 0) (MAX : F32 r → F32 r → F32 r) (l z : F32 r)
    (hd : F32.IsFinite (overshoot MAX l z)) : axis_grad MAX l z 0 = 0 := by
  unfold axis_grad
  split_ifs
  · rw [f32_zero_mul_two h0, F32.zero_mul_of_isFinite h0 hd,
      F32.zero_mul_of_isFinite h0 (f32_isFinite_SIGN l)]
  · rfl

theorem f32_clipped_grad_zero (h0 : r 0 = 0) (MAX : F32 r → F32 r → F32 r) (z l : Vec3 (F32 r))
    (hd : Finite3 (overshoots MAX z l)) : clipped_grad MAX z l 0 = ⟨0, 0, 0⟩ := by
  unfold clipped_grad
  rw [f32_axis_grad_zero h0 MAX _ _ hd.1, f32_axis_grad_zero h0 MAX _ _ hd.2.1,
    f32_axis_grad_zero h0 MAX _ _ hd.2.2]

theorem f32_outer_zero (h0 : r 0 = 0) (v : Vec3 (F32 r)) (hv : Finite3 v) :
    outer ⟨0, 0, 0⟩ v = zero_matrix := by
  unfold outer zero_matrix
  simp only [F32.zero_mul_of_isFinite h0 hv.1, F32.zero_mul_of_isFinite h0 hv.2.1,
    F32.zero_mul_of_isFinite h0 hv.2.2]

/-- Finite local coordinates come from a finite rotation matrix and a finite centred point. -/
theorem f32_finite_of_matvec (m : Mat9 (F32 r)) (v : Vec3 (F32 r))
    (h : Finite3 (matvec_kernel m v)) :
    Finite3 v ∧ F32.IsFinite m.m0 ∧ F32.IsFinite m.m1 ∧ F32.IsFinite m.m2 ∧ F32.IsFinite m.m3 ∧
      F32.IsFinite m.m4 ∧ F32.IsFinite m.m5 ∧ F32.IsFinite m.m6 ∧ F32.IsFinite m.m7 ∧
      F32.IsFinite m.m8 := by
  obtain ⟨hx, hy, hz⟩ := h
  simp only [matvec_kernel] at hx hy hz
  obtain ⟨hx1, hx2⟩ := F32.isFinite_of_add hx
  obtain ⟨hx3, hx4⟩ := F32.isFinite_of_add hx1
  obtain ⟨hy1, hy2⟩ := F32.isFinite_of_add hy
  obtain ⟨hy3, hy4⟩ := F32.isFinite_of_add hy1
  obtain ⟨hz1, hz2⟩ := F32.isFinite_of_add hz
  obtain ⟨hz3, hz4⟩ := F32.isFinite_of_add hz1
  exact ⟨⟨(F32.isFinite_of_mul hx3).2, (F32.isFinite_of_mul hx4).2, (F32.isFinite_of_mul hx2).2⟩,
    (F32.isFinite_of_mul hx3).1, (F32.isFinite_of_mul hx4).1, (F32.isFinite_of_mul hx2).1,
    (F32.isFinite_of_mul hy3).1, (F32.isFinite_of_mul hy4).1, (F32.isFinite_of_mul hy2).1,
    (F32.isFinite_of_mul hz3).1, (F32.isFinite_of_mul hz4).1, (F32.isFinite_of_mul hz2).1⟩

theorem f32_t_matvec_zero (h0 : r 0 = 0) (m : Mat9 (F32 r))
    (hm : F32.IsFinite m.m0 ∧ F32.IsFinite m.m1 ∧ F32.IsFinite m.m2 ∧ F32.IsFinite m.m3 ∧
      F32.IsFinite m.m4 ∧ F32.IsFinite m.m5 ∧ F32.IsFinite m.m6 ∧ F32.IsFinite m.m7 ∧
      F32.IsFinite m.m8) :
    t_matvec_kernel m ⟨0, 0, 0⟩ = ⟨0, 0, 0⟩ := by
  obtain ⟨h0', h1, h2, h3, h4, h5, h6, h7, h8⟩ := hm
  simp only [t_matvec_kernel, F32.mul_zero_of_isFinite h0 h0', F32.mul_zero_of_isFinite h0 h1,
    F32.mul_zero_of_isFinite h0 h2, F32.mul_zero_of_isFinite h0 h3,
    F32.mul_zero_of_isFinite h0 h4, F32.mul_zero_of_isFinite h0 h5,
    F32.mul_zero_of_isFinite h0 h6, F32.mul_zero_of_isFinite h0 h7,
    F32.mul_zero_of_isFinite h0 h8, F32.zero_add_zero h0]

/-- The orientation and translation contributions of a pair with routed gradient zero are zero
when the pair's local coordinates and overshoots are finite and the quaternion back-propagation
of the zero matrix is zero. -/
theorem f32_pair_grad_zero (h0 : r 0 = 0) (sqrt : F32 r → F32 r) (MAX : F32 r → F32 r → F32 r)
    (z : Vec3 (F32 r)) (q : Quat (F32 r)) (t pos : Vec3 (F32 r))
    (hl : Finite3 (local_coords sqrt q t pos))
    (hd : Finite3 (overshoots MAX z (local_coords sqrt q t pos)))
    (hq : grad_rotation_matrix_to_quaternion zero_matrix (conjugate q) = ⟨0, 0, 0, 0⟩) :
    pair_grad_q sqrt MAX z q t pos 0 = ⟨0, 0, 0, 0⟩ ∧
      pair_grad_t sqrt MAX z q t pos 0 = ⟨0, 0, 0⟩ := by
  have hfin := f32_finite_of_matvec _ _ hl
  constructor
  · unfold pair_grad_q
    rw [f32_clipped_grad_zero h0 MAX _ _ hd, f32_outer_zero h0 _ hfin.1, hq]
    simp only [conjugate, F32.neg_zero_eq]
  · unfold pair_grad_t
    rw [f32_clipped_grad_zero h0 MAX _ _ hd]
    exact f32_t_matvec_zero h0 _ hfin.2

/-- One thread of `fill_grad_wrt_zqt` in terms of the contributions of its pair. -/
theorem f32_fill_grad_wrt_zqt_thread_eq (sqrt : F32 r → F32 r) (MAX : F32 r → F32 r → F32 r)
    (n_cube n_point : Nat) (in_z in_q in_t : Nat → F32 r) (in_mask : Nat → Int)
    (in_pos : Nat → F32 r) (gpcd : Nat → F32 r) (index : Nat) (G : GradBufs (F32 r)) (s : Nat)
    (l : Vec3 (F32 r)) (g : F32 r) (gq : Quat (F32 r)) (gt : Vec3 (F32 r))
    (hs : s = slot_of n_cube n_point in_pos (index / n_cube) (index % n_cube))
    (hl : l = local_coords sqrt (quat_at in_q s) (vec3_at in_t s)
      (point_at n_point in_pos (index / n_cube)))
    (hg : g = gpcd (index / n_cube * n_cube + index % n_cube))
    (hgq : gq = pair_grad_q sqrt MAX (vec3_at in_z s) (quat_at in_q s) (vec3_at in_t s)
      (point_at n_point in_pos (index / n_cube)) g)
    (hgt : gt = pair_grad_t sqrt MAX (vec3_at in_z s) (quat_at in_q s) (vec3_at in_t s)
      (point_at n_point in_pos (index / n_cube)) g) :
    fill_grad_wrt_zqt_thread sqrt MAX n_cube n_point in_z in_q in_t in_mask in_pos gpcd index G =
      if in_mask s = 1 then
        ⟨axis_add MAX (axis_add MAX (axis_add MAX G.grad_z (s * 3 + 0) l.x (in_z (s * 3 + 0)) g)
            (s * 3 + 1) l.y (in_z (s * 3 + 1)) g) (s * 3 + 2) l.z (in_z (s * 3 + 2)) g,
          CudaAtomicAdd (CudaAtomicAdd (CudaAtomicAdd (CudaAtomicAdd G.grad_q (s * 4 + 0) gq.w)
            (s * 4 + 1) gq.x) (s * 4 + 2) gq.y) (s * 4 + 3) gq.z,
          CudaAtomicAdd (CudaAtomicAdd (CudaAtomicAdd G.grad_t (s * 3 + 0) (-gt.x))
            (s * 3 + 1) (-gt.y)) (s * 3 + 2) (-gt.z)⟩
      else G := by
  subst hs hl hg hgq hgt
  rfl

theorem f32_not_lt_zero_of_nonneg {a : F32 r} (h : (0 : F32 r) ≤ a) : ¬ a < 0 := by
  rw [F32.lt_iff, F32.zero_def]
  rcases F32.nonneg_cases h with rfl | ⟨x, rfl, hx⟩
  · simp [F32.lt]
  · simp [F32.lt, hx]

theorem f32_eq_zero_of_not_pos {a : F32 r} (h : (0 : F32 r) ≤ a) (h2 : ¬ (0 : F32 r) < a) :
    a = 0 := by
  rw [F32.lt_iff, F32.zero_def] at h2
  rcases F32.nonneg_cases h with rfl | ⟨x, rfl, hx⟩
  · simp [F32.lt] at h2
  · simp only [F32.lt, decide_eq_true_eq, not_lt] at h2
    rw [F32.zero_def, le_antisymm h2 hx]

/-- Invariant of the strict-less-than scan after the indices `1 .. k` have been visited. -/
theorem f32_scan_invariant (d : Nat → F32 r) (k : Nat) :
    let st := (List.range' 1 k).foldl
      (fun (st : F32 r × Nat) i => if d i < st.1 then (d i, i) else st) (d 0, 0)
    st.2 < k + 1 ∧ st.1 = d st.2 ∧
      ((∀ j, j < k + 1 → (0 : F32 r) ≤ d j) → ∀ j, j < k + 1 → d j = 0 → st.1 = 0) := by
  induction k with
  | zero =>
    simp only [List.range'_zero, List.foldl_nil]
    refine ⟨by omega, trivial, ?_⟩
    intro _ j hj hdj
    have : j = 0 := by omega
    subst this
    exact hdj
  | succ k ih =>
    simp only [List.range'_1_concat, List.foldl_append, List.foldl_cons, List.foldl_nil]
    simp only at ih
    obtain ⟨h1, h2, h3⟩ := ih
    split_ifs with hlt
    · refine ⟨by simp; omega, rfl, ?_⟩
      intro hnn j hj hdj
      by_cases hjk : j = 1 + k
      · subst hjk; exact hdj
      · have hz := h3 (fun i hi => hnn i (by omega)) j (by omega) hdj
        rw [hz] at hlt
        exact absurd hlt (f32_not_lt_zero_of_nonneg (hnn (1 + k) (by omega)))
    · refine ⟨by omega, h2, ?_⟩
      intro hnn j hj hdj
      by_cases hjk : j = 1 + k
      · subst hjk
        rw [hdj] at hlt
        refine f32_eq_zero_of_not_pos ?_ hlt
        rw [h2]
        exact hnn _ (by omega)
      · exact h3 (fun i hi => hnn i (by omega)) j (by omega) hdj

/-- Specification of the scan of one row of length `n_cube ≥ 1`: the result is an index of the
row, and it is the index of a zero when the row has no negative entry and no NaN and has a zero. -/
theorem f32_scan_spec (n_cube : Nat) (d : Nat → F32 r) (hn : 1 ≤ n_cube) :
    (get_min_distance_cube_index_scan n_cube d).2 < n_cube ∧
      ((∀ j, j < n_cube → (0 : F32 r) ≤ d j) → ∀ j, j < n_cube → d j = 0 →
        d (get_min_distance_cube_index_scan n_cube d).2 = 0) := by
  have h := f32_scan_invariant d (n_cube - 1)
  simp only at h
  obtain ⟨h1, h2, h3⟩ := h
  have hk : n_cube - 1 + 1 = n_cube := by omega
  rw [hk] at h1 h3
  unfold get_min_distance_cube_index_scan
  refine ⟨h1, ?_⟩
  intro hnn j hj hdj
  rw [← h2]
  exact h3 hnn j hj hdj

/-- Cell `index` of the selection vector after the kernel `get_min_distance_cube_index`. -/
theorem f32_get_min_distance_cube_index_apply (nthreads n_cube : Nat) (D : Nat → F32 r)
    (idx0 : Nat → Nat) (index : Nat) (hi : index < nthreads) :
    get_min_distance_cube_index nthreads n_cube D idx0 index =
      (get_min_distance_cube_index_scan n_cube (fun i => D (index * n_cube + i))).2 := by
  unfold get_min_distance_cube_index
  rw [kernel_loop_write nthreads
    (fun index => (get_min_distance_cube_index_scan n_cube (fun i => D (index * n_cube + i))).2)
    (get_min_distance_cube_index_thread n_cube D) (fun _ _ => rfl)]
  simp [hi]

/-- Cells of the routed-gradient buffer after the first `n` threads of
`fill_grad_point_cube_distance`. -/
theorem f32_fill_grad_point_cube_distance_loop (n n_cube n_point : Nat) (g : F32 r)
    (sel : Nat → Nat) (B : Nat → F32 r) (hsel : ∀ p, p < n → sel p < n_cube) (p c : Nat)
    (hc : c < n_cube) :
    CUDA_1D_KERNEL_LOOP n (fill_grad_point_cube_distance_thread n_cube n_point g sel) B
        (p * n_cube + c) =
      if p < n ∧ c = sel p then g / F32.of_int n_point else B (p * n_cube + c) := by
  induction n with
  | zero => simp [kernel_loop_zero]
  | succ n ih =>
    have hthread : ∀ (i : Nat) (B' : Nat → F32 r),
        fill_grad_point_cube_distance_thread n_cube n_point g sel i B' =
          Function.update B' (i * n_cube + sel i) (g / F32.of_int n_point) := fun _ _ => rfl
    rw [kernel_loop_succ, hthread]
    have hseln : sel n < n_cube := hsel n (by omega)
    by_cases h : p * n_cube + c = n * n_cube + sel n
    · obtain ⟨hpn, hcs⟩ := pair_index_inj hc hseln h
      subst hpn
      rw [h, Function.update_same, if_pos ⟨by omega, hcs⟩]
    · rw [Function.update_noteq h, ih (fun q hq => hsel q (by omega))]
      by_cases hp : p < n
      · have : p < n + 1 := by omega
        simp [hp, this]
      · have hne : ¬ (p < n + 1 ∧ c = sel p) := by
          rintro ⟨h1, h2⟩
          have : p = n := by omega
          subst this
          exact h (by rw [h2])
        simp [hp, hne]

/-- A thread of `fill_grad_wrt_zqt` leaves the cells of slot `s` at zero when its pair belongs to
another slot, or the slot is inactive, or the pair has routed gradient zero and finite
intermediate values. -/
theorem f32_thread_keeps_zero (h0 : r 0 = 0) (sqrt : F32 r → F32 r)
    (MAX : F32 r → F32 r → F32 r) (n_cube n_point : Nat) (in_z in_q in_t : Nat → F32 r)
    (in_mask : Nat → Int) (in_pos : Nat → F32 r) (gpcd : Nat → F32 r) (index : Nat)
    (G : GradBufs (F32 r)) (s : Nat)
    (hG : (∀ k, k < 3 → G.grad_z (s * 3 + k) = 0) ∧ (∀ j, j < 4 → G.grad_q (s * 4 + j) = 0) ∧
      (∀ k, k < 3 → G.grad_t (s * 3 + k) = 0))
    (hcase : slot_of n_cube n_point in_pos (index / n_cube) (index % n_cube) ≠ s ∨
      in_mask s ≠ 1 ∨
      (gpcd (index / n_cube * n_cube + index % n_cube) = 0 ∧
        Finite3 (local_coords sqrt (quat_at in_q s) (vec3_at in_t s)
          (point_at n_point in_pos (index / n_cube))) ∧
        Finite3 (overshoots MAX (vec3_at in_z s) (local_coords sqrt (quat_at in_q s)
          (vec3_at in_t s) (point_at n_point in_pos (index / n_cube)))) ∧
        grad_rotation_matrix_to_quaternion zero_matrix (conjugate (quat_at in_q s)) =
          ⟨0, 0, 0, 0⟩)) :
    (∀ k, k < 3 →
      (fill_grad_wrt_zqt_thread sqrt MAX n_cube n_point in_z in_q in_t in_mask in_pos gpcd index
        G).grad_z (s * 3 + k) = 0) ∧
    (∀ j, j < 4 →
      (fill_grad_wrt_zqt_thread sqrt MAX n_cube n_point in_z in_q in_t in_mask in_pos gpcd index
        G).grad_q (s * 4 + j) = 0) ∧
    (∀ k, k < 3 →
      (fill_grad_wrt_zqt_thread sqrt MAX n_cube n_point in_z in_q in_t in_mask in_pos gpcd index
        G).grad_t (s * 3 + k) = 0) := by
  obtain ⟨hz, hq, ht⟩ := hG
  rw [f32_fill_grad_wrt_zqt_thread_eq sqrt MAX n_cube n_point in_z in_q in_t in_mask in_pos gpcd
    index G _ _ _ _ _ rfl rfl rfl rfl rfl]
  by_cases hs : slot_of n_cube n_point in_pos (index / n_cube) (index % n_cube) = s
  · rw [hs]
    by_cases hm : in_mask s = 1
    · rcases hcase with h | h | ⟨hg, hl, hd, hgq⟩
      · exact absurd hs h
      · exact absurd hm h
      · obtain ⟨e1, e2⟩ := f32_pair_grad_zero h0 sqrt MAX (vec3_at in_z s) (quat_at in_q s)
          (vec3_at in_t s) (point_at n_point in_pos (index / n_cube)) hl hd hgq
        rw [if_pos hm, hg, e1, e2]
        simp only [F32.neg_zero_eq]
        refine ⟨fun k hk => ?_, fun j hj => ?_, fun k hk => ?_⟩
        · exact f32_axis_add_zero h0 MAX _ _ _ _ _ hd.2.2
            (f32_axis_add_zero h0 MAX _ _ _ _ _ hd.2.1
              (f32_axis_add_zero h0 MAX _ _ _ _ _ hd.1 (hz k hk)))
        · exact f32_CudaAtomicAdd_zero h0 _ _ _ (f32_CudaAtomicAdd_zero h0 _ _ _
            (f32_CudaAtomicAdd_zero h0 _ _ _ (f32_CudaAtomicAdd_zero h0 _ _ _ (hq j hj))))
        · exact f32_CudaAtomicAdd_zero h0 _ _ _ (f32_CudaAtomicAdd_zero h0 _ _ _
            (f32_CudaAtomicAdd_zero h0 _ _ _ (ht k hk)))
    · rw [if_neg hm]
      exact ⟨hz, hq, ht⟩
  · generalize slot_of n_cube n_point in_pos (index / n_cube) (index % n_cube) = s' at hs ⊢
    split_ifs
    · dsimp only
      refine ⟨fun k hk => ?_, fun j hj => ?_, fun k hk => ?_⟩
      · rw [f32_axis_add_of_ne _ _ _ _ _ _ _ (by omega), f32_axis_add_of_ne _ _ _ _ _ _ _ (by omega),
          f32_axis_add_of_ne _ _ _ _ _ _ _ (by omega)]
        exact hz k hk
      · rw [f32_CudaAtomicAdd_of_ne _ _ _ _ (by omega), f32_CudaAtomicAdd_of_ne _ _ _ _ (by omega),
          f32_CudaAtomicAdd_of_ne _ _ _ _ (by omega), f32_CudaAtomicAdd_of_ne _ _ _ _ (by omega)]
        exact hq j hj
      · rw [f32_CudaAtomicAdd_of_ne _ _ _ _ (by omega), f32_CudaAtomicAdd_of_ne _ _ _ _ (by omega),
          f32_CudaAtomicAdd_of_ne _ _ _ _ (by omega)]
        exact ht k hk
    · exact ⟨hz, hq, ht⟩

/-- A loop of threads that each keep the cells of slot `s` at zero keeps them at zero. -/
theorem f32_loop_keeps_zero (n : Nat) (body : Nat → GradBufs (F32 r) → GradBufs (F32 r))
    (s : Nat)
    (hbody : ∀ index G, index < n →
      ((∀ k, k < 3 → G.grad_z (s * 3 + k) = 0) ∧ (∀ j, j < 4 → G.grad_q (s * 4 + j) = 0) ∧
        (∀ k, k < 3 → G.grad_t (s * 3 + k) = 0)) →
      ((∀ k, k < 3 → (body index G).grad_z (s * 3 + k) = 0) ∧
        (∀ j, j < 4 → (body index G).grad_q (s * 4 + j) = 0) ∧
        (∀ k, k < 3 → (body index G).grad_t (s * 3 + k) = 0)))
    (G : GradBufs (F32 r))
    (hG : (∀ k, k < 3 → G.grad_z (s * 3 + k) = 0) ∧ (∀ j, j < 4 → G.grad_q (s * 4 + j) = 0) ∧
      (∀ k, k < 3 → G.grad_t (s * 3 + k) = 0)) :
    (∀ k, k < 3 → (CUDA_1D_KERNEL_LOOP n body G).grad_z (s * 3 + k) = 0) ∧
      (∀ j, j < 4 → (CUDA_1D_KERNEL_LOOP n body G).grad_q (s * 4 + j) = 0) ∧
      (∀ k, k < 3 → (CUDA_1D_KERNEL_LOOP n body G).grad_t (s * 3 + k) = 0) := by
  induction n with
  | zero => rw [kernel_loop_zero]; exact hG
  | succ n ih =>
    rw [kernel_loop_succ]
    exact hbody n _ (by omega) (ih (fun index G hi => hbody index G (by omega)))

/-- Thread `index` of `fill_point_cube_distance` writes cell `index` of the matrix. -/
theorem f32_fill_point_cube_distance_thread_eq (sqrt : F32 r → F32 r)
    (MAX : F32 r → F32 r → F32 r) (n_cube n_point : Nat) (in_z in_q in_t : Nat → F32 r)
    (in_mask : Nat → Int) (in_pos : Nat → F32 r) (index : Nat) (buf : Nat → F32 r) :
    fill_point_cube_distance_thread sqrt MAX n_cube n_point in_z in_q in_t in_mask in_pos index
        buf =
      Function.update buf index
        (if in_mask (slot_of n_cube n_point in_pos (index / n_cube) (index % n_cube)) = 1 then
          box_distance MAX
            (vec3_at in_z (slot_of n_cube n_point in_pos (index / n_cube) (index % n_cube)))
            (local_coords sqrt
              (quat_at in_q (slot_of n_cube n_point in_pos (index / n_cube) (index % n_cube)))
              (vec3_at in_t (slot_of n_cube n_point in_pos (index / n_cube) (index % n_cube)))
              (point_at n_point in_pos (index / n_cube)))
        else FLT_MAX) := by
  simp only [fill_point_cube_distance_thread, slot_of, batch_of, box_distance, overshoot, vec3_at,
    quat_at, local_coords, centred, point_at, Nat.div_add_mod']
  split_ifs <;> rfl

/-- Cell `(p, c)` of the distance matrix after the kernel `fill_point_cube_distance`. -/
theorem f32_fill_point_cube_distance_apply (sqrt : F32 r → F32 r) (MAX : F32 r → F32 r → F32 r)
    (n_cube n_point : Nat) (in_z in_q in_t : Nat → F32 r) (in_mask : Nat → Int)
    (in_pos : Nat → F32 r) (pcd0 : Nat → F32 r) (p c : Nat) (hp : p < n_point)
    (hc : c < n_cube) :
    fill_point_cube_distance sqrt MAX (n_point * n_cube) n_cube n_point in_z in_q in_t in_mask
        in_pos pcd0 (p * n_cube + c) =
      if in_mask (slot_of n_cube n_point in_pos p c) = 1 then
        box_distance MAX (vec3_at in_z (slot_of n_cube n_point in_pos p c))
          (local_coords sqrt (quat_at in_q (slot_of n_cube n_point in_pos p c))
            (vec3_at in_t (slot_of n_cube n_point in_pos p c)) (point_at n_point in_pos p))
      else FLT_MAX := by
  unfold fill_point_cube_distance
  rw [kernel_loop_write (n_point * n_cube) _
    (fill_point_cube_distance_thread sqrt MAX n_cube n_point in_z in_q in_t in_mask in_pos)
    (fun index buf => f32_fill_point_cube_distance_thread_eq sqrt MAX n_cube n_point in_z in_q
      in_t in_mask in_pos index buf)]
  rw [if_pos (pair_index_lt hp hc), pair_index_div hc, pair_index_mod hc]

/-- The rotation matrix of the identity orientation is the identity matrix. -/
theorem f32_as_rotation_matrix_identity (hr : IsRounding r) (sqrt : F32 r → F32 r)
    (hs1 : sqrt 1 = 1) :
    as_rotation_matrix sqrt (conjugate ⟨1, 0, 0, 0⟩) =
      ({ m0 := 1, m1 := 0, m2 := 0, m3 := 0, m4 := 1, m5 := 0, m6 := 0, m7 := 0, m8 := 1 } :
        Mat9 (F32 r)) := by
  have e1 : F32.round r 1 = F32.fin 1 := by rw [F32.round_one hr.one, F32.one_def]
  have e0 : F32.round r 0 = F32.fin 0 := by rw [F32.round_zero hr.zero, F32.zero_def]
  have hs : sqrt (F32.fin 1) = F32.fin 1 := by rw [← F32.one_def]; exact hs1
  simp [as_rotation_matrix, normalize, conjugate, diag, tr_add, tr_sub, F32.zero_def, F32.one_def,
    F32.two_def, F32.fin_mul_fin, F32.fin_add_fin, F32.fin_sub_fin, F32.neg_fin, F32.fin_div_fin,
    e0, e1, hs]

theorem f32_abs_sub_cases (r : ℚ → ℚ) (x y : ℚ) :
    (F32.abs (F32.fin x) - F32.fin y : F32 r) = F32.pinf ∨
      (F32.abs (F32.fin x) - F32.fin y : F32 r) = F32.ninf ∨
      ∃ v : ℚ, (F32.abs (F32.fin x) - F32.fin y : F32 r) = F32.fin v := by
  rw [F32.abs_fin, F32.fin_sub_fin]
  unfold F32.round
  split_ifs
  · exact Or.inl rfl
  · exact Or.inr (Or.inl rfl)
  · exact Or.inr (Or.inr ⟨_, rfl⟩)

/-- The overshoot of a finite coordinate over a finite half-extent is not negative and not NaN,
for both definitions of `MAX`. -/
theorem f32_overshoot_nonneg (MAX : F32 r → F32 r → F32 r) (hMAX : MAX = MAX_gt ∨ MAX = MAX_lt)
    {l z : F32 r} (hl : F32.IsFinite l) (hz : F32.IsFinite z) :
    (0 : F32 r) ≤ overshoot MAX l z := by
  obtain ⟨x, rfl⟩ := hl
  obtain ⟨y, rfl⟩ := hz
  unfold overshoot
  rcases hMAX with rfl | rfl
  · unfold MAX_gt
    rcases f32_abs_sub_cases r x y with h | h | ⟨v, h⟩ <;> rw [h] <;>
      simp only [F32.le_iff, GT.gt, F32.lt_iff, F32.zero_def, F32.lt, F32.le] <;>
      split_ifs <;> simp_all [F32.le, le_of_lt]
  · unfold MAX_lt
    rcases f32_abs_sub_cases r x y with h | h | ⟨v, h⟩ <;> rw [h] <;>
      simp only [F32.le_iff, F32.lt_iff, F32.zero_def, F32.lt, F32.le] <;>
      split_ifs <;> simp_all [F32.le]

/-- The overshoot of a coordinate that is within the half-extent is zero, for both definitions of
`MAX`. -/
theorem f32_overshoot_eq_zero (hr : IsRounding r) (MAX : F32 r → F32 r → F32 r)
    (hMAX : MAX = MAX_gt ∨ MAX = MAX_lt) {l z : F32 r} (hl : F32.IsFinite l)
    (hz : F32.IsFinite z) (hle : F32.abs l ≤ z) : overshoot MAX l z = 0 := by
  obtain ⟨x, rfl⟩ := hl
  obtain ⟨y, rfl⟩ := hz
  have hxy : |x| ≤ y := by simpa [F32.le_iff, F32.abs_fin, F32.le] using hle
  have hneg : |x| + -y ≤ 0 := by linarith
  have hv : (F32.abs (F32.fin x) - F32.fin y : F32 r) = F32.ninf ∨
      ∃ v : ℚ, (F32.abs (F32.fin x) - F32.fin y : F32 r) = F32.fin v ∧ v ≤ 0 := by
    rw [F32.abs_fin, F32.fin_sub_fin]
    unfold F32.round
    split_ifs with h1 h2
    · linarith [F32.OVERFLOW_pos]
    · exact Or.inl rfl
    · refine Or.inr ⟨_, rfl, ?_⟩
      have := hr.mono _ _ hneg
      rwa [hr.zero] at this
  unfold overshoot
  rcases hMAX with rfl | rfl
  · unfold MAX_gt
    rcases hv with h | ⟨v, h, hv0⟩ <;> rw [h] <;>
      simp only [GT.gt, F32.lt_iff, F32.zero_def, F32.lt] <;> split_ifs <;> simp_all
    linarith
  · unfold MAX_lt
    rcases hv with h | ⟨v, h, hv0⟩ <;> rw [h] <;>
      simp only [F32.lt_iff, F32.zero_def, F32.lt] <;> split_ifs <;> simp_all
    linarith

theorem f32_zero_mul_zero (hr : IsRounding r) : (0 : F32 r) * 0 = 0 :=
  F32.zero_mul_of_isFinite hr.zero F32.isFinite_zero

/-- The clipped squared box distance of finite local coordinates to a finite box is a
non-negative rounded value, and it is zero exactly when the three squares are zero. -/
theorem f32_box_distance_spec (hr : IsRounding r) (MAX : F32 r → F32 r → F32 r)
    (hMAX : MAX = MAX_gt ∨ MAX = MAX_lt) {z l : Vec3 (F32 r)} (hl : Finite3 l)
    (hz : Finite3 z) :
    F32.RoundedNonneg (box_distance MAX z l) ∧
      (box_distance MAX z l = 0 ↔
        overshoot MAX l.x z.x * overshoot MAX l.x z.x = 0 ∧
          overshoot MAX l.y z.y * overshoot MAX l.y z.y = 0 ∧
          overshoot MAX l.z z.z * overshoot MAX l.z z.z = 0) := by
  have hx := F32.roundedNonneg_mul_self hr (f32_overshoot_nonneg MAX hMAX hl.1 hz.1)
  have hy := F32.roundedNonneg_mul_self hr (f32_overshoot_nonneg MAX hMAX hl.2.1 hz.2.1)
  have hzz := F32.roundedNonneg_mul_self hr (f32_overshoot_nonneg MAX hMAX hl.2.2 hz.2.2)
  have hxy := F32.roundedNonneg_add hr hx hy
  have hxyz := F32.roundedNonneg_add hr hxy.1 hzz
  unfold box_distance
  refine ⟨hxyz.1, ?_⟩
  rw [hxyz.2, hxy.2, and_assoc]

/-- Without underflow, the clipped squared box distance is zero exactly when the point is
covered by the box. -/
theorem f32_box_distance_eq_zero_iff (hr : IsRounding r) (MAX : F32 r → F32 r → F32 r)
    (hMAX : MAX = MAX_gt ∨ MAX = MAX_lt) {z l : Vec3 (F32 r)} (hl : Finite3 l)
    (hz : Finite3 z) (hu : no_underflow MAX z l) :
    box_distance MAX z l = 0 ↔ within_box z l := by
  rw [(f32_box_distance_spec hr MAX hMAX hl hz).2]
  unfold within_box
  constructor
  · rintro ⟨h1, h2, h3⟩
    exact ⟨hu.1.resolve_right (fun h => h h1), hu.2.1.resolve_right (fun h => h h2),
      hu.2.2.resolve_right (fun h => h h3)⟩
  · rintro ⟨h1, h2, h3⟩
    rw [f32_overshoot_eq_zero hr MAX hMAX hl.1 hz.1 h1,
      f32_overshoot_eq_zero hr MAX hMAX hl.2.1 hz.2.1 h2,
      f32_overshoot_eq_zero hr MAX hMAX hl.2.2 hz.2.2 h3]
    exact ⟨f32_zero_mul_zero hr, f32_zero_mul_zero hr, f32_zero_mul_zero hr⟩

/-- A loop that adds non-negative rounded terms to an accumulator that starts at zero ends with
a non-negative rounded value, which is zero exactly when every term is zero. -/
theorem f32_loss_loop (hr : IsRounding r) (n : Nat) (t : Nat → F32 r)
    (body : Nat → F32 r → F32 r) (hbody : ∀ index acc, body index acc = acc + t index)
    (ht : ∀ p, p < n → F32.RoundedNonneg (t p)) :
    F32.RoundedNonneg (CUDA_1D_KERNEL_LOOP n body 0) ∧
      (CUDA_1D_KERNEL_LOOP n body 0 = 0 ↔ ∀ p, p < n → t p = 0) := by
  induction n with
  | zero =>
    rw [kernel_loop_zero]
    exact ⟨F32.roundedNonneg_zero hr, by simp⟩
  | succ n ih =>
    obtain ⟨ih1, ih2⟩ := ih (fun p hp => ht p (by omega))
    have hadd := F32.roundedNonneg_add hr ih1 (ht n (by omega))
    rw [kernel_loop_succ, hbody]
    refine ⟨hadd.1, ?_⟩
    rw [hadd.2, ih2]
    constructor
    · rintro ⟨h1, h2⟩ p hp
      by_cases hpn : p = n
      · subst hpn; exact h2
      · exact h1 p (by omega)
    · intro h
      exact ⟨fun p hp => h p (by omega), h n (by omega)⟩

theorem f32_FLT_MAX_ne_zero : (FLT_MAX : F32 r) ≠ 0 := by
  unfold FLT_MAX
  rw [F32.zero_def]
  intro h
  injection h with h
  norm_num at h

theorem f32_FLT_MAX_nonneg : (0 : F32 r) ≤ FLT_MAX := by
  unfold FLT_MAX
  rw [F32.le_iff, F32.zero_def]
  simp only [F32.le, decide_eq_true_eq]
  norm_num

/-- The rounding `flush_to_zero` has the properties collected in `IsRounding`. -/
theorem isRounding_flush_to_zero : IsRounding flush_to_zero := by
  have hpos : (0 : ℚ) < 1 / 2 ^ 150 := by positivity
  refine ⟨?_, ?_, ?_, ?_⟩
  · unfold flush_to_zero
    split_ifs <;> rfl
  · unfold flush_to_zero
    rw [if_neg]
    norm_num
  · intro x y hxy
    unfold flush_to_zero
    split_ifs with h1 h2 h3
    · exact le_refl _
    · rw [not_and_or, not_le, not_le] at h2
      rcases h2 with h2 | h2
      · linarith [h1.1]
      · linarith
    · rw [not_and_or, not_le, not_le] at h1
      rcases h1 with h1 | h1
      · linarith
      · linarith [h3.2]
    · exact hxy
  · intro x
    by_cases h : -(1 / 2 ^ 150) ≤ x ∧ x ≤ 1 / 2 ^ 150
    · have e : flush_to_zero x = 0 := if_pos h
      rw [e]
      unfold flush_to_zero
      split_ifs <;> rfl
    · have e : flush_to_zero x = x := if_neg h
      rw [e, e]

theorem f32_round_flush {x : ℚ} (h : ¬ (-(1 / 2 ^ 150) ≤ x ∧ x ≤ 1 / 2 ^ 150))
    (h1 : x < F32.OVERFLOW) (h2 : -F32.OVERFLOW < x) :
    F32.round flush_to_zero x = F32.fin x := by
  rw [F32.round_of_lt h1 h2]
  unfold flush_to_zero
  rw [if_neg h]

theorem f32_round_flush_small {x : ℚ} (h : -(1 / 2 ^ 150) ≤ x ∧ x ≤ 1 / 2 ^ 150) :
    F32.round flush_to_zero x = F32.fin 0 := by
  have hpos : (0 : ℚ) < 1 / 2 ^ 150 := by positivity
  have hbig : (1 : ℚ) / 2 ^ 150 < F32.OVERFLOW := by unfold F32.OVERFLOW; norm_num
  rw [F32.round_of_lt (by linarith [h.2]) (by linarith [h.1])]
  unfold flush_to_zero
  rw [if_pos h]

theorem f32_round_overflow {x : ℚ} (h : F32.OVERFLOW ≤ x) : F32.round r x = F32.pinf := by
  unfold F32.round
  rw [if_pos h]

theorem f32_static_cast_int_zero : F32.static_cast_int (0 : F32 r) = 0 := by
  rw [F32.zero_def]
  simp [F32.static_cast_int]

theorem f32_quat_at_identity (s : Nat) : quat_at (identity_q : Nat → F32 r) s = ⟨1, 0, 0, 0⟩ := by
  simp [quat_at, identity_q, Nat.add_mod]

/-- Local coordinates for the identity orientation: the identity matrix applied to the centred
point. -/
theorem f32_local_coords_identity (hr : IsRounding r) (sqrt : F32 r → F32 r) (hs1 : sqrt 1 = 1)
    (t pos : Vec3 (F32 r)) :
    local_coords sqrt ⟨1, 0, 0, 0⟩ t pos =
      matvec_kernel
        { m0 := 1, m1 := 0, m2 := 0, m3 := 0, m4 := 1, m5 := 0, m6 := 0, m7 := 0, m8 := 1 }
        (centred t pos) := by
  unfold local_coords
  rw [f32_as_rotation_matrix_identity hr sqrt hs1]

/-- The identity matrix applied to `(a, 0, 0)` for a finite `a` that rounding leaves unchanged. -/
theorem f32_matvec_identity_fin (hr : IsRounding r) (a : ℚ) (ha : F32.round r a = F32.fin a) :
    matvec_kernel
        ({ m0 := 1, m1 := 0, m2 := 0, m3 := 0, m4 := 1, m5 := 0, m6 := 0, m7 := 0, m8 := 1 } :
          Mat9 (F32 r)) ⟨F32.fin a, 0, 0⟩ = ⟨F32.fin a, 0, 0⟩ := by
  have e0 : F32.round r 0 = F32.fin 0 := by rw [F32.round_zero hr.zero, F32.zero_def]
  simp [matvec_kernel, F32.zero_def, F32.one_def, F32.fin_mul_fin, F32.fin_add_fin, e0, ha]

/-- The identity matrix applied to `(+inf, 0, 0)`: the products `0 * inf` are NaN. -/
theorem f32_matvec_identity_pinf (hr : IsRounding r) :
    matvec_kernel
        ({ m0 := 1, m1 := 0, m2 := 0, m3 := 0, m4 := 1, m5 := 0, m6 := 0, m7 := 0, m8 := 1 } :
          Mat9 (F32 r)) ⟨F32.pinf, 0, 0⟩ = ⟨F32.pinf, F32.nan, F32.nan⟩ := by
  have e0 : F32.round r 0 = F32.fin 0 := by rw [F32.round_zero hr.zero, F32.zero_def]
  have m1 : (F32.fin 1 * F32.pinf : F32 r) = F32.pinf := by
    show F32.mul _ _ = _
    simp [F32.mul]
  have m0 : (F32.fin 0 * F32.pinf : F32 r) = F32.nan := by
    show F32.mul _ _ = _
    simp [F32.mul]
  have a1 : ∀ b : F32 r, F32.nan + b = F32.nan := fun b => by
    show F32.add _ _ = _
    cases b <;> rfl
  have a2 : ∀ x : ℚ, (F32.pinf + F32.fin x : F32 r) = F32.pinf := fun x => rfl
  simp [matvec_kernel, F32.zero_def, F32.one_def, m1, m0, a1, a2, F32.fin_mul_fin, e0]

theorem f32_overshoot_pos (MAX : F32 r → F32 r → F32 r) (hMAX : MAX = MAX_gt ∨ MAX = MAX_lt)
    (a : ℚ) (ha0 : 0 < a) (ha : F32.round r a = F32.fin a) :
    overshoot MAX (F32.fin a) 0 = F32.fin a := by
  unfold overshoot
  rw [F32.abs_fin, F32.zero_def, F32.fin_sub_fin, neg_zero, add_zero, abs_of_pos ha0, ha]
  rcases hMAX with rfl | rfl
  · unfold MAX_gt
    rw [if_pos]
    show F32.lt _ _ = true
    simp [F32.lt, ha0]
  · unfold MAX_lt
    rw [if_neg]
    show ¬ F32.lt _ _ = true
    simp [F32.lt, le_of_lt ha0]

theorem f32_overshoot_zero_zero (hr : IsRounding r) (MAX : F32 r → F32 r → F32 r)
    (hMAX : MAX = MAX_gt ∨ MAX = MAX_lt) : overshoot MAX (0 : F32 r) 0 = 0 := by
  refine f32_overshoot_eq_zero hr MAX hMAX F32.isFinite_zero F32.isFinite_zero ?_
  rw [F32.zero_def, F32.abs_fin, F32.le_iff]
  simp [F32.le]

/-- The single-cuboid instance with identity orientation, translation zero, scale zero and the
point `(e, 0, 0)`, where `e > 0` is left unchanged by rounding and `e * e` rounds to zero: the
loss is zero and the point is not covered. -/
theorem f32_underflow_instance (hr : IsRounding r) (sqrt : F32 r → F32 r) (hs1 : sqrt 1 = 1)
    (MAX : F32 r → F32 r → F32 r) (hMAX : MAX = MAX_gt ∨ MAX = MAX_lt) (e : ℚ) (he0 : 0 < e)
    (he : F32.round r e = F32.fin e) (hee : F32.round r (e * e) = F32.fin 0)
    (in_z in_t in_pos : Nat → F32 r) (hin_z : in_z = fun _ => 0) (hin_t : in_t = fun _ => 0)
    (hin : in_pos = point_on_x_axis (F32.fin e))
    (pcd0 : Nat → F32 r) (idx0 : Nat → Nat) (loss0 : F32 r) :
    compute_coverage_select_loss sqrt MAX 1 1 in_z identity_q in_t all_active in_pos pcd0 idx0
        loss0 = 0 ∧
      ¬ ∀ p, p < 1 → ∃ c, c < 1 ∧ all_active (slot_of 1 1 in_pos p c) = 1 ∧
        within_box (vec3_at in_z (slot_of 1 1 in_pos p c))
          (local_coords sqrt (quat_at identity_q (slot_of 1 1 in_pos p c))
            (vec3_at in_t (slot_of 1 1 in_pos p c)) (point_at 1 in_pos p)) := by
  have hslot : slot_of 1 1 in_pos 0 0 = 0 := by
    simp [slot_of, batch_of, hin, point_on_x_axis, f32_static_cast_int_zero]
  have hcen : centred (vec3_at in_t 0) (point_at 1 in_pos 0) = ⟨F32.fin e, 0, 0⟩ := by
    have e0 : F32.round r 0 = F32.fin 0 := by rw [F32.round_zero hr.zero, F32.zero_def]
    simp [centred, vec3_at, point_at, hin, hin_t, point_on_x_axis, F32.zero_def, F32.fin_sub_fin,
      he, e0]
  have hl : local_coords sqrt (quat_at identity_q 0) (vec3_at in_t 0) (point_at 1 in_pos 0) =
      ⟨F32.fin e, 0, 0⟩ := by
    rw [f32_quat_at_identity, f32_local_coords_identity hr sqrt hs1, hcen,
      f32_matvec_identity_fin hr e he]
  have hz : vec3_at in_z 0 = ⟨0, 0, 0⟩ := by rw [hin_z]; rfl
  have hbox : box_distance MAX (⟨0, 0, 0⟩ : Vec3 (F32 r)) ⟨F32.fin e, 0, 0⟩ = 0 := by
    unfold box_distance
    simp only [f32_overshoot_pos MAX hMAX e he0 he, f32_overshoot_zero_zero hr MAX hMAX,
      F32.fin_mul_fin, hee, f32_zero_mul_zero hr]
    rw [← F32.zero_def, F32.zero_add_zero hr.zero, F32.zero_add_zero hr.zero]
  constructor
  · have hsel : get_min_distance_cube_index 1 1
        (fill_point_cube_distance sqrt MAX (1 * 1) 1 1 in_z identity_q in_t
          all_active in_pos pcd0) idx0 0 = 0 := by
      rw [f32_get_min_distance_cube_index_apply _ _ _ _ _ (by omega)]
      simp [get_min_distance_cube_index_scan]
    have hD := f32_fill_point_cube_distance_apply sqrt MAX 1 1 in_z identity_q
      in_t all_active in_pos pcd0 0 0 (by omega) (by omega)
    rw [hslot, hl, hz, hbox, if_pos (show all_active 0 = 1 from rfl)] at hD
    unfold compute_coverage_select_loss get_coverage_loss
    rw [kernel_loop_one]
    simp only [get_coverage_loss_thread, hsel, hD]
    have h1 : (F32.of_int 1 : F32 r) = F32.fin 1 := by
      unfold F32.of_int
      rw [Nat.cast_one, F32.round_one hr.one, F32.one_def]
    rw [h1, F32.zero_div_fin hr one_ne_zero]
    unfold gpu_set_zero
    rw [if_pos (by omega)]
    exact F32.zero_add_zero hr.zero
  · intro h
    obtain ⟨c, hc, _, hw⟩ := h 0 (by omega)
    have hc0 : c = 0 := by omega
    subst hc0
    rw [hslot, hl, hz] at hw
    have hx := hw.1
    rw [F32.zero_def, F32.abs_fin, F32.le_iff] at hx
    simp only [F32.le, decide_eq_true_eq] at hx
    rw [abs_of_pos he0] at hx
    linarith

theorem f32_add_nan (a : F32 r) : a + F32.nan = F32.nan := by
  show F32.add _ _ = _
  cases a <;> rfl

theorem f32_zero_mul_pinf : (0 : F32 r) * F32.pinf = F32.nan := by
  rw [F32.zero_def]
  show F32.mul _ _ = _
  simp [F32.mul]

theorem f32_overshoot_pinf (MAX : F32 r → F32 r → F32 r) (hMAX : MAX = MAX_gt ∨ MAX = MAX_lt)
    (y : ℚ) : overshoot MAX F32.pinf (F32.fin y) = F32.pinf := by
  unfold overshoot
  have h : (F32.abs F32.pinf - F32.fin y : F32 r) = F32.pinf := rfl
  rw [h, F32.zero_def]
  rcases hMAX with rfl | rfl
  · unfold MAX_gt
    rw [if_pos]
    rfl
  · unfold MAX_lt
    rw [if_neg]
    show ¬ F32.lt _ _ = true
    simp [F32.lt]

/-- The scan of a row of two entries keeps index `0` unless the second entry is smaller. -/
theorem f32_scan_two (d : Nat → F32 r) (h : ¬ d 1 < d 0) :
    (get_min_distance_cube_index_scan 2 d).2 = 0 := by
  unfold get_min_distance_cube_index_scan
  simp [List.range', h]

/-- The box distance of local coordinates `(+inf, NaN, NaN)` is `+inf` or NaN: it is not below
any value. -/
theorem f32_box_distance_overflow (MAX : F32 r → F32 r → F32 r)
    (hMAX : MAX = MAX_gt ∨ MAX = MAX_lt) (y : ℚ) (z1 z2 a : F32 r) :
    ¬ box_distance MAX ⟨F32.fin y, z1, z2⟩ ⟨F32.pinf, F32.nan, F32.nan⟩ < a := by
  unfold box_distance
  simp only [f32_overshoot_pinf MAX hMAX]
  have hpp : (F32.pinf * F32.pinf : F32 r) = F32.pinf := rfl
  rw [hpp]
  generalize overshoot MAX F32.nan z1 * overshoot MAX F32.nan z1 = u
  generalize overshoot MAX F32.nan z2 * overshoot MAX F32.nan z2 = v
  show ¬ F32.lt (F32.add (F32.add F32.pinf u) v) a = true
  cases u <;> cases v <;> cases a <;> simp [F32.add, F32.lt]

/-- The two-slot instance with identity orientations, scales one, translations `(a, 0, 0)` and
`(-a, 0, 0)` and the point `(a, 0, 0)`, where `a + a` overflows: the point selects slot `0`, and
the thread of the unselected slot `1` adds `0 * inf` to its scale gradient. -/
theorem f32_overflow_instance (hr : IsRounding r) (sqrt : F32 r → F32 r) (hs1 : sqrt 1 = 1)
    (MAX : F32 r → F32 r → F32 r) (hMAX : MAX = MAX_gt ∨ MAX = MAX_lt) (a : ℚ)
    (ha : F32.OVERFLOW ≤ a + a)
    (in_z in_t in_pos : Nat → F32 r) (hin_z : in_z = fun _ => 1) (hin_t : in_t = opposite_t a)
    (hin : in_pos = point_on_x_axis (F32.fin a)) (loss : F32 r)
    (pcd0 : Nat → F32 r) (idx0 : Nat → Nat) (gpcd0 : Nat → F32 r) (G0 : GradBufs (F32 r)) :
    get_min_distance_cube_index 1 2
        (fill_point_cube_distance sqrt MAX (1 * 2) 2 1 in_z identity_q in_t all_active in_pos
          pcd0) idx0 0 = 0 ∧
      (compute_coverage_select_loss_grad sqrt MAX 2 1 1 loss in_z identity_q in_t all_active
        in_pos pcd0 idx0 gpcd0 G0).grad_z ((0 * 2 + 1) * 3 + 0) = F32.nan := by
  have e0 : F32.round r 0 = F32.fin 0 := by rw [F32.round_zero hr.zero, F32.zero_def]
  have hb : batch_of 1 in_pos 0 = 0 := by
    simp [batch_of, hin, point_on_x_axis, f32_static_cast_int_zero]
  have hslot0 : slot_of 2 1 in_pos 0 0 = 0 := by simp [slot_of, hb]
  have hslot1 : slot_of 2 1 in_pos 0 1 = 1 := by simp [slot_of, hb]
  have hz : ∀ s, vec3_at in_z s = ⟨F32.fin 1, F32.fin 1, F32.fin 1⟩ := by
    intro s
    rw [hin_z]
    simp [vec3_at, F32.one_def]
  -- slot 0: the centred point is zero
  have hcen0 : centred (vec3_at in_t 0) (point_at 1 in_pos 0) = ⟨F32.fin 0, 0, 0⟩ := by
    simp [centred, vec3_at, point_at, hin, hin_t, opposite_t, point_on_x_axis, F32.zero_def,
      F32.fin_sub_fin, e0]
  have hl0 : local_coords sqrt (quat_at identity_q 0) (vec3_at in_t 0) (point_at 1 in_pos 0) =
      ⟨F32.fin 0, 0, 0⟩ := by
    rw [f32_quat_at_identity, f32_local_coords_identity hr sqrt hs1, hcen0,
      f32_matvec_identity_fin hr 0 e0]
  have hov0 : overshoot MAX (F32.fin 0 : F32 r) (F32.fin 1) = 0 := by
    refine f32_overshoot_eq_zero hr MAX hMAX (F32.isFinite_fin _) (F32.isFinite_fin _) ?_
    rw [F32.abs_fin, F32.le_iff]
    simp [F32.le]
  have hbox0 : box_distance MAX (⟨F32.fin 1, F32.fin 1, F32.fin 1⟩ : Vec3 (F32 r))
      ⟨F32.fin 0, 0, 0⟩ = 0 := by
    unfold box_distance
    simp only [F32.zero_def] at hov0 ⊢
    simp only [hov0, F32.fin_mul_fin, mul_zero, e0, F32.fin_add_fin, add_zero]
  -- slot 1: the centred point overflows
  have hcen1 : centred (vec3_at in_t 1) (point_at 1 in_pos 0) = ⟨F32.pinf, 0, 0⟩ := by
    have hx : (F32.fin a - F32.fin (-a) : F32 r) = F32.pinf := by
      rw [F32.fin_sub_fin, neg_neg]
      exact f32_round_overflow ha
    simp [centred, vec3_at, point_at, hin, hin_t, opposite_t, point_on_x_axis, F32.zero_def,
      F32.fin_sub_fin, e0, hx]
  have hl1 : local_coords sqrt (quat_at identity_q 1) (vec3_at in_t 1) (point_at 1 in_pos 0) =
      ⟨F32.pinf, F32.nan, F32.nan⟩ := by
    rw [f32_quat_at_identity, f32_local_coords_identity hr sqrt hs1, hcen1,
      f32_matvec_identity_pinf hr]
  -- the selection
  have hD0 := f32_fill_point_cube_distance_apply sqrt MAX 2 1 in_z identity_q in_t all_active
    in_pos pcd0 0 0 (by omega) (by omega)
  have hD1 := f32_fill_point_cube_distance_apply sqrt MAX 2 1 in_z identity_q in_t all_active
    in_pos pcd0 0 1 (by omega) (by omega)
  rw [hslot0, hl0, hz, hbox0, if_pos (show all_active 0 = 1 from rfl)] at hD0
  rw [hslot1, hl1, hz, if_pos (show all_active 1 = 1 from rfl)] at hD1
  have hsel : get_min_distance_cube_index 1 2
      (fill_point_cube_distance sqrt MAX (1 * 2) 2 1 in_z identity_q in_t all_active in_pos
        pcd0) idx0 0 = 0 := by
    rw [f32_get_min_distance_cube_index_apply _ _ _ _ _ (by omega)]
    apply f32_scan_two
    show ¬ fill_point_cube_distance sqrt MAX (1 * 2) 2 1 in_z identity_q in_t all_active in_pos
      pcd0 (0 * 2 + 1) < _
    rw [hD1]
    exact f32_box_distance_overflow MAX hMAX 1 _ _ _
  refine ⟨hsel, ?_⟩
  -- the routed gradient of the pair (0, 1) is zero
  have hsel' : ∀ p, p < 1 → get_min_distance_cube_index 1 2
      (fill_point_cube_distance sqrt MAX (1 * 2) 2 1 in_z identity_q in_t all_active in_pos
        pcd0) idx0 p < 2 := by
    intro p hp
    have hp0 : p = 0 := by omega
    subst hp0
    rw [hsel]
    omega
  have hg := f32_fill_grad_point_cube_distance_loop 1 2 1 loss _ (gpu_set_zero gpcd0 (1 * 2))
    hsel' 0 1 (by omega)
  rw [hsel, if_neg (by omega)] at hg
  have hg0 : gpu_set_zero gpcd0 (1 * 2) (0 * 2 + 1) = 0 := by
    unfold gpu_set_zero
    rw [if_pos (by omega)]
  rw [hg0] at hg
  -- the thread of the pair (0, 1)
  unfold compute_coverage_select_loss_grad fill_grad_wrt_zqt
  rw [show (1 * 2 : Nat) = 1 + 1 from rfl, kernel_loop_succ]
  rw [f32_fill_grad_wrt_zqt_thread_eq sqrt MAX 2 1 in_z identity_q in_t all_active in_pos _ 1 _
    _ _ _ _ _ rfl rfl rfl rfl rfl]
  have hs1' : slot_of 2 1 in_pos (1 / 2) (1 % 2) = 1 := hslot1
  rw [hs1', if_pos (show all_active 1 = 1 from rfl)]
  show axis_add MAX (axis_add MAX (axis_add MAX _ (1 * 3 + 0) _ _ _) (1 * 3 + 1) _ _ _) (1 * 3 + 2)
    _ _ _ ((0 * 2 + 1) * 3 + 0) = F32.nan
  rw [f32_axis_add_of_ne _ _ _ _ _ _ _ (by omega), f32_axis_add_of_ne _ _ _ _ _ _ _ (by omega)]
  have hp : point_at 1 in_pos (1 / 2) = point_at 1 in_pos 0 := rfl
  rw [hp, hl1]
  have hz3 : in_z (1 * 3 + 0) = F32.fin 1 := by rw [hin_z, F32.one_def]
  rw [hz3]
  unfold axis_add
  have hcond : (F32.abs (F32.pinf : F32 r) - F32.fin 1 > 0) := by
    show F32.lt _ _ = true
    rfl
  rw [if_pos hcond, f32_overshoot_pinf MAX hMAX]
  unfold CudaAtomicAdd
  have hidx : (0 * 2 + 1) * 3 + 0 = 1 * 3 + 0 := by omega
  rw [hidx, Function.update_same]
  have hgg : fill_grad_point_cube_distance 1 2 1 loss
      (get_min_distance_cube_index 1 2
        (fill_point_cube_distance sqrt MAX (1 * 2) 2 1 in_z identity_q in_t all_active in_pos
          pcd0) idx0)
      (gpu_set_zero gpcd0 (1 * 2)) (1 / 2 * 2 + 1 % 2) = 0 := hg
  rw [hgg, f32_zero_mul_two hr.zero, f32_zero_mul_pinf]
  have hneg : (-(F32.nan : F32 r)) = F32.nan := rfl
  rw [hneg, f32_add_nan]

theorem f32_sqrt_of_square_one (hr : IsRounding r) : sqrt_of_square (1 : F32 r) = 1 := by
  have h : Rat.sqrt 1 = 1 := by
    have h := Rat.sqrt_eq 1
    rwa [mul_one, abs_one] at h
  rw [F32.one_def]
  show (if (1 : ℚ) < 0 then F32.nan else F32.round r (Rat.sqrt 1)) = F32.fin 1
  rw [if_neg (by norm_num), h, F32.round_one hr.one, F32.one_def]

/-- The overshoot of the finite coordinate `x` over the finite half-extent `y` when the rounded
difference `|x| - y` is the positive value `d`. -/
theorem f32_overshoot_fin (MAX : F32 r → F32 r → F32 r) (hMAX : MAX = MAX_gt ∨ MAX = MAX_lt)
    (x y d : ℚ) (hd0 : 0 < d) (hd : F32.round r (|x| + -y) = F32.fin d) :
    overshoot MAX (F32.fin x) (F32.fin y) = F32.fin d := by
  unfold overshoot
  rw [F32.abs_fin, F32.fin_sub_fin, hd, F32.zero_def]
  rcases hMAX with rfl | rfl
  · unfold MAX_gt
    rw [if_pos]
    show F32.lt _ _ = true
    simp [F32.lt, hd0]
  · unfold MAX_lt
    rw [if_neg]
    show ¬ F32.lt _ _ = true
    simp [F32.lt, le_of_lt hd0]

/-- The quaternion back-propagation at the identity orientation maps the zero matrix to zero. -/
theorem f32_grad_quaternion_zero_identity :
    grad_rotation_matrix_to_quaternion (zero_matrix : Mat9 (F32 flush_to_zero))
      (conjugate ⟨1, 0, 0, 0⟩) = ⟨0, 0, 0, 0⟩ := by
  have e0 : F32.round flush_to_zero 0 = F32.fin 0 := f32_round_flush_small (by norm_num)
  have e1 : F32.round flush_to_zero 1 = F32.fin 1 :=
    f32_round_flush (by norm_num) (by unfold F32.OVERFLOW; norm_num)
      (by unfold F32.OVERFLOW; norm_num)
  have e4 : F32.round flush_to_zero 4 = F32.fin 4 :=
    f32_round_flush (by norm_num) (by unfold F32.OVERFLOW; norm_num)
      (by unfold F32.OVERFLOW; norm_num)
  have e2 : F32.round flush_to_zero 2 = F32.fin 2 :=
    f32_round_flush (by norm_num) (by unfold F32.OVERFLOW; norm_num)
      (by unfold F32.OVERFLOW; norm_num)
  have em2 : F32.round flush_to_zero (-2) = F32.fin (-2) :=
    f32_round_flush (by norm_num) (by unfold F32.OVERFLOW; norm_num)
      (by unfold F32.OVERFLOW; norm_num)
  simp [grad_rotation_matrix_to_quaternion, zero_matrix, conjugate, F32.zero_def, F32.one_def,
    F32.two_def, F32.four_def, F32.fin_mul_fin, F32.fin_add_fin, F32.fin_sub_fin, F32.neg_fin,
    F32.fin_div_fin, e0, e1, e2, em2, e4]

theorem f32_flush_values :
    F32.round flush_to_zero 0 = F32.fin 0 ∧ F32.round flush_to_zero 1 = F32.fin 1 ∧
      F32.round flush_to_zero 2 = F32.fin 2 ∧ F32.round flush_to_zero 3 = F32.fin 3 ∧
      F32.round flush_to_zero 4 = F32.fin 4 ∧ F32.round flush_to_zero 5 = F32.fin 5 ∧
      F32.round flush_to_zero 16 = F32.fin 16 := by
  refine ⟨f32_round_flush_small (by norm_num), ?_, ?_, ?_, ?_, ?_, ?_⟩ <;>
    exact f32_round_flush (by norm_num) (by unfold F32.OVERFLOW; norm_num)
      (by unfold F32.OVERFLOW; norm_num)

/-- Facts on the instance with one point `(3, 0, 0)` and identity orientations, scales one, and
translations `(2, 0, 0)` (slot `0`) and `(-2, 0, 0)` (slot `1`): local coordinates and
overshoots. -/
theorem f32_near_instance (MAX : F32 flush_to_zero → F32 flush_to_zero → F32 flush_to_zero)
    (hMAX : MAX = MAX_gt ∨ MAX = MAX_lt) :
    slot_of 2 1 near_point 0 0 = 0 ∧ slot_of 2 1 near_point 0 1 = 1 ∧
      local_coords sqrt_of_square (quat_at identity_q 0) (vec3_at near_t 0)
        (point_at 1 near_point 0) = ⟨F32.fin 1, 0, 0⟩ ∧
      local_coords sqrt_of_square (quat_at identity_q 1) (vec3_at near_t 1)
        (point_at 1 near_point 0) = ⟨F32.fin 5, 0, 0⟩ ∧
      overshoots MAX (vec3_at ones 0) ⟨F32.fin 1, 0, 0⟩ = ⟨0, 0, 0⟩ ∧
      overshoots MAX (vec3_at ones 1) ⟨F32.fin 5, 0, 0⟩ = ⟨F32.fin 4, 0, 0⟩ := by
  have hr := isRounding_flush_to_zero
  have hs1 : sqrt_of_square (1 : F32 flush_to_zero) = 1 := f32_sqrt_of_square_one hr
  obtain ⟨e0, e1, e2, e3, e4, e5, e16⟩ := f32_flush_values
  have hb : batch_of 1 near_point 0 = 0 := by
    simp [batch_of, near_point, point_on_x_axis, f32_static_cast_int_zero]
  have hcen0 : centred (vec3_at near_t 0) (point_at 1 near_point 0) = ⟨F32.fin 1, 0, 0⟩ := by
    have hx : (F32.fin 3 - F32.fin 2 : F32 flush_to_zero) = F32.fin 1 := by
      rw [F32.fin_sub_fin, show (3 : ℚ) + -2 = 1 from by norm_num, e1]
    simp [centred, vec3_at, point_at, near_point, near_t, opposite_t, point_on_x_axis,
      F32.zero_def, F32.fin_sub_fin, e0, hx]
  have hcen1 : centred (vec3_at near_t 1) (point_at 1 near_point 0) = ⟨F32.fin 5, 0, 0⟩ := by
    have hx : (F32.fin 3 - F32.fin (-2) : F32 flush_to_zero) = F32.fin 5 := by
      rw [F32.fin_sub_fin, show (3 : ℚ) + - -2 = 5 from by norm_num, e5]
    simp [centred, vec3_at, point_at, near_point, near_t, opposite_t, point_on_x_axis,
      F32.zero_def, F32.fin_sub_fin, e0, hx]
  have hov0 : ∀ x : ℚ, |x| ≤ 1 →
      overshoot MAX (F32.fin x : F32 flush_to_zero) (F32.fin 1) = 0 := by
    intro x hx
    refine f32_overshoot_eq_zero hr MAX hMAX (F32.isFinite_fin _) (F32.isFinite_fin _) ?_
    rw [F32.abs_fin, F32.le_iff]
    simpa [F32.le] using hx
  have hov4 : overshoot MAX (F32.fin 5 : F32 flush_to_zero) (F32.fin 1) = F32.fin 4 := by
    refine f32_overshoot_fin MAX hMAX 5 1 4 (by norm_num) ?_
    rw [show |(5 : ℚ)| + -1 = 4 from by norm_num [abs_of_pos], e4]
  refine ⟨by simp [slot_of, hb], by simp [slot_of, hb], ?_, ?_, ?_, ?_⟩
  · rw [f32_quat_at_identity, f32_local_coords_identity hr _ hs1, hcen0,
      f32_matvec_identity_fin hr 1 e1]
  · rw [f32_quat_at_identity, f32_local_coords_identity hr _ hs1, hcen1,
      f32_matvec_identity_fin hr 5 e5]
  · simp only [overshoots, vec3_at, ones, F32.one_def, F32.zero_def]
    rw [hov0 1 (by norm_num), hov0 0 (by norm_num), F32.zero_def]
  · simp only [overshoots, vec3_at, ones, F32.one_def, F32.zero_def]
    rw [hov4, hov0 0 (by norm_num), F32.zero_def]

theorem f32_box_distance_overshoots {r : ℚ → ℚ} (MAX : F32 r → F32 r → F32 r)
    (z l : Vec3 (F32 r)) :
    box_distance MAX z l =
      (overshoots MAX z l).x * (overshoots MAX z l).x +
        (overshoots MAX z l).y * (overshoots MAX z l).y +
        (overshoots MAX z l).z * (overshoots MAX z l).z := rfl

/-- The distance matrix and the selection of the instance `f32_near_instance`: the point is
covered by slot `0`, at distance 16 from slot `1`, and selects slot `0`. -/
theorem f32_near_distances (MAX : F32 flush_to_zero → F32 flush_to_zero → F32 flush_to_zero)
    (hMAX : MAX = MAX_gt ∨ MAX = MAX_lt) (pcd0 : Nat → F32 flush_to_zero) (idx0 : Nat → Nat) :
    fill_point_cube_distance sqrt_of_square MAX (1 * 2) 2 1 ones identity_q near_t all_active
        near_point pcd0 (0 * 2 + 0) = 0 ∧
      fill_point_cube_distance sqrt_of_square MAX (1 * 2) 2 1 ones identity_q near_t all_active
        near_point pcd0 (0 * 2 + 1) = F32.fin 16 ∧
      get_min_distance_cube_index 1 2
        (fill_point_cube_distance sqrt_of_square MAX (1 * 2) 2 1 ones identity_q near_t
          all_active near_point pcd0) idx0 0 = 0 := by
  obtain ⟨hs0, hs1, hl0, hl1, ho0, ho1⟩ := f32_near_instance MAX hMAX
  obtain ⟨e0, e1, e2, e3, e4, e5, e16⟩ := f32_flush_values
  have hD0 := f32_fill_point_cube_distance_apply sqrt_of_square MAX 2 1 ones identity_q near_t
    all_active near_point pcd0 0 0 (by omega) (by omega)
  have hD1 := f32_fill_point_cube_distance_apply sqrt_of_square MAX 2 1 ones identity_q near_t
    all_active near_point pcd0 0 1 (by omega) (by omega)
  rw [hs0, hl0, if_pos (show all_active 0 = 1 from rfl), f32_box_distance_overshoots, ho0] at hD0
  rw [hs1, hl1, if_pos (show all_active 1 = 1 from rfl), f32_box_distance_overshoots, ho1] at hD1
  simp only [F32.zero_def, F32.fin_mul_fin, F32.fin_add_fin, mul_zero, add_zero, e0] at hD0
  simp only [F32.zero_def, F32.fin_mul_fin, F32.fin_add_fin, mul_zero, add_zero, e0] at hD1
  rw [show (4 : ℚ) * 4 = 16 from by norm_num, e16, F32.fin_add_fin, add_zero, e16,
    F32.fin_add_fin, add_zero, e16] at hD1
  refine ⟨by rw [hD0, F32.zero_def], hD1, ?_⟩
  rw [f32_get_min_distance_cube_index_apply _ _ _ _ _ (by omega)]
  apply f32_scan_two
  show ¬ fill_point_cube_distance sqrt_of_square MAX (1 * 2) 2 1 ones identity_q near_t all_active
      near_point pcd0 (0 * 2 + 1) <
    fill_point_cube_distance sqrt_of_square MAX (1 * 2) 2 1 ones identity_q near_t all_active
      near_point pcd0 (0 * 2 + 0)
  rw [hD0, hD1]
  show ¬ F32.lt _ _ = true
  simp [F32.lt]

end Binary32

/-! ## Claims on exact outcomes, over binary32 -/

namespace Binary32

variable {r : ℚ → ℚ}

/-- C22 fails as stated: one point `(2^127, 0, 0)` and one batch element with two active slots
with identity orientation and scale one, at `(2^127, 0, 0)` and `(-2^127, 0, 0)`.  The point
selects slot `0`, so slot `1` is active and selected by no point.  In the thread of slot `1` the
centred coordinate `2^127 + 2^127` overflows to `+inf` (line 240), the overshoot `dx` is `+inf`
and `gdx = 0 * 2 * inf` is NaN (line 257); as `inf - 1 > 0`, the NaN is added to the scale
gradient of the unselected slot, which is therefore not 0.  This holds for every square root
with `sqrt(1) = 1` and for both usual definitions of the macro `MAX`.  Every input is a binary32
number. -/
theorem C22_counterexample :
    ((∀ s, quat_at (identity_q : Nat → F32 flush_to_zero) s ≠ ⟨0, 0, 0, 0⟩) ∧
      all_active (0 * 2 + 1) = 1) ∧
    ∀ sqrt : F32 flush_to_zero → F32 flush_to_zero, sqrt 1 = 1 →
      ∀ MAX : F32 flush_to_zero → F32 flush_to_zero → F32 flush_to_zero,
        MAX = MAX_gt ∨ MAX = MAX_lt →
      (∀ p, p < 1 → batch_of 1 far_point p = 0 →
        get_min_distance_cube_index 1 2
          (fill_point_cube_distance sqrt MAX (1 * 2) 2 1 ones identity_q far_apart_t all_active
            far_point zeros) (fun _ => 0) p ≠ 1) ∧
      (compute_coverage_select_loss_grad sqrt MAX 2 1 1 1 ones identity_q far_apart_t all_active
        far_point zeros (fun _ => 0) zeros ⟨zeros, zeros, zeros⟩).grad_z ((0 * 2 + 1) * 3 + 0) =
          F32.nan ∧
      (compute_coverage_select_loss_grad sqrt MAX 2 1 1 1 ones identity_q far_apart_t all_active
        far_point zeros (fun _ => 0) zeros ⟨zeros, zeros, zeros⟩).grad_z ((0 * 2 + 1) * 3 + 0) ≠
          0 := by
  refine ⟨⟨fun s => ?_, rfl⟩, ?_⟩
  · rw [f32_quat_at_identity]
    intro h
    injection h with h1
    rw [F32.one_def, F32.zero_def] at h1
    injection h1 with h1
    norm_num at h1
  · intro sqrt hs1 MAX hMAX
    obtain ⟨h1, h2⟩ := f32_overflow_instance isRounding_flush_to_zero sqrt hs1 MAX hMAX (2 ^ 127)
      (by unfold F32.OVERFLOW; norm_num) ones far_apart_t far_point rfl rfl rfl 1 zeros
      (fun _ => 0) zeros ⟨zeros, zeros, zeros⟩
    refine ⟨?_, h2, ?_⟩
    · intro p hp _
      have hp0 : p = 0 := by omega
      subst hp0
      rw [h1]
      omega
    · rw [h2, F32.zero_def]
      intro h
      injection h

/-- C22, as amended: a cuboid slot `(b, c)` that is inactive (mask `≠ 1`) has every entry of its
`grad_scale`, `grad_orientation` and `grad_translation` exactly 0 after
`compute_coverage_select_loss_grad`, on every input; this covers slot `0` of an all-inactive
batch element, to which the routed gradient is written.  An active slot that no point of batch
element `b` selects has every entry exactly 0 provided that, for each point of the batch
element, the pair's thread computes no infinity and no NaN: the local coordinates and the three
overshoots `dx`, `dy`, `dz` are finite, and `grad_rotation_matrix_to_quaternion` maps the zero
matrix to zero at the slot's orientation.  The statement holds for every rounding with
`IsRounding`, every square root and every `MAX`. -/
theorem C22_inactive_or_finite_unselected_slot_has_zero_gradient (hr : IsRounding r)
    (sqrt : F32 r → F32 r) (MAX : F32 r → F32 r → F32 r)
    (n_cube n_point batch_size : Nat) (loss : F32 r)
    (in_z in_q in_t : Nat → F32 r) (in_mask : Nat → Int) (in_pos : Nat → F32 r)
    (pcd0 : Nat → F32 r) (idx0 : Nat → Nat) (gpcd0 : Nat → F32 r) (G0 : GradBufs (F32 r))
    (b c k j : Nat) (hb : b < batch_size) (hc : c < n_cube) (hk : k < 3) (hj : j < 4)
    (h : in_mask (b * n_cube + c) ≠ 1 ∨
      ∀ p, p < n_point → batch_of n_point in_pos p = b →
        get_min_distance_cube_index n_point n_cube
            (fill_point_cube_distance sqrt MAX (n_point * n_cube) n_cube n_point in_z in_q in_t
              in_mask in_pos pcd0) idx0 p ≠ c ∧
          Finite3 (local_coords sqrt (quat_at in_q (b * n_cube + c))
            (vec3_at in_t (b * n_cube + c)) (point_at n_point in_pos p)) ∧
          Finite3 (overshoots MAX (vec3_at in_z (b * n_cube + c))
            (local_coords sqrt (quat_at in_q (b * n_cube + c)) (vec3_at in_t (b * n_cube + c))
              (point_at n_point in_pos p))) ∧
          grad_rotation_matrix_to_quaternion zero_matrix
            (conjugate (quat_at in_q (b * n_cube + c))) = ⟨0, 0, 0, 0⟩) :
    (compute_coverage_select_loss_grad sqrt MAX n_cube n_point batch_size loss in_z in_q in_t
        in_mask in_pos pcd0 idx0 gpcd0 G0).grad_z ((b * n_cube + c) * 3 + k) = 0 ∧
      (compute_coverage_select_loss_grad sqrt MAX n_cube n_point batch_size loss in_z in_q in_t
        in_mask in_pos pcd0 idx0 gpcd0 G0).grad_q ((b * n_cube + c) * 4 + j) = 0 ∧
      (compute_coverage_select_loss_grad sqrt MAX n_cube n_point batch_size loss in_z in_q in_t
        in_mask in_pos pcd0 idx0 gpcd0 G0).grad_t ((b * n_cube + c) * 3 + k) = 0 := by
  have hn : 1 ≤ n_cube := by omega
  have hslot : b * n_cube + c < batch_size * n_cube := pair_index_lt hb hc
  have hsel : ∀ p, p < n_point →
      get_min_distance_cube_index n_point n_cube
        (fill_point_cube_distance sqrt MAX (n_point * n_cube) n_cube n_point in_z in_q in_t
          in_mask in_pos pcd0) idx0 p < n_cube := by
    intro p hp
    rw [f32_get_min_distance_cube_index_apply _ _ _ _ _ hp]
    exact (f32_scan_spec n_cube _ hn).1
  have key := f32_loop_keeps_zero (n_point * n_cube)
    (fill_grad_wrt_zqt_thread sqrt MAX n_cube n_point in_z in_q in_t in_mask in_pos
      (fill_grad_point_cube_distance n_point n_cube n_point loss
        (get_min_distance_cube_index n_point n_cube
          (fill_point_cube_distance sqrt MAX (n_point * n_cube) n_cube n_point in_z in_q in_t
            in_mask in_pos pcd0) idx0)
        (gpu_set_zero gpcd0 (n_point * n_cube))))
    (b * n_cube + c) ?_
    ⟨gpu_set_zero G0.grad_z (batch_size * n_cube * 3),
      gpu_set_zero G0.grad_q (batch_size * n_cube * 4),
      gpu_set_zero G0.grad_t (batch_size * n_cube * 3)⟩ ?_
  · exact ⟨key.1 k hk, key.2.1 j hj, key.2.2 k hk⟩
  · intro index G hi hG
    refine f32_thread_keeps_zero hr.zero sqrt MAX n_cube n_point in_z in_q in_t in_mask in_pos _
      index G (b * n_cube + c) hG ?_
    by_cases hs : slot_of n_cube n_point in_pos (index / n_cube) (index % n_cube) =
        b * n_cube + c
    · by_cases hm : in_mask (b * n_cube + c) = 1
      · right; right
        have hp : index / n_cube < n_point :=
          Nat.div_lt_of_lt_mul (by rw [Nat.mul_comm]; exact hi)
        have hc' : index % n_cube < n_cube := Nat.mod_lt _ (by omega)
        obtain ⟨hbp, hcc⟩ := pair_index_inj hc' hc hs
        rcases h with h | h
        · exact absurd hm h
        · obtain ⟨hne, hl, hd, hq⟩ := h (index / n_cube) hp hbp
          refine ⟨?_, hl, hd, hq⟩
          unfold fill_grad_point_cube_distance
          rw [hcc, f32_fill_grad_point_cube_distance_loop n_point n_cube n_point loss _ _ hsel
            (index / n_cube) c hc, if_neg (fun hh => hne hh.2.symm)]
          unfold gpu_set_zero
          rw [if_pos (pair_index_lt hp hc)]
      · right; left; exact hm
    · left; exact hs
  · refine ⟨fun k hk => ?_, fun j hj => ?_, fun k hk => ?_⟩
    · show gpu_set_zero G0.grad_z (batch_size * n_cube * 3) ((b * n_cube + c) * 3 + k) = 0
      unfold gpu_set_zero
      rw [if_pos (by omega)]
    · show gpu_set_zero G0.grad_q (batch_size * n_cube * 4) ((b * n_cube + c) * 4 + j) = 0
      unfold gpu_set_zero
      rw [if_pos (by omega)]
    · show gpu_set_zero G0.grad_t (batch_size * n_cube * 3) ((b * n_cube + c) * 3 + k) = 0
      unfold gpu_set_zero
      rw [if_pos (by omega)]

/-- C22 as amended, at a concrete input: one point `(3, 0, 0)`, one batch element with two
active slots with identity orientation and scale one, at `(2, 0, 0)` and `(-2, 0, 0)`.  The point
selects slot `0`; slot `1` is active and unselected and its thread computes finite values only,
so its gradient entries are 0. -/
theorem C22_inactive_or_finite_unselected_slot_has_zero_gradient_witness :
    (compute_coverage_select_loss_grad sqrt_of_square MAX_gt 2 1 1 1 ones identity_q near_t
        all_active near_point zeros (fun _ => 0) ones ⟨ones, ones, ones⟩).grad_z
          ((0 * 2 + 1) * 3 + 0) = 0 ∧
      (compute_coverage_select_loss_grad sqrt_of_square MAX_gt 2 1 1 1 ones identity_q near_t
        all_active near_point zeros (fun _ => 0) ones ⟨ones, ones, ones⟩).grad_q
          ((0 * 2 + 1) * 4 + 0) = 0 ∧
      (compute_coverage_select_loss_grad sqrt_of_square MAX_gt 2 1 1 1 ones identity_q near_t
        all_active near_point zeros (fun _ => 0) ones ⟨ones, ones, ones⟩).grad_t
          ((0 * 2 + 1) * 3 + 0) = 0 :=
  C22_inactive_or_finite_unselected_slot_has_zero_gradient isRounding_flush_to_zero
    sqrt_of_square MAX_gt 2 1 1 1 ones identity_q near_t all_active near_point zeros (fun _ => 0)
    ones ⟨ones, ones, ones⟩ 0 1 0 0 (by decide) (by decide) (by decide) (by decide)
    (Or.inr (fun p hp _ => by
      have hp0 : p = 0 := by omega
      subst hp0
      obtain ⟨_, _, _, hl1, _, ho1⟩ := f32_near_instance MAX_gt (Or.inl rfl)
      obtain ⟨_, _, hsel⟩ := f32_near_distances MAX_gt (Or.inl rfl) zeros (fun _ => 0)
      refine ⟨by rw [hsel]; omega, ?_, ?_, ?_⟩
      · rw [show (0 * 2 + 1 : Nat) = 1 from rfl, hl1]
        exact ⟨F32.isFinite_fin _, F32.isFinite_zero, F32.isFinite_zero⟩
      · rw [show (0 * 2 + 1 : Nat) = 1 from rfl, hl1, ho1]
        exact ⟨F32.isFinite_fin _, F32.isFinite_zero, F32.isFinite_zero⟩
      · rw [f32_quat_at_identity]
        exact f32_grad_quaternion_zero_identity))

/-- C23 fails as stated: `n_point = n_cube = 1`, one active cuboid with identity orientation,
translation zero and scale `(0, 0, 0)`, and the point `(2^-80, 0, 0)`.  The overshoot on the x
axis is `dx = 2^-80` and the square `dx * dx = 2^-160` underflows to zero (line 177), so the loss
is 0 although the point is not covered: `|local_x| = 2^-80 > 0 = scale_x`.  This holds for every
square root with `sqrt(1) = 1` and for both usual definitions of the macro `MAX`.  Every value of
the trace before the square is a binary32 number. -/
theorem C23_counterexample :
    ((1 : Nat) ≤ 1 ∧ ∀ s, quat_at (identity_q : Nat → F32 flush_to_zero) s ≠ ⟨0, 0, 0, 0⟩) ∧
    ∀ sqrt : F32 flush_to_zero → F32 flush_to_zero, sqrt 1 = 1 →
      ∀ MAX : F32 flush_to_zero → F32 flush_to_zero → F32 flush_to_zero,
        MAX = MAX_gt ∨ MAX = MAX_lt →
      compute_coverage_select_loss sqrt MAX 1 1 zeros identity_q zeros all_active tiny_point
          zeros (fun _ => 0) 0 = 0 ∧
        ¬ ∀ p, p < 1 → ∃ c, c < 1 ∧ all_active (slot_of 1 1 tiny_point p c) = 1 ∧
          within_box (vec3_at zeros (slot_of 1 1 tiny_point p c))
            (local_coords sqrt (quat_at identity_q (slot_of 1 1 tiny_point p c))
              (vec3_at zeros (slot_of 1 1 tiny_point p c)) (point_at 1 tiny_point p)) := by
  refine ⟨⟨le_refl _, fun s => ?_⟩, ?_⟩
  · rw [f32_quat_at_identity]
    intro h
    injection h with h1
    rw [F32.one_def, F32.zero_def] at h1
    injection h1 with h1
    norm_num at h1
  · intro sqrt hs1 MAX hMAX
    exact f32_underflow_instance isRounding_flush_to_zero sqrt hs1 MAX hMAX (1 / 2 ^ 80)
      (by positivity)
      (f32_round_flush (by norm_num) (by unfold F32.OVERFLOW; norm_num)
        (by unfold F32.OVERFLOW; norm_num))
      (f32_round_flush_small (by norm_num)) zeros zeros tiny_point rfl rfl rfl zeros
      (fun _ => 0) 0

/-- C23, as amended: for every input with `1 ≤ n_point < 2^31` and `n_cube ≥ 1` in which, for
every point and every active slot of its batch element, the local coordinates and the scales are
finite (no infinity, no NaN) and on no axis the square of a positive overshoot underflows to
zero, and in which no division of a non-zero distance by `n_point` underflows to zero, the loss
of `compute_coverage_select_loss` is `≥ 0`, and it is 0 if and only if every point is covered:
for every point there is an active slot of its batch element whose local-frame coordinates
satisfy `|local_axis| ≤ scale_axis` on all three axes.  The statement holds for every rounding
with `IsRounding`, every square root and both usual definitions of the macro `MAX`. -/
theorem C23_loss_nonneg_and_zero_iff_covered_without_underflow (hr : IsRounding r)
    (sqrt : F32 r → F32 r) (MAX : F32 r → F32 r → F32 r) (hMAX : MAX = MAX_gt ∨ MAX = MAX_lt)
    (n_cube n_point : Nat) (in_z in_q in_t : Nat → F32 r) (in_mask : Nat → Int)
    (in_pos : Nat → F32 r) (pcd0 : Nat → F32 r) (idx0 : Nat → Nat) (loss0 : F32 r)
    (hp : 1 ≤ n_point) (hpi : n_point < 2 ^ 31) (hc : 1 ≤ n_cube)
    (hfin : ∀ p c, p < n_point → c < n_cube → in_mask (slot_of n_cube n_point in_pos p c) = 1 →
      Finite3 (local_coords sqrt (quat_at in_q (slot_of n_cube n_point in_pos p c))
        (vec3_at in_t (slot_of n_cube n_point in_pos p c)) (point_at n_point in_pos p)) ∧
      Finite3 (vec3_at in_z (slot_of n_cube n_point in_pos p c)) ∧
      no_underflow MAX (vec3_at in_z (slot_of n_cube n_point in_pos p c))
        (local_coords sqrt (quat_at in_q (slot_of n_cube n_point in_pos p c))
          (vec3_at in_t (slot_of n_cube n_point in_pos p c)) (point_at n_point in_pos p)))
    (hdiv : ∀ p c, p < n_point → c < n_cube →
      fill_point_cube_distance sqrt MAX (n_point * n_cube) n_cube n_point in_z in_q in_t in_mask
          in_pos pcd0 (p * n_cube + c) = 0 ∨
        fill_point_cube_distance sqrt MAX (n_point * n_cube) n_cube n_point in_z in_q in_t
          in_mask in_pos pcd0 (p * n_cube + c) / F32.of_int n_point ≠ 0) :
    (0 : F32 r) ≤ compute_coverage_select_loss sqrt MAX n_cube n_point in_z in_q in_t in_mask
        in_pos pcd0 idx0 loss0 ∧
      (compute_coverage_select_loss sqrt MAX n_cube n_point in_z in_q in_t in_mask in_pos pcd0
          idx0 loss0 = 0 ↔
        ∀ p, p < n_point → ∃ c, c < n_cube ∧
          in_mask (slot_of n_cube n_point in_pos p c) = 1 ∧
          within_box (vec3_at in_z (slot_of n_cube n_point in_pos p c))
            (local_coords sqrt (quat_at in_q (slot_of n_cube n_point in_pos p c))
              (vec3_at in_t (slot_of n_cube n_point in_pos p c)) (point_at n_point in_pos p))) := by
  obtain ⟨y, hy, hy0⟩ := F32.of_int_pos hr hp hpi
  have hloss : compute_coverage_select_loss sqrt MAX n_cube n_point in_z in_q in_t in_mask in_pos
      pcd0 idx0 loss0 =
        CUDA_1D_KERNEL_LOOP n_point
          (get_coverage_loss_thread n_cube n_point
            (fill_point_cube_distance sqrt MAX (n_point * n_cube) n_cube n_point in_z in_q in_t
              in_mask in_pos pcd0)
            (get_min_distance_cube_index n_point n_cube
              (fill_point_cube_distance sqrt MAX (n_point * n_cube) n_cube n_point in_z in_q in_t
                in_mask in_pos pcd0) idx0)) 0 := by
    unfold compute_coverage_select_loss get_coverage_loss gpu_set_zero
    simp
  rw [hloss]
  -- the distance matrix and the selection
  have hD := f32_fill_point_cube_distance_apply sqrt MAX n_cube n_point in_z in_q in_t in_mask
    in_pos pcd0
  generalize fill_point_cube_distance sqrt MAX (n_point * n_cube) n_cube n_point in_z in_q in_t
    in_mask in_pos pcd0 = D at hD hdiv ⊢
  have hnn : ∀ p c, p < n_point → c < n_cube → (0 : F32 r) ≤ D (p * n_cube + c) := by
    intro p c hp' hc'
    rw [hD p c hp' hc']
    split_ifs with hm
    · obtain ⟨h1, h2, _⟩ := hfin p c hp' hc' hm
      exact F32.nonneg_of_roundedNonneg (f32_box_distance_spec hr MAX hMAX h1 h2).1
    · exact f32_FLT_MAX_nonneg
  have hzero : ∀ p c, p < n_point → c < n_cube →
      (D (p * n_cube + c) = 0 ↔ in_mask (slot_of n_cube n_point in_pos p c) = 1 ∧
        within_box (vec3_at in_z (slot_of n_cube n_point in_pos p c))
          (local_coords sqrt (quat_at in_q (slot_of n_cube n_point in_pos p c))
            (vec3_at in_t (slot_of n_cube n_point in_pos p c)) (point_at n_point in_pos p))) := by
    intro p c hp' hc'
    rw [hD p c hp' hc']
    split_ifs with hm
    · obtain ⟨h1, h2, h3⟩ := hfin p c hp' hc' hm
      rw [f32_box_distance_eq_zero_iff hr MAX hMAX h1 h2 h3]
      exact ⟨fun h => ⟨hm, h⟩, fun h => h.2⟩
    · exact ⟨fun h => absurd h f32_FLT_MAX_ne_zero, fun h => absurd h.1 hm⟩
  have hsel : ∀ p, p < n_point →
      get_min_distance_cube_index n_point n_cube D idx0 p < n_cube ∧
        (D (p * n_cube + get_min_distance_cube_index n_point n_cube D idx0 p) = 0 ↔
          ∃ c, c < n_cube ∧ D (p * n_cube + c) = 0) := by
    intro p hp'
    rw [f32_get_min_distance_cube_index_apply _ _ _ _ _ hp']
    obtain ⟨s1, s2⟩ := f32_scan_spec n_cube (fun i => D (p * n_cube + i)) hc
    refine ⟨s1, fun h => ⟨_, s1, h⟩, ?_⟩
    rintro ⟨c, hc', hc0⟩
    exact s2 (fun j hj => hnn p j hp' hj) c hc' hc0
  -- the accumulation
  have hloop := f32_loss_loop hr n_point
    (fun p => D (p * n_cube + get_min_distance_cube_index n_point n_cube D idx0 p) /
      F32.of_int n_point)
    (get_coverage_loss_thread n_cube n_point D (get_min_distance_cube_index n_point n_cube D idx0))
    (fun _ _ => rfl)
    (fun p hp' => by
      show F32.RoundedNonneg (_ / F32.of_int n_point)
      rw [hy]
      exact F32.roundedNonneg_div hr (hnn p _ hp' (hsel p hp').1) hy0)
  refine ⟨F32.nonneg_of_roundedNonneg hloop.1, ?_⟩
  rw [hloop.2]
  constructor
  · intro h p hp'
    have ht := h p hp'
    have hd0 : D (p * n_cube + get_min_distance_cube_index n_point n_cube D idx0 p) = 0 :=
      (hdiv p _ hp' (hsel p hp').1).resolve_right (fun hne => hne ht)
    exact ⟨_, (hsel p hp').1, (hzero p _ hp' (hsel p hp').1).mp hd0⟩
  · intro h p hp'
    obtain ⟨c, hc', hm, hw⟩ := h p hp'
    have hd0 := ((hsel p hp').2).mpr ⟨c, hc', (hzero p c hp' hc').mpr ⟨hm, hw⟩⟩
    show _ / F32.of_int n_point = 0
    rw [hd0, hy]
    exact F32.zero_div_fin hr (ne_of_gt hy0)

/-- C23 as amended, at a concrete input: one point `(3, 0, 0)`, one batch element with two
active slots with identity orientation and scale one, at `(2, 0, 0)` and `(-2, 0, 0)`.  The point
is covered by slot `0` and lies at distance 16 from slot `1`; the loss is 0. -/
theorem C23_loss_nonneg_and_zero_iff_covered_without_underflow_witness :
    (0 : F32 flush_to_zero) ≤ compute_coverage_select_loss sqrt_of_square MAX_gt 2 1 ones
        identity_q near_t all_active near_point zeros (fun _ => 0) 1 ∧
      (compute_coverage_select_loss sqrt_of_square MAX_gt 2 1 ones identity_q near_t all_active
          near_point zeros (fun _ => 0) 1 = 0 ↔
        ∀ p, p < 1 → ∃ c, c < 2 ∧ all_active (slot_of 2 1 near_point p c) = 1 ∧
          within_box (vec3_at ones (slot_of 2 1 near_point p c))
            (local_coords sqrt_of_square (quat_at identity_q (slot_of 2 1 near_point p c))
              (vec3_at near_t (slot_of 2 1 near_point p c)) (point_at 1 near_point p))) :=
  C23_loss_nonneg_and_zero_iff_covered_without_underflow isRounding_flush_to_zero
    sqrt_of_square MAX_gt (Or.inl rfl) 2 1 ones identity_q near_t all_active near_point zeros
    (fun _ => 0) 1 (by decide) (by norm_num) (by decide)
    (fun p c hp hc _ => by
      have hp0 : p = 0 := by omega
      subst hp0
      obtain ⟨hs0, hs1, hl0, hl1, ho0, ho1⟩ := f32_near_instance MAX_gt (Or.inl rfl)
      have hone : ∀ s, Finite3 (vec3_at ones s) := fun s =>
        ⟨⟨1, F32.one_def⟩, ⟨1, F32.one_def⟩, ⟨1, F32.one_def⟩⟩
      have hle : ∀ x : ℚ, |x| ≤ 1 → F32.abs (F32.fin x : F32 flush_to_zero) ≤ 1 := by
        intro x hx
        rw [F32.abs_fin, F32.one_def, F32.le_iff]
        simpa [F32.le] using hx
      have hc' : c = 0 ∨ c = 1 := by omega
      rcases hc' with rfl | rfl
      · rw [hs0, hl0]
        refine ⟨⟨F32.isFinite_fin _, F32.isFinite_zero, F32.isFinite_zero⟩, hone 0, ?_⟩
        refine ⟨Or.inl (hle 1 (by norm_num)), Or.inl ?_, Or.inl ?_⟩
        · show F32.abs (0 : F32 flush_to_zero) ≤ 1
          rw [F32.zero_def]
          exact hle 0 (by norm_num)
        · show F32.abs (0 : F32 flush_to_zero) ≤ 1
          rw [F32.zero_def]
          exact hle 0 (by norm_num)
      · rw [hs1, hl1]
        refine ⟨⟨F32.isFinite_fin _, F32.isFinite_zero, F32.isFinite_zero⟩, hone 1, ?_⟩
        refine ⟨Or.inr ?_, Or.inl ?_, Or.inl ?_⟩
        · have h4 : overshoot MAX_gt (F32.fin 5 : F32 flush_to_zero) (vec3_at ones 1).x =
              F32.fin 4 := congrArg (fun v : Vec3 (F32 flush_to_zero) => v.x) ho1
          show overshoot MAX_gt (F32.fin 5 : F32 flush_to_zero) (vec3_at ones 1).x *
            overshoot MAX_gt (F32.fin 5 : F32 flush_to_zero) (vec3_at ones 1).x ≠ 0
          rw [h4, F32.fin_mul_fin, show (4 : ℚ) * 4 = 16 from by norm_num,
            f32_flush_values.2.2.2.2.2.2, F32.zero_def]
          intro h
          injection h with h
          norm_num at h
        · show F32.abs (0 : F32 flush_to_zero) ≤ 1
          rw [F32.zero_def]
          exact hle 0 (by norm_num)
        · show F32.abs (0 : F32 flush_to_zero) ≤ 1
          rw [F32.zero_def]
          exact hle 0 (by norm_num))
    (fun p c hp hc => by
      have hp0 : p = 0 := by omega
      subst hp0
      obtain ⟨hD0, hD1, _⟩ := f32_near_distances MAX_gt (Or.inl rfl) zeros (fun _ => 0)
      have hc' : c = 0 ∨ c = 1 := by omega
      rcases hc' with rfl | rfl
      · exact Or.inl hD0
      · right
        rw [hD1]
        have h1 : (F32.of_int 1 : F32 flush_to_zero) = F32.fin 1 := by
          unfold F32.of_int
          rw [Nat.cast_one, f32_flush_values.2.1]
        rw [h1, F32.fin_div_fin 16 1 one_ne_zero, div_one, f32_flush_values.2.2.2.2.2.2,
          F32.zero_def]
        intro h
        injection h with h
        norm_num at h)

end Binary32

end CuboidAbstraction
